import Mathlib

/-!
Verification development for the arboreal directed-graph library.

The repository contains two parallel designs:
* the flat-collection design (`src/graph_components.rs`, `src/graph_ref.rs`,
  `src/cache.rs`, `src/digraph.rs`, `src/state_graph.rs`): nodes and edges in
  `Vec`s, a `HashMap` degree map, and the `DiGraph` trait of public mutating
  operations; modelled below in namespace `SG`;
* the map-keyed design (`src/graph_base/*`, `src/digraph/*`): a `HashMap`
  node store, adjacency lists (`neighbors_before` / `neighbors_after`), the
  undo engine (`src/digraph/cache.rs`) and the unregistered mutation
  primitives (`src/digraph/digraph_impl.rs`); modelled below in namespace `DG`.

Ids are `u16` in the source; no arithmetic is ever performed on them (only
equality, ordering and hashing), so they are embedded as `Nat`.

Rust `HashMap`s are embedded as association lists, compared through lookups
(`mget`), never through their iteration order.  Rust panics (`unwrap` on
`None` / `Err`) are embedded as an explicit `panic` outcome, distinct from a
returned `Err`.
-/

namespace Arboreal

abbrev Id := Nat

/-- Lookup in an association list, mirroring `HashMap::get`. -/
def mget {α : Type} (k : Id) : List (Id × α) → Option α
  | [] => none
  | (k', v) :: t => if k' = k then some v else mget k t

/-- Insert/overwrite in an association list, mirroring `HashMap::insert`. -/
def mput {α : Type} (k : Id) (v : α) : List (Id × α) → List (Id × α)
  | [] => [(k, v)]
  | (k', v') :: t => if k' = k then (k, v) :: t else (k', v') :: mput k v t

/-- Remove a key, mirroring `HashMap::remove`. -/
def mdel {α : Type} (k : Id) (m : List (Id × α)) : List (Id × α) :=
  m.filter (fun p => p.1 != k)

/-- Update the value stored at a present key (callers mirror `get_mut` and
establish presence separately; on an absent key the source `unwrap`s, which
the operations below surface as an explicit panic before using `mmod`). -/
def mmod {α : Type} (k : Id) (f : α → α) : List (Id × α) → List (Id × α)
  | [] => []
  | (k', v) :: t => if k' = k then (k', f v) :: t else (k', v) :: mmod k f t

/-- Outcome of a Rust method on `&mut self` returning `Result<_, &str>`:
`ok`/`err` carry the state of the receiver when the method returns, `panic`
models an `unwrap` failure (the process aborts, no state is observable). -/
inductive Res (σ : Type) where
  | ok (s : σ)
  | err (s : σ) (msg : String)
  | panic
deriving DecidableEq

/-- The state delivered by a successful call, if any. -/
def Res.okState? {σ : Type} : Res σ → Option σ
  | .ok s => some s
  | _ => none

/-- The state and message delivered by an `Err` return, if any. -/
def Res.errOf? {σ : Type} : Res σ → Option (σ × String)
  | .err s m => some (s, m)
  | _ => none

namespace SG

/-- `Node<I, TN>` from `src/graph_components.rs` (tuple fields `.0`, `.1`). -/
structure Node (TN : Type) where
  id : Id
  data : Option TN
deriving DecidableEq

def Node.bare {TN : Type} (id : Id) : Node TN := ⟨id, none⟩

/-- `Edge<I, TE>` from `src/graph_components.rs` (tuple fields `.0`,`.1`,`.2`). -/
structure Edge (TE : Type) where
  startId : Id
  endId : Id
  data : Option TE
deriving DecidableEq

def Edge.bare {TE : Type} (a b : Id) : Edge TE := ⟨a, b, none⟩

/-- `GraphChange<I, TN, TE>` from `src/graph_components.rs`. -/
inductive GraphChange (TN TE : Type) where
  | AddNode (n : Node TN)
  | RemoveNode (n : Node TN) (es : List (Edge TE))
  | ChangeNodeData (n : Node TN)
  | AddEdge (e : Edge TE)
  | AddEdgeWith (e : Edge TE) (newIn newOut : Option Id)
  | RemoveEdge (e : Edge TE)
  | ChangeEdgeData (e : Edge TE)
  | InsertNodeAlongEdge (i : Id) (e : Edge TE)
  | Failure (msg : String)
deriving DecidableEq

namespace GraphChange

/-- `GraphChange::try_get_edge`. -/
def try_get_edge {TN TE : Type} : GraphChange TN TE → Except String (Edge TE)
  | .AddEdge e => .ok e
  | .AddEdgeWith e _ _ => .ok e
  | .RemoveEdge e => .ok e
  | .ChangeEdgeData e => .ok e
  | .InsertNodeAlongEdge _ e => .ok e
  | .RemoveNode _ _ => .error "To get Vec of Edge, call try_get_edge_vec()."
  | .Failure reason => .error reason
  | _ => .error "Not an edge variant."

/-- `GraphChange::try_get_node`. -/
def try_get_node {TN TE : Type} : GraphChange TN TE → Except String (Node TN)
  | .AddNode n => .ok n
  | .RemoveNode n _ => .ok n
  | .ChangeNodeData n => .ok n
  | .Failure reason => .error reason
  | _ => .error "Not a node variant."

/-- `GraphChange::try_get_edge_vec`. -/
def try_get_edge_vec {TN TE : Type} : GraphChange TN TE → Except String (List (Edge TE))
  | .RemoveNode _ ev => .ok ev
  | .Failure reason => .error reason
  | _ => .error "This method only works with the RemoveNode variant."

/-- `GraphChange::try_get_edge_with_nodes`. -/
def try_get_edge_with_nodes {TN TE : Type} :
    GraphChange TN TE → Except String (Edge TE × Option Id × Option Id)
  | .AddEdgeWith e nIn nOut => .ok (e, nIn, nOut)
  | .Failure reason => .error reason
  | _ => .error "This method only works with the AddEdgeWith variant."

end GraphChange

/-- `graph_ref::node_index` (first index whose node has the queried id). -/
def node_index {TN : Type} (queryId : Id) : List (Node TN) → Option Nat
  | [] => none
  | n :: t => if n.id = queryId then some 0 else (node_index queryId t).map (· + 1)

/-- `graph_ref::edge_index` (first index whose edge has the queried terminals). -/
def edge_index {TE : Type} (idIn idOut : Id) : List (Edge TE) → Option Nat
  | [] => none
  | e :: t =>
    if e.startId = idIn ∧ e.endId = idOut then some 0
    else (edge_index idIn idOut t).map (· + 1)

/-- `graph_ref::check_add_node`. -/
def check_add_node {TN TE : Type} (nodes : List (Node TN)) (newNode : Node TN) :
    GraphChange TN TE :=
  match node_index newNode.id nodes with
  | some _ => .Failure "Node with this id already exists."
  | none => .AddNode newNode

/-- `graph_ref::check_node_degrees` (flat design): `degs.0` counts edges whose
end terminal (`edge.1`) equals `id`, `degs.1` counts edges whose start
terminal (`edge.0`) equals `id`. -/
def check_node_degrees {TE : Type} (edges : List (Edge TE)) (id : Id) : Nat × Nat :=
  match edges with
  | [] => (0, 0)
  | e :: t =>
    let d := check_node_degrees t id
    ((if e.endId = id then 1 else 0) + d.1, (if e.startId = id then 1 else 0) + d.2)

/-- `graph_ref::check_remove_node`: collects the node and every incident edge
in edge-collection order. -/
def check_remove_node {TN TE : Type} (nodes : List (Node TN)) (edges : List (Edge TE))
    (id : Id) : GraphChange TN TE :=
  match node_index id nodes with
  | none => .Failure "Node with this id not found."
  | some index =>
    match nodes[index]? with
    | none => .Failure "Node with this id not found."
    | some nodeToDiscard =>
      .RemoveNode nodeToDiscard (edges.filter (fun e => e.startId == id || e.endId == id))

/-- `graph_ref::check_add_edge`: duplicate-terminal check first, then both
endpoint nodes must be present. -/
def check_add_edge {TN TE : Type} (nodes : List (Node TN)) (edges : List (Edge TE))
    (newEdge : Edge TE) : GraphChange TN TE :=
  match edge_index newEdge.startId newEdge.endId edges with
  | some _ => .Failure "Edge with these terminals already exists."
  | none =>
    match node_index newEdge.startId nodes, node_index newEdge.endId nodes with
    | some _, some _ => .AddEdge newEdge
    | _, _ => .Failure "Terminals not found in graph."

/-- `graph_ref::check_add_edge_with_nodes`. -/
def check_add_edge_with_nodes {TN TE : Type} (nodes : List (Node TN))
    (edges : List (Edge TE)) (idIn idOut : Id) : GraphChange TN TE :=
  match edge_index idIn idOut edges with
  | some _ => .Failure "Edge with these terminals already exists."
  | none =>
    let newIn : Option Id := match node_index idIn nodes with
      | some _ => none
      | none => some idIn
    let newOut : Option Id := match node_index idOut nodes with
      | some _ => none
      | none => some idOut
    .AddEdgeWith (Edge.bare idIn idOut) newIn newOut

/-- `graph_ref::check_remove_edge`. -/
def check_remove_edge {TN TE : Type} (edges : List (Edge TE)) (idIn idOut : Id) :
    GraphChange TN TE :=
  match edge_index idIn idOut edges with
  | some index =>
    match edges[index]? with
    | some edgeToDrop => .RemoveEdge edgeToDrop
    | none => .Failure "Edge not found in graph."
  | none => .Failure "Edge not found in graph."

/-- `HistoryDeque` from `src/cache.rs`: a `fixed_deque::Deque` with a fixed
maximum length.  `push_back` past capacity silently evicts (and returns) the
front (oldest) entry; `pop_back` removes the most recent entry. -/
structure HistoryDeque (TN TE : Type) where
  entries : List (GraphChange TN TE)
  cap : Nat
deriving DecidableEq

def HistoryDeque.new (TN TE : Type) (limit : Nat) : HistoryDeque TN TE := ⟨[], limit⟩

/-- `fixed_deque::Deque::push_back`: append, then evict the front entry when
over capacity, returning the evicted entry. -/
def HistoryDeque.push_back {TN TE : Type} (h : HistoryDeque TN TE)
    (c : GraphChange TN TE) : HistoryDeque TN TE × Option (GraphChange TN TE) :=
  let es := h.entries ++ [c]
  if h.cap < es.length then ({ h with entries := es.tail }, es.head?)
  else ({ h with entries := es }, none)

/-- `fixed_deque::Deque::pop_back`. -/
def HistoryDeque.pop_back {TN TE : Type} (h : HistoryDeque TN TE) :
    Option (GraphChange TN TE) × HistoryDeque TN TE :=
  (h.entries.getLast?, { h with entries := h.entries.dropLast })

/-- `StateGraph<TN, TE>` from `src/state_graph.rs`: the flat-collection
implementor of the `DiGraph` trait (its `mut_history` always returns the
deque, so the `ChangeCache` methods always act on it). -/
structure StateGraph (TN TE : Type) where
  name : Option String
  nodes : List (Node TN)
  edges : List (Edge TE)
  deg_map : List (Id × (Nat × Nat))
  undo_history : HistoryDeque TN TE
deriving DecidableEq

/-- `StateGraph::default`: empty graph, history capacity 100. -/
def StateGraph.default (TN TE : Type) : StateGraph TN TE :=
  ⟨none, [], [], [], HistoryDeque.new TN TE 100⟩

/-- `ChangeCache::register_change` specialised to `StateGraph` (whose
`mut_history` is always `Some`). -/
def register_change {TN TE : Type} (g : StateGraph TN TE) (c : GraphChange TN TE) :
    StateGraph TN TE :=
  { g with undo_history := (g.undo_history.push_back c).1 }

/-- `ChangeCache::pop_change` specialised to `StateGraph`. -/
def pop_change {TN TE : Type} (g : StateGraph TN TE) :
    Option (GraphChange TN TE) × StateGraph TN TE :=
  let r := g.undo_history.pop_back
  (r.1, { g with undo_history := r.2 })

/-- `ChangeCache::clear_history` specialised to `StateGraph`. -/
def clear_history {TN TE : Type} (g : StateGraph TN TE) : StateGraph TN TE :=
  { g with undo_history := { g.undo_history with entries := [] } }

/-- `DiGraph::insert_node` from `src/digraph.rs`. -/
def insert_node {TN TE : Type} (g : StateGraph TN TE) (node : Node TN) :
    Res (StateGraph TN TE) :=
  match (@check_add_node TN TE g.nodes node).try_get_node with
  | .error m => .err g m
  | .ok newNode =>
    let nodeId := newNode.id
    let g := register_change g (.AddNode newNode)
    .ok { g with nodes := g.nodes ++ [newNode], deg_map := mput nodeId (0, 0) g.deg_map }

/-- `DiGraph::insert_edge` from `src/digraph.rs`.  The two degree-map
`get_mut(..).unwrap()` calls panic when an endpoint has no degree entry. -/
def insert_edge {TN TE : Type} (g : StateGraph TN TE) (edge : Edge TE) :
    Res (StateGraph TN TE) :=
  match (@check_add_edge TN TE g.nodes g.edges edge).try_get_edge with
  | .error m => .err g m
  | .ok newEdge =>
    let idBefore := newEdge.startId
    let idAfter := newEdge.endId
    let g := register_change g (.AddEdge newEdge)
    let g := { g with edges := g.edges ++ [newEdge] }
    match mget idBefore g.deg_map with
    | none => .panic
    | some _ =>
      let dm := mmod idBefore (fun d => (d.1, d.2 + 1)) g.deg_map
      match mget idAfter dm with
      | none => .panic
      | some _ => .ok { g with deg_map := mmod idAfter (fun d => (d.1 + 1, d.2)) dm }

/-- `DiGraph::insert_node_along` from `src/digraph.rs`. -/
def insert_node_along {TN TE : Type} (g : StateGraph TN TE)
    (newId idBefore idAfter : Id) : Res (StateGraph TN TE) :=
  match (@check_add_node TN TE g.nodes (Node.bare newId)).try_get_node with
  | .error m => .err g m
  | .ok newNode =>
    match (@check_remove_edge TN TE g.edges idBefore idAfter).try_get_edge with
    | .error m => .err g m
    | .ok oldEdge =>
      match edge_index idBefore idAfter g.edges with
      | none => .panic
      | some edgeIndex =>
        let edgeBefore : Edge TE := ⟨idBefore, newId, oldEdge.data⟩
        let edgeAfter : Edge TE := Edge.bare newId idAfter
        let g := register_change g (.InsertNodeAlongEdge newId oldEdge)
        .ok { g with
              nodes := g.nodes ++ [newNode],
              edges := (g.edges.eraseIdx edgeIndex) ++ [edgeBefore, edgeAfter],
              deg_map := mput newId (1, 1) g.deg_map }

/-- `DiGraph::remove_edge_unregistered` from `src/digraph.rs`: validates,
decrements both endpoint degrees (usize `-= 1`; under the graph invariants
the counts are positive, so the `Nat` truncation is never exercised), removes
the edge, and returns the `RemoveEdge` descriptor without logging it. -/
def remove_edge_unregistered {TN TE : Type} (g : StateGraph TN TE) (idIn idOut : Id) :
    Res (GraphChange TN TE × StateGraph TN TE) :=
  let change := @check_remove_edge TN TE g.edges idIn idOut
  match change.try_get_edge with
  | .error m => .err (change, g) m
  | .ok outEdge =>
    match edge_index idIn idOut g.edges with
    | none => .panic
    | some index =>
      match mget outEdge.startId g.deg_map with
      | none => .panic
      | some _ =>
        let dm := mmod outEdge.startId (fun d => (d.1, d.2 - 1)) g.deg_map
        match mget outEdge.endId dm with
        | none => .panic
        | some _ =>
          let dm := mmod outEdge.endId (fun d => (d.1 - 1, d.2)) dm
          .ok (change, { g with deg_map := dm, edges := g.edges.eraseIdx index })

/-- `DiGraph::remove_edge` from `src/digraph.rs`. -/
def remove_edge {TN TE : Type} (g : StateGraph TN TE) (idIn idOut : Id) :
    Res (StateGraph TN TE) :=
  match remove_edge_unregistered g idIn idOut with
  | .err (_, g') m => .err g' m
  | .panic => .panic
  | .ok (change, g') => .ok (register_change g' change)

/-- The edge-removal loop inside `DiGraph::remove_node` (`for edge in out_edges
{ self.remove_edge_unregistered(edge.0, edge.1)?; }`). -/
def remove_edges_loop {TN TE : Type} :
    List (Edge TE) → StateGraph TN TE → Res (StateGraph TN TE)
  | [], g => .ok g
  | e :: t, g =>
    match remove_edge_unregistered g e.startId e.endId with
    | .err (_, g') m => .err g' m
    | .panic => .panic
    | .ok (_, g') => remove_edges_loop t g'

/-- `DiGraph::remove_node` from `src/digraph.rs`. -/
def remove_node {TN TE : Type} (g : StateGraph TN TE) (id : Id) :
    Res (StateGraph TN TE) :=
  let change := @check_remove_node TN TE g.nodes g.edges id
  match change.try_get_node with
  | .error m => .err g m
  | .ok outNode =>
    match change.try_get_edge_vec with
    | .error m => .err g m
    | .ok outEdges =>
      match node_index id g.nodes with
      | none => .panic
      | some index =>
        let g := register_change g change
        match remove_edges_loop outEdges g with
        | .err g' m => .err g' m
        | .panic => .panic
        | .ok g' =>
          .ok { g' with
                deg_map := mdel outNode.id g'.deg_map,
                nodes := g'.nodes.eraseIdx index }

/-- `DiGraph::insert_edge_with_nodes` from `src/digraph.rs`: validates, then
calls the *registered* `insert_node` / `insert_edge` for each synthesized
endpoint and for the edge (each call `unwrap`ped, so an inner `Err` panics),
and finally registers the composite `AddEdgeWith` descriptor as well. -/
def insert_edge_with_nodes {TN TE : Type} (g : StateGraph TN TE) (idIn idOut : Id) :
    Res (StateGraph TN TE) :=
  let change := @check_add_edge_with_nodes TN TE g.nodes g.edges idIn idOut
  match change.try_get_edge_with_nodes with
  | .error m => .err g m
  | .ok (newEdge, newIn, newOut) =>
    let r1 : Res (StateGraph TN TE) :=
      match newIn with
      | none => .ok g
      | some newId => insert_node g (Node.bare newId)
    match r1 with
    | .err _ _ => .panic
    | .panic => .panic
    | .ok g1 =>
      let r2 : Res (StateGraph TN TE) :=
        match newOut with
        | none => .ok g1
        | some newId => insert_node g1 (Node.bare newId)
      match r2 with
      | .err _ _ => .panic
      | .panic => .panic
      | .ok g2 =>
        match insert_edge g2 newEdge with
        | .err _ _ => .panic
        | .panic => .panic
        | .ok g3 => .ok (register_change g3 change)

/-- `DiGraph::in_out_degree`: reads the internally maintained degree map. -/
def in_out_degree {TN TE : Type} (g : StateGraph TN TE) (id : Id) : Option (Nat × Nat) :=
  mget id g.deg_map

/-- The `(start, end)` terminal pair of a flat-design edge. -/
def edgePair {TE : Type} (e : Edge TE) : Id × Id := (e.startId, e.endId)

/-- The ids of the nodes currently in the graph, in collection order. -/
def nodeIds {TN TE : Type} (g : StateGraph TN TE) : List Id := g.nodes.map Node.id

end SG

namespace SG

/-- The flat-design invariants of claim C4: unique node ids; every edge's
terminals are present nodes; unique `(start, end)` pairs; the degree map has
exactly one entry per node (its key multiset equals the node-id list) and
each entry equals the actual `(in, out)` edge counts. -/
def Invariant {TN TE : Type} (g : StateGraph TN TE) : Prop :=
  (nodeIds g).Nodup ∧
  (∀ e ∈ g.edges, e.startId ∈ nodeIds g ∧ e.endId ∈ nodeIds g) ∧
  (g.edges.map edgePair).Nodup ∧
  (g.deg_map.map Prod.fst).Perm (nodeIds g) ∧
  (∀ p ∈ g.deg_map, p.2 = check_node_degrees g.edges p.1)

instance invariantDecidable {TN TE : Type} [DecidableEq TN] [DecidableEq TE]
    (g : StateGraph TN TE) : Decidable (Invariant g) := by
  unfold Invariant
  exact inferInstance

end SG

namespace DG

/-- Canonical implementor of the `Nodal` capability trait of
`src/graph_base/graph_components.rs`: an id (`node_id` reads it back,
`bare` constructs an instance from it) plus an opaque payload. -/
structure Node (TN : Type) where
  id : Id
  data : Option TN
deriving DecidableEq

/-- `Nodal::bare`. -/
def Node.bare {TN : Type} (id : Id) : Node TN := ⟨id, none⟩

/-- Canonical implementor of the `DirEdge` capability trait of
`src/graph_base/graph_components.rs`: start/end terminal ids plus an opaque
payload.  `start_id`/`end_id`/`terminal_ids` are the field projections;
`change_end` rewrites the end terminal. -/
structure Edge (TE : Type) where
  startId : Id
  endId : Id
  data : Option TE
deriving DecidableEq

/-- `DirEdge::bare`. -/
def Edge.bare {TE : Type} (a b : Id) : Edge TE := ⟨a, b, none⟩

/-- The `(start, end)` terminal pair (`DirEdge::terminal_ids`). -/
def edgePair {TE : Type} (e : Edge TE) : Id × Id := (e.startId, e.endId)

/-- `GraphChange<N, E>` from `src/graph_base/graph_components.rs` (the
map-keyed design's descriptor; `InsertNodeAlongEdge` carries the node). -/
inductive GraphChange (TN TE : Type) where
  | AddNode (n : Node TN)
  | RemoveNode (n : Node TN) (es : List (Edge TE))
  | AddEdge (e : Edge TE)
  | AddEdgeWith (e : Edge TE) (newIn newOut : Option Id)
  | RemoveEdge (e : Edge TE)
  | InsertNodeAlongEdge (n : Node TN) (e : Edge TE)
  | Failure (msg : String)
deriving DecidableEq

namespace GraphChange

/-- `GraphChange::try_get_edge` (map-keyed variant). -/
def try_get_edge {TN TE : Type} : GraphChange TN TE → Except String (Edge TE)
  | .AddEdge e => .ok e
  | .AddEdgeWith e _ _ => .ok e
  | .RemoveEdge e => .ok e
  | .InsertNodeAlongEdge _ e => .ok e
  | .RemoveNode _ _ => .error "To get Vec of DirEdge, call try_get_edge_vec()."
  | .Failure reason => .error reason
  | _ => .error "Not an edge variant."

/-- `GraphChange::try_get_node` (map-keyed variant). -/
def try_get_node {TN TE : Type} : GraphChange TN TE → Except String (Node TN)
  | .AddNode n => .ok n
  | .RemoveNode n _ => .ok n
  | .InsertNodeAlongEdge n _ => .ok n
  | .Failure reason => .error reason
  | _ => .error "Not a node variant."

/-- `GraphChange::try_get_edge_vec` (map-keyed variant). -/
def try_get_edge_vec {TN TE : Type} : GraphChange TN TE → Except String (List (Edge TE))
  | .RemoveNode _ ev => .ok ev
  | .Failure reason => .error reason
  | _ => .error "This method only works with the RemoveNode variant."

/-- `GraphChange::try_get_edge_with_nodes` (map-keyed variant). -/
def try_get_edge_with_nodes {TN TE : Type} :
    GraphChange TN TE → Except String (Edge TE × Option Id × Option Id)
  | .AddEdgeWith e nIn nOut => .ok (e, nIn, nOut)
  | .Failure reason => .error reason
  | _ => .error "This method only works with the AddEdgeWith variant."

end GraphChange

/-- `HistoryDeque` from `src/digraph/cache.rs` (same `fixed_deque::Deque`
wrapper as the flat design's). -/
structure HistoryDeque (TN TE : Type) where
  entries : List (GraphChange TN TE)
  cap : Nat
deriving DecidableEq

/-- `HistoryDeque::new(limit)`. -/
def HistoryDeque.new (TN TE : Type) (limit : Nat) : HistoryDeque TN TE := ⟨[], limit⟩

/-- `fixed_deque::Deque::push_back` (evicting the oldest entry past capacity). -/
def HistoryDeque.push_back {TN TE : Type} (h : HistoryDeque TN TE)
    (c : GraphChange TN TE) : HistoryDeque TN TE × Option (GraphChange TN TE) :=
  let es := h.entries ++ [c]
  if h.cap < es.length then ({ h with entries := es.tail }, es.head?)
  else ({ h with entries := es }, none)

/-- `fixed_deque::Deque::pop_back`. -/
def HistoryDeque.pop_back {TN TE : Type} (h : HistoryDeque TN TE) :
    Option (GraphChange TN TE) × HistoryDeque TN TE :=
  (h.entries.getLast?, { h with entries := h.entries.dropLast })

/-- `DiGraph<N, E>`: the map-keyed graph (its struct fields are visible
through `src/digraph/digraph_impl.rs`: `name`, `nodes` map, `edges` vec,
`neighbors_before` / `neighbors_after` adjacency maps, `undo_history`). -/
structure DiGraph (TN TE : Type) where
  name : Option String
  nodes : List (Id × Node TN)
  edges : List (Edge TE)
  neighbors_before : List (Id × List Id)
  neighbors_after : List (Id × List Id)
  undo_history : HistoryDeque TN TE
deriving DecidableEq

/-- `DiGraph::default` from `src/digraph/digraph_impl.rs` (capacities are
pre-allocations only; the history limit is `UNDO_HISTORY_LIMIT = 100`). -/
def DiGraph.default (TN TE : Type) : DiGraph TN TE :=
  ⟨none, [], [], [], [], HistoryDeque.new TN TE 100⟩

/-- A `DiGraph::default` with an explicit history capacity (`HistoryDeque::new`). -/
def DiGraph.withCap (TN TE : Type) (cap : Nat) : DiGraph TN TE :=
  ⟨none, [], [], [], [], HistoryDeque.new TN TE cap⟩

/-- `ChangeCache::register_change` for `DiGraph` (whose `mut_history` is
always `Some`). -/
def register_change {TN TE : Type} (g : DiGraph TN TE) (c : GraphChange TN TE) :
    DiGraph TN TE :=
  { g with undo_history := (g.undo_history.push_back c).1 }

/-- `ChangeCache::pop_change` for `DiGraph`. -/
def pop_change {TN TE : Type} (g : DiGraph TN TE) :
    Option (GraphChange TN TE) × DiGraph TN TE :=
  let r := g.undo_history.pop_back
  (r.1, { g with undo_history := r.2 })

/-- `ChangeCache::clear_history` for `DiGraph`. -/
def clear_history {TN TE : Type} (g : DiGraph TN TE) : DiGraph TN TE :=
  { g with undo_history := { g.undo_history with entries := [] } }

/-- `graph_ref::node_id_present` from `src/graph_base/graph_ref.rs`. -/
def node_id_present {TN : Type} (nodes : List (Id × Node TN)) (id : Id) : Bool :=
  (mget id nodes).isSome

/-- `graph_ref::edge_index` from `src/graph_base/graph_ref.rs` (also
`DiGraph::edge_index` in `src/digraph/digraph_impl.rs`). -/
def edge_index {TE : Type} (idIn idOut : Id) : List (Edge TE) → Option Nat
  | [] => none
  | e :: t =>
    if e.startId = idIn ∧ e.endId = idOut then some 0
    else (edge_index idIn idOut t).map (· + 1)

/-- `graph_base::graph_ref::check_add_node`. -/
def check_add_node {TN TE : Type} (nodes : List (Id × Node TN)) (newNode : Node TN) :
    GraphChange TN TE :=
  if node_id_present nodes newNode.id then .Failure "Node with this id already exists."
  else .AddNode newNode

/-- `graph_base::graph_ref::check_node_degrees`: note that in this variant
`degs.0` counts edges whose *start* terminal equals `id` and `degs.1` counts
edges whose *end* terminal equals `id` (the transpose of the flat variant). -/
def check_node_degrees {TE : Type} (edges : List (Edge TE)) (id : Id) : Nat × Nat :=
  match edges with
  | [] => (0, 0)
  | e :: t =>
    let d := check_node_degrees t id
    ((if e.startId = id then 1 else 0) + d.1, (if e.endId = id then 1 else 0) + d.2)

/-- `graph_base::graph_ref::check_remove_node`. -/
def check_remove_node {TN TE : Type} (nodes : List (Id × Node TN))
    (edges : List (Edge TE)) (id : Id) : GraphChange TN TE :=
  match mget id nodes with
  | none => .Failure "Node with this id not found."
  | some nodeToDiscard =>
    .RemoveNode nodeToDiscard (edges.filter (fun e => e.startId == id || e.endId == id))

/-- `graph_base::graph_ref::check_add_edge`. -/
def check_add_edge {TN TE : Type} (nodes : List (Id × Node TN))
    (edges : List (Edge TE)) (newEdge : Edge TE) : GraphChange TN TE :=
  match edge_index newEdge.startId newEdge.endId edges with
  | some _ => .Failure "Edge with these terminals already exists."
  | none =>
    if node_id_present nodes newEdge.startId && node_id_present nodes newEdge.endId then
      .AddEdge newEdge
    else .Failure "Terminals not found in graph."

/-- `graph_base::graph_ref::check_add_edge_with_nodes`. -/
def check_add_edge_with_nodes {TN TE : Type} (nodes : List (Id × Node TN))
    (edges : List (Edge TE)) (idIn idOut : Id) : GraphChange TN TE :=
  match edge_index idIn idOut edges with
  | some _ => .Failure "Edge with these terminals already exists."
  | none =>
    let newIn : Option Id := if node_id_present nodes idIn then none else some idIn
    let newOut : Option Id := if node_id_present nodes idOut then none else some idOut
    .AddEdgeWith (Edge.bare idIn idOut) newIn newOut

/-- `graph_base::graph_ref::check_remove_edge`. -/
def check_remove_edge {TN TE : Type} (edges : List (Edge TE)) (idIn idOut : Id) :
    GraphChange TN TE :=
  match edge_index idIn idOut edges with
  | some index =>
    match edges[index]? with
    | some edgeToDrop => .RemoveEdge edgeToDrop
    | none => .Failure "Edge not found in graph."
  | none => .Failure "Edge not found in graph."

/-- `Vec::swap_remove`: replace the element at `i` with the last element and
pop the last.  Out-of-range `i` panics in Rust; every call site below is
guarded by an in-range check. -/
def swapRemove {α : Type} (l : List α) (i : Nat) : List α :=
  match l.getLast? with
  | none => l
  | some last => (l.set i last).dropLast

/-- `DiGraph::insert_node_unregistered` from `src/digraph/digraph_impl.rs`:
inserts the node and fresh empty adjacency entries. -/
def insert_node_unregistered {TN TE : Type} (g : DiGraph TN TE) (node : Node TN) :
    DiGraph TN TE :=
  { g with
    nodes := mput node.id node g.nodes,
    neighbors_before := mput node.id [] g.neighbors_before,
    neighbors_after := mput node.id [] g.neighbors_after }

/-- `DiGraph::remove_edge_unregistered` from `src/digraph/digraph_impl.rs`:
`swap_remove` the edge, then `retain` the adjacency lists of its endpoints
(the `get_mut(..).unwrap()`s panic when an endpoint entry is missing). -/
def remove_edge_unregistered {TN TE : Type} (g : DiGraph TN TE) (edgeIndex : Nat) :
    Option (DiGraph TN TE) :=
  match g.edges[edgeIndex]? with
  | none => none
  | some droppedEdge =>
    match mget droppedEdge.endId g.neighbors_before,
          mget droppedEdge.startId g.neighbors_after with
    | some _, some _ =>
      some { g with
             edges := swapRemove g.edges edgeIndex,
             neighbors_before :=
               mmod droppedEdge.endId
                 (fun l => l.filter (fun x => x != droppedEdge.startId)) g.neighbors_before,
             neighbors_after :=
               mmod droppedEdge.startId
                 (fun l => l.filter (fun x => x != droppedEdge.endId)) g.neighbors_after }
    | _, _ => none

/-- The edge-removal loop inside `DiGraph::remove_node_unregistered`: for each
terminal pair, find the edge index (`unwrap`) and remove it. -/
def remove_pairs_loop {TN TE : Type} :
    List (Id × Id) → DiGraph TN TE → Option (DiGraph TN TE)
  | [], g => some g
  | (s, t) :: rest, g =>
    match edge_index s t g.edges with
    | none => none
    | some idx =>
      match remove_edge_unregistered g idx with
      | none => none
      | some g' => remove_pairs_loop rest g'

/-- `DiGraph::remove_node_unregistered` from `src/digraph/digraph_impl.rs`:
removes the edges listed in the node's before-neighbors, then (re-reading the
mutated adjacency) the edges listed in its after-neighbors, then removes the
node from the node map (`remove(..).unwrap()`).  Note that the node's own
adjacency entries are emptied but never removed from the adjacency maps. -/
def remove_node_unregistered {TN TE : Type} (g : DiGraph TN TE) (nodeId : Id) :
    Option (Node TN × DiGraph TN TE) := do
  let bef ← mget nodeId g.neighbors_before
  let g1 ← remove_pairs_loop (bef.map (fun idBefore => (idBefore, nodeId))) g
  let aft ← mget nodeId g1.neighbors_after
  let g2 ← remove_pairs_loop (aft.map (fun idAfter => (nodeId, idAfter))) g1
  let n ← mget nodeId g2.nodes
  some (n, { g2 with nodes := mdel nodeId g2.nodes })

/-- `DiGraph::insert_edge_unregistered` from `src/digraph/digraph_impl.rs`:
push the edge, then register the terminals in each other's adjacency lists
(the `get_mut(..).unwrap()`s panic when an entry is missing). -/
def insert_edge_unregistered {TN TE : Type} (g : DiGraph TN TE) (edge : Edge TE) :
    Option (DiGraph TN TE) :=
  match mget edge.startId g.neighbors_after, mget edge.endId g.neighbors_before with
  | some _, some _ =>
    some { g with
           edges := g.edges ++ [edge],
           neighbors_after :=
             mmod edge.startId (fun l => l ++ [edge.endId]) g.neighbors_after,
           neighbors_before :=
             mmod edge.endId (fun l => l ++ [edge.startId]) g.neighbors_before }
  | _, _ => none

/-- The edge re-insertion loop inside `undo`'s `RemoveNode` arm. -/
def insert_edges_loop {TN TE : Type} :
    List (Edge TE) → DiGraph TN TE → Option (DiGraph TN TE)
  | [], g => some g
  | e :: rest, g =>
    match insert_edge_unregistered g e with
    | none => none
    | some g' => insert_edges_loop rest g'

/-- The per-descriptor reversal block of `DiGraph::undo` from
`src/digraph/cache.rs` (the `match change_to_reverse` body), taken over the
already-popped receiver state `g'`. -/
def undoArm {TN TE : Type} (changeToReverse : GraphChange TN TE)
    (g' : DiGraph TN TE) : Res (DiGraph TN TE) :=
  match changeToReverse with
    | .AddNode node =>
      match remove_node_unregistered g' node.id with
      | none => .panic
      | some (_, g2) => .ok g2
    | .RemoveNode node es =>
      let g1 := insert_node_unregistered g' node
      match insert_edges_loop es g1 with
      | none => .panic
      | some g2 => .ok g2
    | .AddEdge edge =>
      match edge_index edge.startId edge.endId g'.edges with
      | none => .panic
      | some idx =>
        match remove_edge_unregistered g' idx with
        | none => .panic
        | some g2 => .ok g2
    | .AddEdgeWith edge newStart newEnd =>
      let r1 : Option (DiGraph TN TE) :=
        match newStart with
        | none => some g'
        | some nodeId => (remove_node_unregistered g' nodeId).map Prod.snd
      match r1 with
      | none => .panic
      | some g1 =>
        let r2 : Option (DiGraph TN TE) :=
          match newEnd with
          | none => some g1
          | some nodeId => (remove_node_unregistered g1 nodeId).map Prod.snd
        match r2 with
        | none => .panic
        | some g2 =>
          match edge_index edge.startId edge.endId g2.edges with
          | none => .ok g2
          | some idx =>
            match remove_edge_unregistered g2 idx with
            | none => .panic
            | some g3 => .ok g3
    | .RemoveEdge edge =>
      match insert_edge_unregistered g' edge with
      | none => .panic
      | some g2 => .ok g2
    | .InsertNodeAlongEdge node edge =>
      match remove_node_unregistered g' node.id with
      | none => .panic
      | some (_, g1) =>
        match insert_edge_unregistered g1 edge with
        | none => .panic
        | some g2 => .ok g2
    | .Failure msg => .err g' msg

/-- `DiGraph::undo` from `src/digraph/cache.rs`: pop the most recent
descriptor (success if the log is empty) and reverse it via `undoArm`. -/
def undo {TN TE : Type} (g : DiGraph TN TE) : Res (DiGraph TN TE) :=
  match pop_change g with
  | (none, g') => .ok g'
  | (some changeToReverse, g') => undoArm changeToReverse g'

/-- Modelled from the spec: the public `insert_node` of the map-keyed
`DiGraph` (its wrapper is not under `src/`, only its callers and the pieces
it composes are) — validate via `check_add_node`, log `AddNode`, commit via
`insert_node_unregistered`. -/
def insert_node {TN TE : Type} (g : DiGraph TN TE) (node : Node TN) :
    Res (DiGraph TN TE) :=
  match (@check_add_node TN TE g.nodes node).try_get_node with
  | .error m => .err g m
  | .ok newNode => .ok (insert_node_unregistered (register_change g (.AddNode newNode)) newNode)

/-- Modelled from the spec: the public `insert_edge` of the map-keyed
`DiGraph` — validate via `check_add_edge`, log `AddEdge`, commit via
`insert_edge_unregistered`. -/
def insert_edge {TN TE : Type} (g : DiGraph TN TE) (edge : Edge TE) :
    Res (DiGraph TN TE) :=
  match (@check_add_edge TN TE g.nodes g.edges edge).try_get_edge with
  | .error m => .err g m
  | .ok newEdge =>
    let g := register_change g (.AddEdge newEdge)
    match insert_edge_unregistered g newEdge with
    | none => .panic
    | some g' => .ok g'

/-- Modelled from the spec: the public `remove_node` of the map-keyed
`DiGraph` — validate/collect via `check_remove_node`, log the single
`RemoveNode` descriptor, commit via `remove_node_unregistered`. -/
def remove_node {TN TE : Type} (g : DiGraph TN TE) (id : Id) :
    Res (DiGraph TN TE) :=
  let change := @check_remove_node TN TE g.nodes g.edges id
  match change.try_get_node with
  | .error m => .err g m
  | .ok _ =>
    let g := register_change g change
    match remove_node_unregistered g id with
    | none => .panic
    | some (_, g') => .ok g'

/-- Modelled from the spec: the public `remove_edge` of the map-keyed
`DiGraph` — validate via `check_remove_edge`, log `RemoveEdge`, commit via
`remove_edge_unregistered` at the found index. -/
def remove_edge {TN TE : Type} (g : DiGraph TN TE) (idIn idOut : Id) :
    Res (DiGraph TN TE) :=
  let change := @check_remove_edge TN TE g.edges idIn idOut
  match change.try_get_edge with
  | .error m => .err g m
  | .ok _ =>
    let g := register_change g change
    match edge_index idIn idOut g.edges with
    | none => .panic
    | some idx =>
      match remove_edge_unregistered g idx with
      | none => .panic
      | some g' => .ok g'

/-- Modelled from the spec: the public `insert_edge_with_nodes` of the
map-keyed `DiGraph` — validate via `check_add_edge_with_nodes`, synthesize a
bare node for each absent endpoint, commit the edge, and log the single
composite `AddEdgeWith` descriptor. -/
def insert_edge_with_nodes {TN TE : Type} (g : DiGraph TN TE) (idIn idOut : Id) :
    Res (DiGraph TN TE) :=
  let change := @check_add_edge_with_nodes TN TE g.nodes g.edges idIn idOut
  match change.try_get_edge_with_nodes with
  | .error m => .err g m
  | .ok (newEdge, newIn, newOut) =>
    let g := match newIn with
      | none => g
      | some newId => insert_node_unregistered g (Node.bare newId)
    let g := match newOut with
      | none => g
      | some newId => insert_node_unregistered g (Node.bare newId)
    match insert_edge_unregistered g newEdge with
    | none => .panic
    | some g' => .ok (register_change g' change)

/-- Modelled from the spec: the public `insert_node_along` of the map-keyed
`DiGraph` — validate both preconditions, log the single `InsertNodeAlongEdge`
descriptor, insert the bare node, remove the original edge, and insert the
two split edges (the first carrying the original payload, the second bare). -/
def insert_node_along {TN TE : Type} (g : DiGraph TN TE)
    (newId idBefore idAfter : Id) : Res (DiGraph TN TE) :=
  match (@check_add_node TN TE g.nodes (Node.bare newId)).try_get_node with
  | .error m => .err g m
  | .ok newNode =>
    match (@check_remove_edge TN TE g.edges idBefore idAfter).try_get_edge with
    | .error m => .err g m
    | .ok oldEdge =>
      match edge_index idBefore idAfter g.edges with
      | none => .panic
      | some idx =>
        let g := register_change g (.InsertNodeAlongEdge newNode oldEdge)
        let g := insert_node_unregistered g newNode
        match remove_edge_unregistered g idx with
        | none => .panic
        | some g1 =>
          let edgeBefore : Edge TE := ⟨idBefore, newId, oldEdge.data⟩
          let edgeAfter : Edge TE := Edge.bare newId idAfter
          match insert_edge_unregistered g1 edgeBefore with
          | none => .panic
          | some g2 =>
            match insert_edge_unregistered g2 edgeAfter with
            | none => .panic
            | some g3 => .ok g3

/-- `DiGraph::all_node_ids` (the node map's key set; `HashMap` iteration
order is arbitrary, so facts below about this list are order-insensitive). -/
def all_node_ids {TN TE : Type} (g : DiGraph TN TE) : List Id :=
  g.nodes.map Prod.fst

/-- Modelled from the spec: `in_degree` — the DegreeMap holds one entry per
live node whose in-degree equals the number of edges ending at it. -/
def in_degree {TN TE : Type} (g : DiGraph TN TE) (id : Id) : Option Nat :=
  if (mget id g.nodes).isSome then
    some ((g.edges.filter (fun e => e.endId == id)).length)
  else none

/-- Modelled from the spec: `out_degree` — one entry per live node whose
out-degree equals the number of edges starting at it. -/
def out_degree {TN TE : Type} (g : DiGraph TN TE) (id : Id) : Option Nat :=
  if (mget id g.nodes).isSome then
    some ((g.edges.filter (fun e => e.startId == id)).length)
  else none

/-- `graph_base::graph_ref::collect_reachable_neighbors`, a recursive DFS
over the successor-adjacency map.  The Rust recursion is unbounded; here it
carries a fuel argument, and `reachFuel` below always exceeds the maximal
recursion depth (each nested call pushes a fresh id drawn from the map), so
the fueled recursion computes the same census as the source. -/
def collect_reachable_neighbors {TN TE : Type} (g : DiGraph TN TE) :
    Nat → List Id → Id → List Id
  | 0, census, _ => census
  | fuel + 1, census, startingPoint =>
    if startingPoint ∈ census then census
    else
      let census := census ++ [startingPoint]
      match mget startingPoint g.neighbors_after with
      | none => census
      | some culDaSac =>
        culDaSac.foldl (fun c n => collect_reachable_neighbors g fuel c n) census

/-- Fuel exceeding the maximal depth of `collect_reachable_neighbors`. -/
def reachFuel {TN TE : Type} (g : DiGraph TN TE) : Nat :=
  g.neighbors_after.length + (g.neighbors_after.map (fun p => p.2.length)).sum + 1

/-- Modelled from the spec: `nodes_unreachable_from` — traverse the successor
adjacency from `start` marking visited ids, then return every node id of the
graph not in the visited census (`start` need not be a member of the graph). -/
def nodes_unreachable_from {TN TE : Type} (g : DiGraph TN TE) (start : Id) : List Id :=
  let census := collect_reachable_neighbors g (reachFuel g) [] start
  (all_node_ids g).filter (fun id => !census.contains id)

/-- The well-formedness invariant of a map-keyed graph: node keys are unique
and consistent with the stored nodes; every node has adjacency entries;
adjacency keys are unique; edge terminal pairs are unique; edge endpoints are
live nodes with adjacency entries; and each adjacency list mirrors the edge
collection (up to order). -/
def WF {TN TE : Type} (g : DiGraph TN TE) : Prop :=
  (all_node_ids g).Nodup ∧
  (∀ p ∈ g.nodes, (p.2).id = p.1) ∧
  (g.neighbors_before.map Prod.fst).Nodup ∧
  (g.neighbors_after.map Prod.fst).Nodup ∧
  (∀ p ∈ g.nodes,
    (mget p.1 g.neighbors_before).isSome ∧ (mget p.1 g.neighbors_after).isSome) ∧
  (g.edges.map edgePair).Nodup ∧
  (∀ e ∈ g.edges, e.startId ∈ all_node_ids g ∧ e.endId ∈ all_node_ids g) ∧
  (∀ p ∈ g.neighbors_after,
    p.2.Perm ((g.edges.filter (fun e => e.startId == p.1)).map Edge.endId)) ∧
  (∀ p ∈ g.neighbors_before,
    p.2.Perm ((g.edges.filter (fun e => e.endId == p.1)).map Edge.startId))

/-- The ascending id interval `[k, k + n)`. -/
def idRange (k n : Nat) : List Id :=
  match n with
  | 0 => []
  | Nat.succ m => k :: idRange (k + 1) m

/-- A node map holding a bare node for each listed id. -/
def nodesOf (l : List Id) : List (Id × Node Unit) :=
  l.map (fun j => (j, Node.bare j))

/-- An adjacency map holding an empty neighbor list for each listed id. -/
def adjOf (l : List Id) : List (Id × List Id) :=
  l.map (fun j => (j, ([] : List Id)))

/-- A sequence of public `insert_node` calls on bare nodes, stopping at the
first failure. -/
def insert_nodes_chain : List Id → DiGraph Unit Unit → Res (DiGraph Unit Unit)
  | [], g => .ok g
  | i :: rest, g =>
    match insert_node g (Node.bare i) with
    | .ok g' => insert_nodes_chain rest g'
    | .err s m => .err s m
    | .panic => .panic

/-- Iterated `undo`, stopping at the first failure. -/
def undoTimes {TN TE : Type} : Nat → DiGraph TN TE → Res (DiGraph TN TE)
  | 0, g => .ok g
  | Nat.succ n, g =>
    match undo g with
    | .ok g' => undoTimes n g'
    | .err s m => .err s m
    | .panic => .panic

/-- Sequential `push_back` of a list of descriptors onto a history deque. -/
def pushAll {TN TE : Type} :
    HistoryDeque TN TE → List (GraphChange TN TE) → HistoryDeque TN TE
  | h, [] => h
  | h, x :: rest => pushAll (h.push_back x).1 rest

/-- States reachable from the default map-keyed graph by sequences of
successful public mutating operations and successful `undo` calls. -/
inductive Reachable {TN TE : Type} : DiGraph TN TE → Prop where
  | base : Reachable (DiGraph.default TN TE)
  | insert_node {g g' : DiGraph TN TE} {n : Node TN} :
      Reachable g → DG.insert_node g n = .ok g' → Reachable g'
  | insert_edge {g g' : DiGraph TN TE} {e : Edge TE} :
      Reachable g → DG.insert_edge g e = .ok g' → Reachable g'
  | remove_node {g g' : DiGraph TN TE} {id : Id} :
      Reachable g → DG.remove_node g id = .ok g' → Reachable g'
  | remove_edge {g g' : DiGraph TN TE} {a b : Id} :
      Reachable g → DG.remove_edge g a b = .ok g' → Reachable g'
  | insert_edge_with_nodes {g g' : DiGraph TN TE} {a b : Id} :
      Reachable g → DG.insert_edge_with_nodes g a b = .ok g' → Reachable g'
  | insert_node_along {g g' : DiGraph TN TE} {nid a b : Id} :
      Reachable g → DG.insert_node_along g nid a b = .ok g' → Reachable g'
  | undo {g g' : DiGraph TN TE} :
      Reachable g → DG.undo g = .ok g' → Reachable g'

/-- No `Failure` descriptor is stored in the history log. -/
def NoFailureHistory {TN TE : Type} (g : DiGraph TN TE) : Prop :=
  ∀ ch ∈ g.undo_history.entries, ∀ msg, ch ≠ GraphChange.Failure msg

/-- The state reached after `c + 2` successful `insert_node` calls (ids
`0 .. c + 1`) on an empty graph whose history capacity is `c + 1`: all nodes
present, and the history holding the `c + 1` most recent descriptors (the
oldest, for id 0, was evicted by the final push). -/
def dgC5Full (c : Nat) : DiGraph Unit Unit :=
  ⟨none, nodesOf (idRange 0 (c + 2)), [], adjOf (idRange 0 (c + 2)),
   adjOf (idRange 0 (c + 2)),
   ⟨(idRange 1 (c + 1)).map (fun j => .AddNode (Node.bare j)), c + 1⟩⟩

/-- The state after undoing the `c + 1` logged inserts of `dgC5Full c`: only
node 0 (whose descriptor was evicted) survives, with the leftover empty
adjacency entries and an exhausted history. -/
def dgC5Fin (c : Nat) : DiGraph Unit Unit :=
  ⟨none, nodesOf (idRange 0 1), [], adjOf (idRange 0 (c + 2)),
   adjOf (idRange 0 (c + 2)), ⟨[], c + 1⟩⟩

/-- The scenario graph of spec §8 (D): nodes 1, 2, 3 and the single edge
`1 -> 2`, with the mirrored adjacency maps the operations would maintain. -/
def dgD : DiGraph Unit Unit :=
  ⟨none, [(1, Node.bare 1), (2, Node.bare 2), (3, Node.bare 3)],
   [⟨1, 2, none⟩],
   [(1, []), (2, [1]), (3, [])],
   [(1, [2]), (2, []), (3, [])],
   ⟨[], 100⟩⟩

instance wfDecidable {TN TE : Type} [DecidableEq TN] [DecidableEq TE]
    (g : DiGraph TN TE) : Decidable (WF g) := by
  unfold WF
  exact inferInstance

/-- Observational equality of two map-keyed graphs: the node map agrees
pointwise, the edge collection agrees as a multiset, each adjacency list
agrees as a multiset (with a missing entry read as the empty list, as every
lookup-based consumer does), and the derived in/out degrees agree. -/
def ObsEq {TN TE : Type} (g g' : DiGraph TN TE) : Prop :=
  (∀ k, mget k g'.nodes = mget k g.nodes) ∧
  g'.edges.Perm g.edges ∧
  (∀ k, ((mget k g'.neighbors_before).getD []).Perm
      ((mget k g.neighbors_before).getD [])) ∧
  (∀ k, ((mget k g'.neighbors_after).getD []).Perm
      ((mget k g.neighbors_after).getD [])) ∧
  (∀ k, in_degree g' k = in_degree g k) ∧
  (∀ k, out_degree g' k = out_degree g k)

/-- The edge/adjacency fragment of well-formedness preserved by every
unregistered primitive: unique terminal pairs, adjacency entries for every
edge terminal, and each adjacency list a permutation of the corresponding
edge filter (an absent entry counting as empty). -/
def EdgeAdjInv {TN TE : Type} (g : DiGraph TN TE) : Prop :=
  (g.edges.map edgePair).Nodup ∧
  (∀ e ∈ g.edges, (mget e.startId g.neighbors_after).isSome ∧
      (mget e.endId g.neighbors_before).isSome) ∧
  (∀ k, ((mget k g.neighbors_before).getD []).Perm
      ((g.edges.filter (fun e => e.endId == k)).map Edge.startId)) ∧
  (∀ k, ((mget k g.neighbors_after).getD []).Perm
      ((g.edges.filter (fun e => e.startId == k)).map Edge.endId))

end DG

/-- Terminal-preserving translation between the two designs' edge types
(used only to compare the duplicated `check_node_degrees` variants). -/
def SG.Edge.toDG {TE : Type} (e : SG.Edge TE) : DG.Edge TE :=
  ⟨e.startId, e.endId, e.data⟩

/-- A small flat-design graph used by witnesses: nodes 1 and 2 with edge
1 -> 2 carrying payload 7, consistent degree map, empty history. -/
def sgW : SG.StateGraph Unit Nat :=
  ⟨none, [⟨1, none⟩, ⟨2, none⟩], [⟨1, 2, some 7⟩],
   [(1, (0, 1)), (2, (1, 0))], ⟨[], 100⟩⟩

/-- The flat-design graph produced by `insert_edge_with_nodes(5, 6)` on the
default (empty) graph: both endpoints synthesized, four logged descriptors. -/
def sgC3 : SG.StateGraph Unit Unit :=
  ⟨none, [SG.Node.bare 5, SG.Node.bare 6], [SG.Edge.bare 5 6],
   [(5, (0, 1)), (6, (1, 0))],
   ⟨[.AddNode (SG.Node.bare 5), .AddNode (SG.Node.bare 6),
     .AddEdge (SG.Edge.bare 5 6),
     .AddEdgeWith (SG.Edge.bare 5 6) (some 5) (some 6)], 100⟩⟩

namespace SG

/-- States reachable from the empty graph by sequences of successful public
mutating operations of the flat design. -/
inductive Reachable {TN TE : Type} : StateGraph TN TE → Prop where
  | base : Reachable (StateGraph.default TN TE)
  | insert_node {g g' : StateGraph TN TE} {n : Node TN} :
      Reachable g → SG.insert_node g n = .ok g' → Reachable g'
  | insert_edge {g g' : StateGraph TN TE} {e : Edge TE} :
      Reachable g → SG.insert_edge g e = .ok g' → Reachable g'
  | remove_node {g g' : StateGraph TN TE} {id : Id} :
      Reachable g → SG.remove_node g id = .ok g' → Reachable g'
  | remove_edge {g g' : StateGraph TN TE} {a b : Id} :
      Reachable g → SG.remove_edge g a b = .ok g' → Reachable g'
  | insert_edge_with_nodes {g g' : StateGraph TN TE} {a b : Id} :
      Reachable g → SG.insert_edge_with_nodes g a b = .ok g' → Reachable g'
  | insert_node_along {g g' : StateGraph TN TE} {nid a b : Id} :
      Reachable g → SG.insert_node_along g nid a b = .ok g' → Reachable g'

end SG

section MapLemmas

variable {α : Type}

theorem mget_mput_self (k : Id) (v : α) (m : List (Id × α)) :
    mget k (mput k v m) = some v := by
  induction m with
  | nil => simp [mget, mput]
  | cons p t ih =>
    by_cases h : p.1 = k
    · subst h; simp [mget, mput]
    · simp [mget, mput, h, ih]

theorem mget_mput_ne (k k' : Id) (v : α) (m : List (Id × α)) (h : k' ≠ k) :
    mget k' (mput k v m) = mget k' m := by
  induction m with
  | nil => simp [mget, mput, Ne.symm h]
  | cons p t ih =>
    by_cases hk : p.1 = k
    · subst hk; simp [mget, mput, Ne.symm h]
    · simp [mget, mput, hk, ih]

theorem mget_mmod_self (k : Id) (f : α → α) (m : List (Id × α)) :
    mget k (mmod k f m) = (mget k m).map f := by
  induction m with
  | nil => simp [mget, mmod]
  | cons p t ih =>
    by_cases h : p.1 = k
    · subst h; simp [mget, mmod]
    · simp [mget, mmod, h, ih]

theorem mget_mmod_ne (k k' : Id) (f : α → α) (m : List (Id × α)) (h : k' ≠ k) :
    mget k' (mmod k f m) = mget k' m := by
  induction m with
  | nil => simp [mget, mmod]
  | cons p t ih =>
    by_cases hk : p.1 = k
    · subst hk; simp [mget, mmod, Ne.symm h]
    · simp [mget, mmod, hk, ih]

theorem mget_mdel_self (k : Id) (m : List (Id × α)) :
    mget k (mdel k m) = none := by
  induction m with
  | nil => simp [mget, mdel]
  | cons p t ih =>
    by_cases h : p.1 = k
    · subst h; simpa [mdel, List.filter_cons] using ih
    · have hb : (p.1 != k) = true := by simpa [bne_iff_ne] using h
      simpa [mdel, List.filter_cons, hb, mget, h] using ih

theorem mget_mdel_ne (k k' : Id) (m : List (Id × α)) (h : k' ≠ k) :
    mget k' (mdel k m) = mget k' m := by
  induction m with
  | nil => simp [mget, mdel]
  | cons p t ih =>
    by_cases hk : p.1 = k
    · subst hk
      simpa [mdel, List.filter_cons, mget, Ne.symm h] using ih
    · have hb : (p.1 != k) = true := by simpa [bne_iff_ne] using hk
      by_cases hk' : p.1 = k'
      · subst hk'
        simp [mdel, List.filter_cons, hb, mget]
      · simpa [mdel, List.filter_cons, hb, mget, hk'] using ih

theorem mget_isSome_iff (k : Id) (m : List (Id × α)) :
    (mget k m).isSome ↔ k ∈ m.map Prod.fst := by
  induction m with
  | nil => simp [mget]
  | cons p t ih =>
    by_cases h : p.1 = k
    · simp [mget, h]
    · simp [mget, h, ih, Ne.symm h]

theorem mget_eq_none_iff (k : Id) (m : List (Id × α)) :
    mget k m = none ↔ k ∉ m.map Prod.fst := by
  rw [← mget_isSome_iff, Option.isSome_iff_exists]
  cases mget k m <;> simp

end MapLemmas

namespace SG

variable {TN TE : Type}

theorem node_index_eq_none_iff (q : Id) (ns : List (Node TN)) :
    node_index q ns = none ↔ q ∉ ns.map Node.id := by
  induction ns with
  | nil => simp [node_index]
  | cons n t ih =>
    by_cases h : n.id = q
    · simp [node_index, h]
    · simp [node_index, h, Option.map_eq_none', ih, Ne.symm h]

theorem node_index_spec (q : Id) (ns : List (Node TN)) (i : Nat)
    (h : node_index q ns = some i) : ∃ n, ns[i]? = some n ∧ n.id = q := by
  induction ns generalizing i with
  | nil => simp [node_index] at h
  | cons n t ih =>
    by_cases hn : n.id = q
    · simp only [node_index, if_pos hn, Option.some.injEq] at h
      subst h; exact ⟨n, by simp, hn⟩
    · simp only [node_index, if_neg hn, Option.map_eq_some'] at h
      obtain ⟨j, hj, hji⟩ := h
      obtain ⟨n', hn', hq⟩ := ih j hj
      exact ⟨n', by simpa [← hji] using hn', hq⟩

theorem edge_index_eq_none_iff (a b : Id) (es : List (Edge TE)) :
    edge_index a b es = none ↔ (a, b) ∉ es.map edgePair := by
  induction es with
  | nil => simp [edge_index]
  | cons e t ih =>
    by_cases h : e.startId = a ∧ e.endId = b
    · simp [edge_index, h, edgePair, h.1, h.2]
    · have : edgePair e ≠ (a, b) := by
        simp only [edgePair, Ne, Prod.mk.injEq]
        intro hh; exact h hh
      simp [edge_index, h, Option.map_eq_none', ih, Ne.symm this]

theorem edge_index_spec (a b : Id) (es : List (Edge TE)) (i : Nat)
    (h : edge_index a b es = some i) :
    ∃ e, es[i]? = some e ∧ e.startId = a ∧ e.endId = b := by
  induction es generalizing i with
  | nil => simp [edge_index] at h
  | cons e t ih =>
    by_cases he : e.startId = a ∧ e.endId = b
    · simp only [edge_index, if_pos he, Option.some.injEq] at h
      subst h; exact ⟨e, by simp, he⟩
    · simp only [edge_index, if_neg he, Option.map_eq_some'] at h
      obtain ⟨j, hj, hji⟩ := h
      obtain ⟨e', he', hq⟩ := ih j hj
      exact ⟨e', by simpa [← hji] using he', hq⟩

theorem node_index_isSome_iff (q : Id) (ns : List (Node TN)) :
    (node_index q ns).isSome ↔ q ∈ ns.map Node.id := by
  rcases h : node_index q ns with _ | i
  · simpa [h] using (node_index_eq_none_iff q ns).mp h
  · simp only [Option.isSome_some, true_iff]
    by_contra hq
    rw [← node_index_eq_none_iff] at hq
    rw [h] at hq; cases hq

theorem edge_index_isSome_iff (a b : Id) (es : List (Edge TE)) :
    (edge_index a b es).isSome ↔ (a, b) ∈ es.map edgePair := by
  rcases h : edge_index a b es with _ | i
  · simpa [h] using (edge_index_eq_none_iff a b es).mp h
  · simp only [Option.isSome_some, true_iff]
    by_contra hq
    rw [← edge_index_eq_none_iff] at hq
    rw [h] at hq; cases hq

end SG

section C9

/-- The flat `check_node_degrees` returns `(in_degree, out_degree)`:
first component counts edges ending at `id`, second counts edges starting at `id`. -/
theorem sg_check_node_degrees_spec {TE : Type} (l : List (SG.Edge TE)) (id : Id) :
    SG.check_node_degrees l id =
      ((l.filter (fun e => e.endId == id)).length,
       (l.filter (fun e => e.startId == id)).length) := by
  induction l with
  | nil => simp [SG.check_node_degrees]
  | cons e t ih =>
    simp only [SG.check_node_degrees, List.filter_cons, ih]
    by_cases h1 : e.endId = id <;> by_cases h2 : e.startId = id <;>
      simp [h1, h2, Prod.ext_iff] <;> omega

/-- The map-keyed `check_node_degrees` returns the transposed pair
`(out_degree, in_degree)`. -/
theorem dg_check_node_degrees_spec {TE : Type} (l : List (DG.Edge TE)) (id : Id) :
    DG.check_node_degrees l id =
      ((l.filter (fun e => e.startId == id)).length,
       (l.filter (fun e => e.endId == id)).length) := by
  induction l with
  | nil => simp [DG.check_node_degrees]
  | cons e t ih =>
    simp only [DG.check_node_degrees, List.filter_cons, ih]
    by_cases h1 : e.endId = id <;> by_cases h2 : e.startId = id <;>
      simp [h1, h2, Prod.ext_iff] <;> omega

/-- C9 counterexample: on the single-edge list `[1 -> 2]` at id `1`, the
map-keyed (`graph_base`) `check_node_degrees` returns `(1, 0)`, which is not
the claimed `(in_degree, out_degree) = (0, 1)`; consequently the two
duplicated variants disagree on corresponding inputs. -/
theorem C9_check_node_degrees_counterexample :
    DG.check_node_degrees ([DG.Edge.bare 1 2] : List (DG.Edge Unit)) 1 = (1, 0) ∧
    (([DG.Edge.bare 1 2] : List (DG.Edge Unit)).filter (fun e => e.endId == 1)).length = 0 ∧
    (([DG.Edge.bare 1 2] : List (DG.Edge Unit)).filter (fun e => e.startId == 1)).length = 1 ∧
    DG.check_node_degrees ([DG.Edge.bare 1 2] : List (DG.Edge Unit)) 1 ≠
      ((([DG.Edge.bare 1 2] : List (DG.Edge Unit)).filter (fun e => e.endId == 1)).length,
       (([DG.Edge.bare 1 2] : List (DG.Edge Unit)).filter (fun e => e.startId == 1)).length) ∧
    DG.check_node_degrees (([SG.Edge.bare 1 2] : List (SG.Edge Unit)).map SG.Edge.toDG) 1 ≠
      SG.check_node_degrees ([SG.Edge.bare 1 2] : List (SG.Edge Unit)) 1 := by
  decide

/-- C9 (amended): for every edge list and id, the flat variant of
`check_node_degrees` returns `(in_degree, out_degree)` (end-terminal count
first), while the map-keyed variant returns the transposed pair
`(out_degree, in_degree)`; the two variants agree only up to `Prod.swap`. -/
theorem C9_check_node_degrees_amended {TE : Type} (l : List (SG.Edge TE)) (id : Id) :
    SG.check_node_degrees l id =
      ((l.filter (fun e => e.endId == id)).length,
       (l.filter (fun e => e.startId == id)).length) ∧
    DG.check_node_degrees (l.map SG.Edge.toDG) id =
      ((l.filter (fun e => e.startId == id)).length,
       (l.filter (fun e => e.endId == id)).length) ∧
    DG.check_node_degrees (l.map SG.Edge.toDG) id = (SG.check_node_degrees l id).swap := by
  have hmap1 :
      ((l.map SG.Edge.toDG).filter (fun e => e.startId == id)).length =
        (l.filter (fun e => e.startId == id)).length := by
    induction l with
    | nil => simp
    | cons e t ih => by_cases h : e.startId = id <;> simp [SG.Edge.toDG, h, ih]
  have hmap2 :
      ((l.map SG.Edge.toDG).filter (fun e => e.endId == id)).length =
        (l.filter (fun e => e.endId == id)).length := by
    clear hmap1
    induction l with
    | nil => simp
    | cons e t ih => by_cases h : e.endId = id <;> simp [SG.Edge.toDG, h, ih]
  refine ⟨sg_check_node_degrees_spec l id, ?_, ?_⟩
  · rw [dg_check_node_degrees_spec, hmap1, hmap2]
  · rw [dg_check_node_degrees_spec, hmap1, hmap2, sg_check_node_degrees_spec]
    rfl

end C9

section C8

/-- C8: `insert_node_along(new_id, before, after)` fails with the
duplicate-id error when `new_id` is already a node id, fails with the
not-found error when (besides `new_id` being fresh) no edge
`before -> after` exists, and on success adds the bare node `new_id` with
degree entry `(1, 1)`, removes the original edge, and appends exactly two
edges — `before -> new_id` carrying the original edge's payload and the
bare `new_id -> after` — leaving the degree entries of `before` and `after`
unchanged. -/
theorem C8_insert_node_along_spec {TN TE : Type} (g : SG.StateGraph TN TE)
    (newId idBefore idAfter : Id) :
    (newId ∈ SG.nodeIds g →
      SG.insert_node_along g newId idBefore idAfter =
        .err g "Node with this id already exists.") ∧
    (newId ∉ SG.nodeIds g → (idBefore, idAfter) ∉ g.edges.map SG.edgePair →
      SG.insert_node_along g newId idBefore idAfter =
        .err g "Edge not found in graph.") ∧
    (SG.Invariant g → newId ∉ SG.nodeIds g →
      ∀ i e, SG.edge_index idBefore idAfter g.edges = some i → g.edges[i]? = some e →
      ∃ g', SG.insert_node_along g newId idBefore idAfter = .ok g' ∧
        g'.nodes = g.nodes ++ [SG.Node.bare newId] ∧
        g'.edges = g.edges.eraseIdx i ++
          [⟨idBefore, newId, e.data⟩, SG.Edge.bare newId idAfter] ∧
        SG.in_out_degree g' newId = some (1, 1) ∧
        SG.in_out_degree g' idBefore = SG.in_out_degree g idBefore ∧
        SG.in_out_degree g' idAfter = SG.in_out_degree g idAfter) := by
  refine ⟨?_, ?_, ?_⟩
  · intro hmem
    simp only [SG.nodeIds] at hmem
    rw [← SG.node_index_isSome_iff] at hmem
    obtain ⟨i, hi⟩ := Option.isSome_iff_exists.mp hmem
    simp [SG.insert_node_along, SG.check_add_node, SG.Node.bare, hi,
          SG.GraphChange.try_get_node]
  · intro hmem hedge
    simp only [SG.nodeIds] at hmem
    rw [← SG.node_index_eq_none_iff] at hmem
    rw [← SG.edge_index_eq_none_iff] at hedge
    simp [SG.insert_node_along, SG.check_add_node, SG.Node.bare, hmem,
          SG.GraphChange.try_get_node, SG.check_remove_edge, hedge,
          SG.GraphChange.try_get_edge]
  · intro hInv hmem i e hi he
    have hmem' : SG.node_index newId g.nodes = none := by
      rw [SG.node_index_eq_none_iff]
      simpa [SG.nodeIds] using hmem
    obtain ⟨e', he', hs, ht⟩ := SG.edge_index_spec idBefore idAfter g.edges i hi
    rw [he] at he'
    injection he' with hee
    subst hee
    have heM : e ∈ g.edges := by
      obtain ⟨hlt, hget⟩ := List.getElem?_eq_some.mp he
      exact hget ▸ List.getElem_mem hlt
    obtain ⟨hsB, hsA⟩ := hInv.2.1 e heM
    have hBne : idBefore ≠ newId := by
      intro hq
      rw [hs, hq] at hsB
      exact hmem hsB
    have hAne : idAfter ≠ newId := by
      intro hq
      rw [ht, hq] at hsA
      exact hmem hsA
    refine ⟨{ SG.register_change g (.InsertNodeAlongEdge newId e) with
              nodes := g.nodes ++ [SG.Node.bare newId],
              edges := g.edges.eraseIdx i ++
                [⟨idBefore, newId, e.data⟩, SG.Edge.bare newId idAfter],
              deg_map := mput newId (1, 1) g.deg_map }, ?_, ?_, rfl, ?_, ?_, ?_⟩
    · simp only [SG.insert_node_along, SG.check_add_node, SG.Node.bare, hmem',
                 SG.GraphChange.try_get_node, SG.check_remove_edge, hi, he,
                 SG.GraphChange.try_get_edge, SG.register_change]
    · simp [SG.register_change]
    · simp [SG.in_out_degree, SG.register_change, mget_mput_self]
    · simp [SG.in_out_degree, SG.register_change, mget_mput_ne _ _ _ _ hBne]
    · simp [SG.in_out_degree, SG.register_change, mget_mput_ne _ _ _ _ hAne]

/-- C8 witness: on `sgW` (nodes 1, 2; edge 1 -> 2 with payload 7),
`insert_node_along(10, 1, 2)` succeeds, splits the edge transferring the
payload to the first half, and leaves the endpoint degrees unchanged. -/
theorem C8_insert_node_along_witness :
    SG.Invariant sgW ∧ (10 : Id) ∉ SG.nodeIds sgW ∧
    SG.edge_index 1 2 sgW.edges = some 0 ∧
    sgW.edges[0]? = some ⟨1, 2, some 7⟩ ∧
    (∃ g', SG.insert_node_along sgW 10 1 2 = .ok g' ∧
      g'.nodes = sgW.nodes ++ [SG.Node.bare 10] ∧
      g'.edges = sgW.edges.eraseIdx 0 ++
        [⟨1, 10, some 7⟩, SG.Edge.bare 10 2] ∧
      SG.in_out_degree g' 10 = some (1, 1) ∧
      SG.in_out_degree g' 1 = SG.in_out_degree sgW 1 ∧
      SG.in_out_degree g' 2 = SG.in_out_degree sgW 2) :=
  ⟨by decide, by decide, by decide, by decide,
   (C8_insert_node_along_spec sgW 10 1 2).2.2 (by decide) (by decide) 0
     ⟨1, 2, some 7⟩ (by decide) (by decide)⟩

end C8

namespace DG

variable {TN TE : Type}

theorem edge_index_eq_none_iffD (a b : Id) (es : List (Edge TE)) :
    edge_index a b es = none ↔ (a, b) ∉ es.map edgePair := by
  induction es with
  | nil => simp [edge_index]
  | cons e t ih =>
    by_cases h : e.startId = a ∧ e.endId = b
    · simp [edge_index, h, edgePair, h.1, h.2]
    · have : edgePair e ≠ (a, b) := by
        simp only [edgePair, Ne, Prod.mk.injEq]
        intro hh; exact h hh
      simp [edge_index, h, Option.map_eq_none', ih, Ne.symm this]

theorem edge_index_specD (a b : Id) (es : List (Edge TE)) (i : Nat)
    (h : edge_index a b es = some i) :
    ∃ e, es[i]? = some e ∧ e.startId = a ∧ e.endId = b := by
  induction es generalizing i with
  | nil => simp [edge_index] at h
  | cons e t ih =>
    by_cases he : e.startId = a ∧ e.endId = b
    · simp only [edge_index, if_pos he, Option.some.injEq] at h
      subst h; exact ⟨e, by simp, he⟩
    · simp only [edge_index, if_neg he, Option.map_eq_some'] at h
      obtain ⟨j, hj, hji⟩ := h
      obtain ⟨e', he', hq⟩ := ih j hj
      exact ⟨e', by simpa [← hji] using he', hq⟩

theorem edge_index_isSome_iffD (a b : Id) (es : List (Edge TE)) :
    (edge_index a b es).isSome ↔ (a, b) ∈ es.map edgePair := by
  rcases h : edge_index a b es with _ | i
  · simpa [h] using (edge_index_eq_none_iffD a b es).mp h
  · simp only [Option.isSome_some, true_iff]
    by_contra hq
    rw [← edge_index_eq_none_iffD] at hq
    rw [h] at hq; cases hq

end DG

section C10

/-- C10: self-loops are permitted.  On the flat design, for every
invariant-satisfying graph containing node `a` and no `(a, a)` edge,
`insert_edge` with an edge from `a` to `a` succeeds and bumps both of `a`'s
degree components by one; and the map-keyed `check_add_edge` likewise
accepts a self-loop (it rejects only duplicate terminal pairs and missing
endpoints, never `start == end`). -/
theorem C10_self_loop_insert_edge {TN TE : Type} (g : SG.StateGraph TN TE) (a : Id)
    (e : SG.Edge TE)
    (hInv : SG.Invariant g) (ha : a ∈ SG.nodeIds g)
    (hno : (a, a) ∉ g.edges.map SG.edgePair)
    (hs : e.startId = a) (ht : e.endId = a) :
    (∃ d, SG.in_out_degree g a = some d ∧
      ∃ g', SG.insert_edge g e = .ok g' ∧
        SG.in_out_degree g' a = some (d.1 + 1, d.2 + 1)) ∧
    (∀ (nodesB : List (Id × DG.Node TN)) (edgesB : List (DG.Edge TE)) (eB : DG.Edge TE),
      (mget a nodesB).isSome → (a, a) ∉ edgesB.map DG.edgePair →
      eB.startId = a → eB.endId = a →
      DG.check_add_edge nodesB edgesB eB = .AddEdge eB) := by
  constructor
  · have hd : ∃ d, mget a g.deg_map = some d := by
      have hkeys : a ∈ g.deg_map.map Prod.fst := (hInv.2.2.2.1.mem_iff).mpr ha
      exact Option.isSome_iff_exists.mp ((mget_isSome_iff a g.deg_map).mpr hkeys)
    obtain ⟨d, hd⟩ := hd
    have hEid : SG.edge_index e.startId e.endId g.edges = none := by
      rw [hs, ht, SG.edge_index_eq_none_iff]; exact hno
    have hNi : ∃ i, SG.node_index a g.nodes = some i := by
      have : a ∈ g.nodes.map SG.Node.id := by simpa [SG.nodeIds] using ha
      exact Option.isSome_iff_exists.mp ((SG.node_index_isSome_iff a g.nodes).mpr this)
    obtain ⟨i, hNi⟩ := hNi
    refine ⟨d, hd, ?_⟩
    refine ⟨{ SG.register_change g (.AddEdge e) with
              edges := g.edges ++ [e],
              deg_map := mmod e.endId (fun d => (d.1 + 1, d.2))
                (mmod e.startId (fun d => (d.1, d.2 + 1)) g.deg_map) }, ?_, ?_⟩
    · have hNi1 : SG.node_index e.startId g.nodes = some i := by rw [hs]; exact hNi
      have hNi2 : SG.node_index e.endId g.nodes = some i := by rw [ht]; exact hNi
      have hd1 : mget e.startId g.deg_map = some d := by rw [hs]; exact hd
      have hd2 : mget e.endId (mmod e.startId (fun d => (d.1, d.2 + 1)) g.deg_map) =
          some (d.1, d.2 + 1) := by
        rw [ht, hs, mget_mmod_self, hd]; rfl
      simp only [SG.insert_edge, SG.check_add_edge, hEid, hNi1, hNi2,
                 SG.GraphChange.try_get_edge, SG.register_change, hd1, hd2]
    · simp only [SG.in_out_degree, SG.register_change, ht, hs]
      rw [mget_mmod_self, mget_mmod_self, hd]
      rfl
  · intro nodesB edgesB eB hp hnoB hsB htB
    have hEid : DG.edge_index a a edgesB = none := by
      rw [DG.edge_index_eq_none_iffD]; exact hnoB
    simp [DG.check_add_edge, hEid, DG.node_id_present, hsB, htB, hp]

/-- C10 witness: on `sgW`, inserting the bare self-loop `1 -> 1` succeeds and
takes node 1's degrees from `(0, 1)` to `(1, 2)`; the map-keyed check also
accepts it. -/
theorem C10_self_loop_witness :
    SG.Invariant sgW ∧ (1 : Id) ∈ SG.nodeIds sgW ∧
    ((1 : Id), (1 : Id)) ∉ sgW.edges.map SG.edgePair ∧
    ((∃ d, SG.in_out_degree sgW 1 = some d ∧
      ∃ g', SG.insert_edge sgW (⟨1, 1, none⟩ : SG.Edge Nat) = .ok g' ∧
        SG.in_out_degree g' 1 = some (d.1 + 1, d.2 + 1)) ∧
    (∀ (nodesB : List (Id × DG.Node Unit)) (edgesB : List (DG.Edge Nat))
        (eB : DG.Edge Nat),
      (mget 1 nodesB).isSome → ((1 : Id), (1 : Id)) ∉ edgesB.map DG.edgePair →
      eB.startId = 1 → eB.endId = 1 →
      DG.check_add_edge nodesB edgesB eB = .AddEdge eB)) :=
  ⟨by decide, by decide, by decide,
   C10_self_loop_insert_edge sgW 1 ⟨1, 1, none⟩ (by decide) (by decide) (by decide)
     rfl rfl⟩

end C10

section RemoveLoop

/-- If the head edge `x` of the edge collection matches none of the terminal
pairs being removed, the removal loop acts exactly as it would on the tail,
with `x` kept at the head throughout. -/
theorem sg_remove_edges_loop_skip {TN TE : Type} (es : List (SG.Edge TE)) :
    ∀ (g : SG.StateGraph TN TE) (x : SG.Edge TE) (t : List (SG.Edge TE)),
      g.edges = x :: t →
      (∀ e ∈ es, ¬(e.startId = x.startId ∧ e.endId = x.endId)) →
      SG.remove_edges_loop es g =
        (match SG.remove_edges_loop es { g with edges := t } with
         | .ok g' => .ok { g' with edges := x :: g'.edges }
         | .err g' m => .err { g' with edges := x :: g'.edges } m
         | .panic => .panic) := by
  induction es with
  | nil =>
    intro g x t hE _
    simp only [SG.remove_edges_loop]
    rw [← hE]
  | cons e es' ih =>
    intro g x t hE hne
    have hxne : ¬(x.startId = e.startId ∧ x.endId = e.endId) := by
      have h0 := hne e (by simp)
      tauto
    simp only [SG.remove_edges_loop, SG.remove_edge_unregistered, SG.check_remove_edge,
               hE]
    simp only [SG.edge_index, if_neg hxne]
    rcases hidx : SG.edge_index e.startId e.endId t with _ | i
    · simp only [Option.map_none', SG.GraphChange.try_get_edge]
      rw [← hE]
    · obtain ⟨e', he', hs', ht'⟩ := SG.edge_index_spec e.startId e.endId t i hidx
      simp only [Option.map_some', List.getElem?_cons_succ, he',
                 SG.GraphChange.try_get_edge]
      rcases hm1 : mget e'.startId g.deg_map with _ | d1
      · rfl
      · rcases hm2 : mget e'.endId (mmod e'.startId (fun d => (d.1, d.2 - 1)) g.deg_map)
            with _ | d2
        · rfl
        · simp only [List.eraseIdx_cons_succ]
          exact ih _ x (t.eraseIdx i) rfl (fun a ha => hne a (by simp [ha]))

end RemoveLoop

theorem mmod_keys {α : Type} (k : Id) (f : α → α) (m : List (Id × α)) :
    (mmod k f m).map Prod.fst = m.map Prod.fst := by
  induction m with
  | nil => simp [mmod]
  | cons p t ih =>
    by_cases hk : p.1 = k
    · simp [mmod, hk]
    · simp [mmod, hk, ih]

section RemoveLoopSpec

/-- Effect of one edge removal's two degree decrements on an arbitrary key. -/
theorem sg_deg_step {TE : Type} (x : SG.Edge TE) (dm : List (Id × (Nat × Nat))) (k : Id) :
    mget k (mmod x.endId (fun d => (d.1 - 1, d.2))
      (mmod x.startId (fun d => (d.1, d.2 - 1)) dm)) =
    (mget k dm).map (fun d =>
      (d.1 - (if x.endId = k then 1 else 0), d.2 - (if x.startId = k then 1 else 0))) := by
  by_cases h1 : k = x.endId <;> by_cases h2 : k = x.startId
  · rw [← h1, ← h2, mget_mmod_self, mget_mmod_self]
    cases mget k dm <;> simp
  · rw [← h1, mget_mmod_self, mget_mmod_ne _ _ _ _ h2]
    cases mget k dm <;> simp [Ne.symm h2]
  · rw [← h2, mget_mmod_ne _ _ _ _ h1, mget_mmod_self]
    cases mget k dm <;> simp [Ne.symm h1]
  · rw [mget_mmod_ne _ _ _ _ h1, mget_mmod_ne _ _ _ _ h2]
    cases mget k dm <;> simp [Ne.symm h1, Ne.symm h2]

/-- Running `remove_edges_loop` on the pair-determined sublist `l.filter q`
of the current edge collection `l` never returns `Err`; when it returns
`Ok` it has removed exactly the filtered edges, left the other fields
alone, and decremented each degree entry by the removed incident counts. -/
theorem sg_remove_edges_loop_spec {TN TE : Type} (q : SG.Edge TE → Bool)
    (hq : ∀ e e', SG.edgePair e = SG.edgePair e' → q e = q e') :
    ∀ (l : List (SG.Edge TE)) (g : SG.StateGraph TN TE), g.edges = l →
      (∀ g' m, SG.remove_edges_loop (l.filter q) g ≠ .err g' m) ∧
      (∀ g', SG.remove_edges_loop (l.filter q) g = .ok g' →
        g'.edges = l.filter (fun e => !q e) ∧
        g'.nodes = g.nodes ∧ g'.name = g.name ∧ g'.undo_history = g.undo_history ∧
        g'.deg_map.map Prod.fst = g.deg_map.map Prod.fst ∧
        (∀ k, mget k g'.deg_map =
          (mget k g.deg_map).map (fun d =>
            (d.1 - ((l.filter q).filter (fun e => e.endId == k)).length,
             d.2 - ((l.filter q).filter (fun e => e.startId == k)).length)))) := by
  intro l
  induction l with
  | nil =>
    intro g hE
    constructor
    · intro g' m h
      simp [SG.remove_edges_loop] at h
    · intro g' h
      simp only [List.filter_nil, SG.remove_edges_loop] at h
      cases h
      refine ⟨by simp [hE], rfl, rfl, rfl, rfl, ?_⟩
      intro k
      cases mget k g.deg_map <;> simp
  | cons x t ih =>
    intro g hE
    by_cases hqx : q x
    · have hfil : (x :: t).filter q = x :: t.filter q := by
        simp [List.filter_cons, hqx]
      have hidx0 : SG.edge_index x.startId x.endId g.edges = some 0 := by
        rw [hE]; simp [SG.edge_index]
      have hget0 : g.edges[0]? = some x := by rw [hE]; simp
      rcases hm1 : mget x.startId g.deg_map with _ | d1
      · constructor
        · intro g' m h
          rw [hfil] at h
          simp only [SG.remove_edges_loop, SG.remove_edge_unregistered,
                     SG.check_remove_edge, hidx0, hget0,
                     SG.GraphChange.try_get_edge, hm1] at h
          cases h
        · intro g' h
          rw [hfil] at h
          simp only [SG.remove_edges_loop, SG.remove_edge_unregistered,
                     SG.check_remove_edge, hidx0, hget0,
                     SG.GraphChange.try_get_edge, hm1] at h
          cases h
      · rcases hm2 : mget x.endId (mmod x.startId (fun d => (d.1, d.2 - 1)) g.deg_map)
            with _ | d2
        · constructor
          · intro g' m h
            rw [hfil] at h
            simp only [SG.remove_edges_loop, SG.remove_edge_unregistered,
                       SG.check_remove_edge, hidx0, hget0,
                       SG.GraphChange.try_get_edge, hm1, hm2] at h
            cases h
          · intro g' h
            rw [hfil] at h
            simp only [SG.remove_edges_loop, SG.remove_edge_unregistered,
                       SG.check_remove_edge, hidx0, hget0,
                       SG.GraphChange.try_get_edge, hm1, hm2] at h
            cases h
        · have hidx0' : SG.edge_index x.startId x.endId (x :: t) = some 0 := by
            simp [SG.edge_index]
          have hget0' : (x :: t)[0]? = some x := by simp
          have hred : SG.remove_edges_loop ((x :: t).filter q) g =
              SG.remove_edges_loop (t.filter q)
                { g with
                  deg_map := mmod x.endId (fun d => (d.1 - 1, d.2))
                    (mmod x.startId (fun d => (d.1, d.2 - 1)) g.deg_map),
                  edges := t } := by
            rw [hfil]
            simp only [SG.remove_edges_loop, SG.remove_edge_unregistered,
                       SG.check_remove_edge, hE, hidx0', hget0',
                       SG.GraphChange.try_get_edge, hm1, hm2,
                       List.eraseIdx_cons_zero]
          have hih := ih { g with
              deg_map := mmod x.endId (fun d => (d.1 - 1, d.2))
                (mmod x.startId (fun d => (d.1, d.2 - 1)) g.deg_map),
              edges := t } rfl
          constructor
          · intro g' m h
            rw [hred] at h
            exact hih.1 g' m h
          · intro g' h
            rw [hred] at h
            obtain ⟨h1, h2, h3, h4, h4b, h5⟩ := hih.2 g' h
            refine ⟨by rw [h1]; simp [List.filter_cons, hqx], h2, h3, h4, ?_, ?_⟩
            · rw [h4b]
              simp only
              rw [mmod_keys, mmod_keys]
            intro k
            rw [h5 k]
            simp only
            rw [sg_deg_step, hfil]
            have hcE : ((x :: t.filter q).filter (fun e => e.endId == k)).length =
                (if x.endId = k then 1 else 0) +
                  ((t.filter q).filter (fun e => e.endId == k)).length := by
              by_cases h : x.endId = k <;> simp [List.filter_cons, h] <;> omega
            have hcS : ((x :: t.filter q).filter (fun e => e.startId == k)).length =
                (if x.startId = k then 1 else 0) +
                  ((t.filter q).filter (fun e => e.startId == k)).length := by
              by_cases h : x.startId = k <;> simp [List.filter_cons, h] <;> omega
            rw [hcE, hcS]
            rcases hv : mget k g.deg_map with _ | d
            · simp
            · simp only [Option.map_some']
              by_cases h1 : x.endId = k <;> by_cases h2 : x.startId = k <;>
                simp [h1, h2, Prod.ext_iff] <;> omega
    · have hfil : (x :: t).filter q = t.filter q := by
        simp [List.filter_cons, hqx]
      have hne : ∀ e ∈ t.filter q, ¬(e.startId = x.startId ∧ e.endId = x.endId) := by
        intro e he hcontra
        have hp : SG.edgePair e = SG.edgePair x := by
          simp [SG.edgePair, hcontra.1, hcontra.2]
        have := hq e x hp
        rw [List.mem_filter] at he
        rw [he.2] at this
        exact hqx this.symm
      have hskip := sg_remove_edges_loop_skip (t.filter q) g x t hE hne
      have hih := ih { g with edges := t } rfl
      constructor
      · intro g' m h
        rw [hfil, hskip] at h
        rcases hrun : SG.remove_edges_loop (t.filter q) { g with edges := t }
            with g2 | ⟨g2, m2⟩ | _
        · simp [hrun] at h
        · exact hih.1 g2 m2 hrun
        · simp [hrun] at h
      · intro g' h
        rw [hfil, hskip] at h
        rcases hrun : SG.remove_edges_loop (t.filter q) { g with edges := t }
            with g2 | ⟨g2, m2⟩ | _
        · rw [hrun] at h
          simp only [Res.ok.injEq] at h
          obtain ⟨h1, h2, h3, h4, h4b, h5⟩ := hih.2 g2 hrun
          subst h
          have hnx : (!q x) = true := by simp [hqx]
          refine ⟨?_, h2, h3, h4, h4b, ?_⟩
          · simp only [List.filter_cons, hnx, if_pos]
            rw [h1]
          · intro k
            rw [hfil]
            exact h5 k
        · exact absurd hrun (hih.1 g2 m2)
        · simp [hrun] at h

end RemoveLoopSpec

section C2

/-- `remove_edge_unregistered` can only return `Err` from its validation
step, with the receiver untouched. -/
theorem sg_remove_edge_unregistered_err {TN TE : Type} (g : SG.StateGraph TN TE)
    (a b : Id) (p : SG.GraphChange TN TE × SG.StateGraph TN TE) (m : String)
    (h : SG.remove_edge_unregistered g a b = .err p m) : p.2 = g := by
  simp only [SG.remove_edge_unregistered] at h
  split at h
  · cases h; rfl
  · split at h
    · cases h
    · split at h
      · cases h
      · split at h
        · cases h
        · cases h

/-- C2: every public mutating operation of the flat design validates against
the current state before touching any field, so a call that returns `Err`
leaves the graph — node collection, edge collection, degree map, history
log, all of it — exactly as it was. -/
theorem C2_failed_call_leaves_graph_unchanged {TN TE : Type} (g : SG.StateGraph TN TE) :
    (∀ n g' m, SG.insert_node g n = .err g' m → g' = g) ∧
    (∀ e g' m, SG.insert_edge g e = .err g' m → g' = g) ∧
    (∀ id g' m, SG.remove_node g id = .err g' m → g' = g) ∧
    (∀ a b g' m, SG.remove_edge g a b = .err g' m → g' = g) ∧
    (∀ a b g' m, SG.insert_edge_with_nodes g a b = .err g' m → g' = g) ∧
    (∀ nid a b g' m, SG.insert_node_along g nid a b = .err g' m → g' = g) := by
  refine ⟨?_, ?_, ?_, ?_, ?_, ?_⟩
  · intro n g' m h
    simp only [SG.insert_node] at h
    split at h
    · cases h; rfl
    · cases h
  · intro e g' m h
    simp only [SG.insert_edge] at h
    split at h
    · cases h; rfl
    · repeat' split at h
      all_goals cases h
  · intro id g' m h
    rcases hni : SG.node_index id g.nodes with _ | i
    · simp only [SG.remove_node, SG.check_remove_node, hni,
                 SG.GraphChange.try_get_node] at h
      cases h; rfl
    · rcases hgi : g.nodes[i]? with _ | nd
      · simp only [SG.remove_node, SG.check_remove_node, hni, hgi,
                   SG.GraphChange.try_get_node] at h
        cases h; rfl
      · have hq : ∀ (e e' : SG.Edge TE), SG.edgePair e = SG.edgePair e' →
            (fun e => e.startId == id || e.endId == id) e =
            (fun e => e.startId == id || e.endId == id) e' := by
          intro e e' hp
          simp only [SG.edgePair, Prod.ext_iff] at hp
          simp [hp.1, hp.2]
        have hloop := sg_remove_edges_loop_spec
          (fun e => e.startId == id || e.endId == id) hq g.edges
          (SG.register_change g
            (.RemoveNode nd (g.edges.filter (fun e => e.startId == id || e.endId == id))))
          rfl
        simp only [SG.remove_node, SG.check_remove_node, hni, hgi,
                   SG.GraphChange.try_get_node, SG.GraphChange.try_get_edge_vec] at h
        rcases hrun : SG.remove_edges_loop
            (g.edges.filter (fun e => e.startId == id || e.endId == id))
            (SG.register_change g
              (.RemoveNode nd (g.edges.filter (fun e => e.startId == id || e.endId == id))))
            with g2 | ⟨g2, m2⟩ | _
        · simp [hrun] at h
        · exact absurd hrun (hloop.1 g2 m2)
        · simp [hrun] at h
  · intro a b g' m h
    simp only [SG.remove_edge] at h
    rcases hrun : SG.remove_edge_unregistered g a b with ⟨c, g2⟩ | ⟨⟨c, g2⟩, m2⟩ | _
    · simp [hrun] at h
    · simp only [hrun] at h
      cases h
      exact sg_remove_edge_unregistered_err g a b _ _ hrun
    · simp [hrun] at h
  · intro a b g' m h
    simp only [SG.insert_edge_with_nodes] at h
    split at h
    · cases h; rfl
    · repeat' split at h
      all_goals cases h
  · intro nid a b g' m h
    simp only [SG.insert_node_along] at h
    split at h
    · cases h; rfl
    · split at h
      · cases h; rfl
      · repeat' split at h
        all_goals cases h

/-- C2 witness: on `sgW`, each of the six operations has an erring instance
(duplicate node, duplicate edge, missing node, missing edge, duplicate edge
with implicit nodes, duplicate split node), and each leaves `sgW` unchanged. -/
theorem C2_failed_call_witness :
    (SG.insert_node sgW (SG.Node.bare 1) =
        .err sgW "Node with this id already exists." ∧ sgW = sgW) ∧
    (SG.insert_edge sgW (SG.Edge.bare 1 2) =
        .err sgW "Edge with these terminals already exists." ∧ sgW = sgW) ∧
    (SG.remove_node sgW 5 = .err sgW "Node with this id not found." ∧ sgW = sgW) ∧
    (SG.remove_edge sgW 2 1 = .err sgW "Edge not found in graph." ∧ sgW = sgW) ∧
    (SG.insert_edge_with_nodes sgW 1 2 =
        .err sgW "Edge with these terminals already exists." ∧ sgW = sgW) ∧
    (SG.insert_node_along sgW 1 1 2 =
        .err sgW "Node with this id already exists." ∧ sgW = sgW) :=
  ⟨⟨by decide, (C2_failed_call_leaves_graph_unchanged sgW).1 (SG.Node.bare 1) sgW
      "Node with this id already exists." (by decide)⟩,
   ⟨by decide, (C2_failed_call_leaves_graph_unchanged sgW).2.1 (SG.Edge.bare 1 2) sgW
      "Edge with these terminals already exists." (by decide)⟩,
   ⟨by decide, (C2_failed_call_leaves_graph_unchanged sgW).2.2.1 5 sgW
      "Node with this id not found." (by decide)⟩,
   ⟨by decide, (C2_failed_call_leaves_graph_unchanged sgW).2.2.2.1 2 1 sgW
      "Edge not found in graph." (by decide)⟩,
   ⟨by decide, (C2_failed_call_leaves_graph_unchanged sgW).2.2.2.2.1 1 2 sgW
      "Edge with these terminals already exists." (by decide)⟩,
   ⟨by decide, (C2_failed_call_leaves_graph_unchanged sgW).2.2.2.2.2 1 1 2 sgW
      "Node with this id already exists." (by decide)⟩⟩

end C2

section C3Helpers

variable {TN TE : Type}

theorem sg_node_index_append_of_some (q : Id) (l l2 : List (SG.Node TN)) (i : Nat)
    (h : SG.node_index q l = some i) : SG.node_index q (l ++ l2) = some i := by
  induction l generalizing i with
  | nil => simp [SG.node_index] at h
  | cons n t ih =>
    by_cases hn : n.id = q
    · simp only [SG.node_index, if_pos hn, Option.some.injEq] at h
      simp [SG.node_index, hn, h]
    · simp only [SG.node_index, if_neg hn, Option.map_eq_some'] at h
      obtain ⟨j, hj, hji⟩ := h
      simp [SG.node_index, hn, ih j hj, hji]

theorem sg_node_index_append_one_of_none (q : Id) (l : List (SG.Node TN))
    (n : SG.Node TN) (h : SG.node_index q l = none) :
    SG.node_index q (l ++ [n]) =
      (if n.id = q then some l.length else none) := by
  induction l with
  | nil => simp [SG.node_index]
  | cons x t ih =>
    by_cases hx : x.id = q
    · simp [SG.node_index, hx] at h
    · simp only [SG.node_index, if_neg hx, Option.map_eq_none'] at h
      by_cases hn : n.id = q <;>
        simp [SG.node_index, hx, ih h, hn, List.length_cons]

/-- A `push_back` below capacity appends without eviction. -/
theorem sg_push_back_no_evict (h : SG.HistoryDeque TN TE) (c : SG.GraphChange TN TE)
    (hlen : h.entries.length + 1 ≤ h.cap) :
    (h.push_back c).1 = { h with entries := h.entries ++ [c] } := by
  simp only [SG.HistoryDeque.push_back, List.length_append, List.length_cons,
             List.length_nil]
  rw [if_neg (by omega)]

end C3Helpers

section BareProjections

variable {TN TE : Type}

theorem sg_bare_node_id (a : Id) : (SG.Node.bare a : SG.Node TN).id = a := rfl

theorem sg_bare_startId (a b : Id) : (SG.Edge.bare a b : SG.Edge TE).startId = a := rfl

theorem sg_bare_endId (a b : Id) : (SG.Edge.bare a b : SG.Edge TE).endId = b := rfl

theorem dg_bare_node_id (a : Id) : (DG.Node.bare a : DG.Node TN).id = a := rfl

theorem dg_bare_startId (a b : Id) : (DG.Edge.bare a b : DG.Edge TE).startId = a := rfl

theorem dg_bare_endId (a b : Id) : (DG.Edge.bare a b : DG.Edge TE).endId = b := rfl

end BareProjections

section C3

/-- The tail of `insert_edge_with_nodes` (the unwrapped `insert_edge` call
followed by registering the composite descriptor) appends exactly
`[AddEdge e, ch]` to the history when it succeeds. -/
theorem sg_iewn_last_step {TN TE : Type} (g2 : SG.StateGraph TN TE) (s t : Id)
    (ch : SG.GraphChange TN TE) (g' : SG.StateGraph TN TE)
    (hei2 : SG.edge_index s t g2.edges = none)
    (hjs : ∃ j, SG.node_index s g2.nodes = some j)
    (hjt : ∃ j, SG.node_index t g2.nodes = some j)
    (hcap2 : g2.undo_history.entries.length + 2 ≤ g2.undo_history.cap)
    (hok : (match SG.insert_edge g2 (SG.Edge.bare s t) with
            | .err _ _ => Res.panic
            | .panic => Res.panic
            | .ok g3 => .ok (SG.register_change g3 ch)) = .ok g') :
    g'.undo_history.entries =
      g2.undo_history.entries ++ [SG.GraphChange.AddEdge (SG.Edge.bare s t), ch] := by
  obtain ⟨js, hjs⟩ := hjs
  obtain ⟨jt, hjt⟩ := hjt
  rcases hms : mget s g2.deg_map with _ | ds
  · simp only [SG.insert_edge, SG.check_add_edge, sg_bare_startId, sg_bare_endId,
               hei2, hjs, hjt,
               SG.GraphChange.try_get_edge, SG.register_change, hms] at hok
    cases hok
  · rcases hmt : mget t (mmod s (fun d => (d.1, d.2 + 1)) g2.deg_map) with _ | dt
    · simp only [SG.insert_edge, SG.check_add_edge, sg_bare_startId, sg_bare_endId,
                 hei2, hjs, hjt,
                 SG.GraphChange.try_get_edge, SG.register_change, hms, hmt] at hok
      cases hok
    · have hp1 := sg_push_back_no_evict g2.undo_history
        (SG.GraphChange.AddEdge (SG.Edge.bare s t)) (by omega)
      simp only [SG.insert_edge, SG.check_add_edge, sg_bare_startId, sg_bare_endId,
                 hei2, hjs, hjt,
                 SG.GraphChange.try_get_edge, SG.register_change, hms, hmt, hp1] at hok
      have hp2 := sg_push_back_no_evict
        { g2.undo_history with
          entries := g2.undo_history.entries ++ [SG.GraphChange.AddEdge (SG.Edge.bare s t)] }
        ch (by simp; omega)
      simp only [hp2] at hok
      cases hok
      simp

end C3

section C3Main

/-- C3 (amended): a successful flat-design `insert_edge_with_nodes(s,t)` call
(with room in the history) appends, in order, one `AddNode` descriptor per
synthesized endpoint, one `AddEdge` descriptor, and finally the composite
`AddEdgeWith` descriptor recording the edge and exactly the newly synthesized
endpoints (`none` for pre-existing ones) — four descriptors on an empty
graph, not one.  On the map-keyed design, whose undo engine the claim cites,
a single `undo()` of the lone `AddEdgeWith` descriptor removes the edge and
exactly the auto-created nodes: `insert_edge_with_nodes(5,6)` on the empty
graph followed by `undo()` restores the empty node and edge collections
(leaving only empty leftover adjacency entries), and with node 5
pre-existing, undo removes only the edge and node 6, never node 5. -/
theorem C3_insert_edge_with_nodes_amended {TN TE : Type}
    (g : SG.StateGraph TN TE) (s t : Id) (g' : SG.StateGraph TN TE)
    (e : SG.Edge TE) (ni no : Option Id)
    (hch : @SG.check_add_edge_with_nodes TN TE g.nodes g.edges s t =
      .AddEdgeWith e ni no)
    (hcap : g.undo_history.entries.length + 4 ≤ g.undo_history.cap)
    (hok : SG.insert_edge_with_nodes g s t = .ok g') :
    (g'.undo_history.entries =
      g.undo_history.entries ++
      (ni.toList.map (fun x => SG.GraphChange.AddNode (SG.Node.bare x))) ++
      (no.toList.map (fun x => SG.GraphChange.AddNode (SG.Node.bare x))) ++
      [SG.GraphChange.AddEdge e, SG.GraphChange.AddEdgeWith e ni no]) ∧
    (((DG.insert_edge_with_nodes (DG.DiGraph.default Unit Unit) 5 6).okState?.bind
        (fun gC => (DG.undo gC).okState?)) =
      some ⟨none, [], [], [(5, []), (6, [])], [(5, []), (6, [])], ⟨[], 100⟩⟩) ∧
    ((((DG.insert_node (DG.DiGraph.default Unit Unit) (DG.Node.bare 5)).okState?.bind
        (fun gA => (DG.insert_edge_with_nodes gA 5 6).okState?)).bind
        (fun gB => (DG.undo gB).okState?)).map (fun gU => gU.nodes) =
      some [(5, DG.Node.bare 5)]) ∧
    ((((DG.insert_node (DG.DiGraph.default Unit Unit) (DG.Node.bare 5)).okState?.bind
        (fun gA => (DG.insert_edge_with_nodes gA 5 6).okState?)).bind
        (fun gB => (DG.undo gB).okState?)).map (fun gU => gU.edges) =
      some []) := by
  refine ⟨?_, by decide, by decide, by decide⟩
  rcases hei : SG.edge_index s t g.edges with _ | i
  · -- the duplicate-edge case cannot have produced an AddEdgeWith descriptor
    rcases hni : SG.node_index s g.nodes with _ | j <;>
      rcases hno : SG.node_index t g.nodes with _ | j'
    all_goals (
      simp only [SG.check_add_edge_with_nodes, hei, hni, hno] at hch
      injection hch with h1 h2 h3
      subst h1; subst h2; subst h3
      simp only [SG.insert_edge_with_nodes, SG.check_add_edge_with_nodes, hei,
                 hni, hno, SG.GraphChange.try_get_edge_with_nodes] at hok)
    · -- both endpoints absent: synthesize both (s = t would panic)
      have hr1 : SG.insert_node g (SG.Node.bare s) =
          .ok { SG.register_change g (.AddNode (SG.Node.bare s)) with
                nodes := g.nodes ++ [SG.Node.bare s],
                deg_map := mput s (0, 0) g.deg_map } := by
        simp only [SG.insert_node, SG.check_add_node, sg_bare_node_id, hni,
                   SG.GraphChange.try_get_node, SG.register_change]
      simp only [hr1] at hok
      by_cases hst : s = t
      · have hnt : SG.node_index t (g.nodes ++ [SG.Node.bare s]) = some g.nodes.length := by
          rw [sg_node_index_append_one_of_none t g.nodes (SG.Node.bare s) hno]
          simp [sg_bare_node_id, hst]
        have hr2 : SG.insert_node
            { SG.register_change g (.AddNode (SG.Node.bare s)) with
              nodes := g.nodes ++ [SG.Node.bare s],
              deg_map := mput s (0, 0) g.deg_map } (SG.Node.bare t) =
            .err { SG.register_change g (.AddNode (SG.Node.bare s)) with
                   nodes := g.nodes ++ [SG.Node.bare s],
                   deg_map := mput s (0, 0) g.deg_map }
              "Node with this id already exists." := by
          simp only [SG.insert_node, SG.check_add_node, sg_bare_node_id, hnt,
                     SG.GraphChange.try_get_node]
        simp only [hr2] at hok
        cases hok
      · have hnt : SG.node_index t (g.nodes ++ [SG.Node.bare s]) = none := by
          rw [sg_node_index_append_one_of_none t g.nodes (SG.Node.bare s) hno]
          simp [sg_bare_node_id, hst]
        have hp1 := sg_push_back_no_evict g.undo_history
          (SG.GraphChange.AddNode (SG.Node.bare s)) (by omega)
        have hr2 : SG.insert_node
            { SG.register_change g (.AddNode (SG.Node.bare s)) with
              nodes := g.nodes ++ [SG.Node.bare s],
              deg_map := mput s (0, 0) g.deg_map } (SG.Node.bare t) =
            .ok { SG.register_change
                    { SG.register_change g (.AddNode (SG.Node.bare s)) with
                      nodes := g.nodes ++ [SG.Node.bare s],
                      deg_map := mput s (0, 0) g.deg_map }
                    (.AddNode (SG.Node.bare t)) with
                  nodes := (g.nodes ++ [SG.Node.bare s]) ++ [SG.Node.bare t],
                  deg_map := mput t (0, 0) (mput s (0, 0) g.deg_map) } := by
          simp only [SG.insert_node, SG.check_add_node, sg_bare_node_id, hnt,
                     SG.GraphChange.try_get_node, SG.register_change]
        simp only [hr2] at hok
        have hlast := sg_iewn_last_step _ s t _ g' ?_ ?_ ?_ ?_ hok
        rotate_left
        · exact hei
        · exact ⟨g.nodes.length,
            sg_node_index_append_of_some s (g.nodes ++ [SG.Node.bare s]) _ _
              (by rw [sg_node_index_append_one_of_none s g.nodes _ hni]
                  simp [sg_bare_node_id])⟩
        · refine ⟨(g.nodes ++ [SG.Node.bare s]).length, ?_⟩
          rw [sg_node_index_append_one_of_none t (g.nodes ++ [SG.Node.bare s])
              (SG.Node.bare t) hnt]
          simp [sg_bare_node_id]
        · simp only [SG.register_change, hp1]
          have hp2 := sg_push_back_no_evict
            { g.undo_history with
              entries := g.undo_history.entries ++
                [SG.GraphChange.AddNode (SG.Node.bare s)] }
            (SG.GraphChange.AddNode (SG.Node.bare t)) (by simp; omega)
          simp only [hp2]
          simp
          omega
        · rw [hlast]
          simp only [SG.register_change, hp1]
          have hp2 := sg_push_back_no_evict
            { g.undo_history with
              entries := g.undo_history.entries ++
                [SG.GraphChange.AddNode (SG.Node.bare s)] }
            (SG.GraphChange.AddNode (SG.Node.bare t)) (by simp; omega)
          simp only [hp2]
          simp
    · -- s absent, t present: synthesize only s
      have hr1 : SG.insert_node g (SG.Node.bare s) =
          .ok { SG.register_change g (.AddNode (SG.Node.bare s)) with
                nodes := g.nodes ++ [SG.Node.bare s],
                deg_map := mput s (0, 0) g.deg_map } := by
        simp only [SG.insert_node, SG.check_add_node, sg_bare_node_id, hni,
                   SG.GraphChange.try_get_node, SG.register_change]
      simp only [hr1] at hok
      have hp1 := sg_push_back_no_evict g.undo_history
        (SG.GraphChange.AddNode (SG.Node.bare s)) (by omega)
      have hlast := sg_iewn_last_step _ s t _ g' ?_ ?_ ?_ ?_ hok
      rotate_left
      · exact hei
      · refine ⟨g.nodes.length, ?_⟩
        rw [sg_node_index_append_one_of_none s g.nodes _ hni]
        simp [sg_bare_node_id]
      · exact ⟨j', sg_node_index_append_of_some t g.nodes _ j' hno⟩
      · simp only [SG.register_change, hp1]
        simp
        omega
      · rw [hlast]
        simp only [SG.register_change, hp1]
        simp
    · -- s present, t absent: synthesize only t
      have hr2 : SG.insert_node g (SG.Node.bare t) =
          .ok { SG.register_change g (.AddNode (SG.Node.bare t)) with
                nodes := g.nodes ++ [SG.Node.bare t],
                deg_map := mput t (0, 0) g.deg_map } := by
        simp only [SG.insert_node, SG.check_add_node, sg_bare_node_id, hno,
                   SG.GraphChange.try_get_node, SG.register_change]
      simp only [hr2] at hok
      have hp1 := sg_push_back_no_evict g.undo_history
        (SG.GraphChange.AddNode (SG.Node.bare t)) (by omega)
      have hlast := sg_iewn_last_step _ s t _ g' ?_ ?_ ?_ ?_ hok
      rotate_left
      · exact hei
      · exact ⟨j, sg_node_index_append_of_some s g.nodes _ j hni⟩
      · refine ⟨g.nodes.length, ?_⟩
        rw [sg_node_index_append_one_of_none t g.nodes _ hno]
        simp [sg_bare_node_id]
      · simp only [SG.register_change, hp1]
        simp
        omega
      · rw [hlast]
        simp only [SG.register_change, hp1]
        simp
    · -- both endpoints present: no synthesis
      have hlast := sg_iewn_last_step g s t _ g' hei ⟨j, hni⟩ ⟨j', hno⟩
        (by omega) hok
      rw [hlast]
      simp
  · simp only [SG.check_add_edge_with_nodes, hei] at hch
    cases hch

end C3Main

section C3Concrete

/-- C3 counterexample: on the empty flat graph, a successful
`insert_edge_with_nodes(5,6)` appends four descriptors (`AddNode 5`,
`AddNode 6`, `AddEdge 5->6`, `AddEdgeWith`), not exactly one; and on the
map-keyed design the subsequent `undo()` does not restore the graph to the
default empty value (empty adjacency entries for 5 and 6 are left behind). -/
theorem C3_single_descriptor_counterexample :
    ((SG.insert_edge_with_nodes (SG.StateGraph.default Unit Unit) 5 6).okState?.map
      (fun g => g.undo_history.entries)) =
      some [.AddNode (SG.Node.bare 5), .AddNode (SG.Node.bare 6),
            .AddEdge (SG.Edge.bare 5 6),
            .AddEdgeWith (SG.Edge.bare 5 6) (some 5) (some 6)] ∧
    ¬ ((SG.insert_edge_with_nodes (SG.StateGraph.default Unit Unit) 5 6).okState?.map
      (fun g => g.undo_history.entries.length) = some 1) ∧
    ((DG.insert_edge_with_nodes (DG.DiGraph.default Unit Unit) 5 6).okState?.bind
      (fun gC => (DG.undo gC).okState?)) ≠ some (DG.DiGraph.default Unit Unit) := by
  decide

/-- C3 witness: scenario C instantiated — `insert_edge_with_nodes(5,6)` on
the empty flat graph logs the four descriptors ending in the composite
`AddEdgeWith` that records both synthesized endpoints. -/
theorem C3_insert_edge_with_nodes_witness :
    (@SG.check_add_edge_with_nodes Unit Unit
      (SG.StateGraph.default Unit Unit).nodes (SG.StateGraph.default Unit Unit).edges
      5 6 = .AddEdgeWith (SG.Edge.bare 5 6) (some 5) (some 6)) ∧
    ((SG.StateGraph.default Unit Unit).undo_history.entries.length + 4 ≤
      (SG.StateGraph.default Unit Unit).undo_history.cap) ∧
    (SG.insert_edge_with_nodes (SG.StateGraph.default Unit Unit) 5 6 = .ok sgC3) ∧
    ((sgC3.undo_history.entries =
      (SG.StateGraph.default Unit Unit).undo_history.entries ++
      ((some (5 : Id)).toList.map (fun x => SG.GraphChange.AddNode (SG.Node.bare x))) ++
      ((some (6 : Id)).toList.map (fun x => SG.GraphChange.AddNode (SG.Node.bare x))) ++
      [SG.GraphChange.AddEdge (SG.Edge.bare 5 6),
       SG.GraphChange.AddEdgeWith (SG.Edge.bare 5 6) (some 5) (some 6)]) ∧
    (((DG.insert_edge_with_nodes (DG.DiGraph.default Unit Unit) 5 6).okState?.bind
        (fun gC => (DG.undo gC).okState?)) =
      some ⟨none, [], [], [(5, []), (6, [])], [(5, []), (6, [])], ⟨[], 100⟩⟩) ∧
    ((((DG.insert_node (DG.DiGraph.default Unit Unit) (DG.Node.bare 5)).okState?.bind
        (fun gA => (DG.insert_edge_with_nodes gA 5 6).okState?)).bind
        (fun gB => (DG.undo gB).okState?)).map (fun gU => gU.nodes) =
      some [(5, DG.Node.bare 5)]) ∧
    ((((DG.insert_node (DG.DiGraph.default Unit Unit) (DG.Node.bare 5)).okState?.bind
        (fun gA => (DG.insert_edge_with_nodes gA 5 6).okState?)).bind
        (fun gB => (DG.undo gB).okState?)).map (fun gU => gU.edges) =
      some [])) :=
  ⟨by decide, by decide, by decide,
   C3_insert_edge_with_nodes_amended (SG.StateGraph.default Unit Unit) 5 6 sgC3
     (SG.Edge.bare 5 6) (some 5) (some 6) (by decide) (by decide) (by decide)⟩

end C3Concrete

section C4Helpers

variable {α : Type} {TN TE : Type}

theorem mput_keys_absent (k : Id) (v : α) (m : List (Id × α)) (h : mget k m = none) :
    (mput k v m).map Prod.fst = m.map Prod.fst ++ [k] := by
  induction m with
  | nil => simp [mput]
  | cons p t ih =>
    by_cases hk : p.1 = k
    · simp [mget, hk] at h
    · simp only [mget, if_neg hk] at h
      simp [mput, hk, ih h]

theorem mput_mem_absent (k : Id) (v : α) (m : List (Id × α)) (p : Id × α)
    (h : mget k m = none) : p ∈ mput k v m ↔ p = (k, v) ∨ p ∈ m := by
  induction m with
  | nil => simp [mput]
  | cons q t ih =>
    by_cases hk : q.1 = k
    · simp [mget, hk] at h
    · simp only [mget, if_neg hk] at h
      simp only [mput, if_neg hk, List.mem_cons, ih h]
      tauto

theorem mdel_keys (k : Id) (m : List (Id × α)) :
    (mdel k m).map Prod.fst = (m.map Prod.fst).filter (fun x => x != k) := by
  induction m with
  | nil => simp [mdel]
  | cons p t ih =>
    by_cases hk : p.1 = k
    · subst hk
      simpa [mdel, List.filter_cons] using ih
    · have hb : (p.1 != k) = true := by simpa [bne_iff_ne] using hk
      simpa [mdel, List.filter_cons, hb] using ih

theorem mem_iff_mget (m : List (Id × α)) (p : Id × α)
    (hnd : (m.map Prod.fst).Nodup) : p ∈ m ↔ mget p.1 m = some p.2 := by
  induction m with
  | nil => simp [mget]
  | cons q t ih =>
    simp only [List.map_cons, List.nodup_cons] at hnd
    by_cases hk : q.1 = p.1
    · constructor
      · intro hmem
        rcases List.mem_cons.mp hmem with h | h
        · subst h; simp [mget]
        · exact absurd (hk ▸ List.mem_map_of_mem Prod.fst h) hnd.1
      · intro hget
        simp only [mget, if_pos hk, Option.some.injEq] at hget
        have : q = p := Prod.ext hk (by rw [hget])
        simp [this]
    · rw [List.mem_cons, ih hnd.2]
      simp only [mget, if_neg hk]
      constructor
      · rintro (h | h)
        · exact absurd (congrArg Prod.fst h).symm hk
        · exact h
      · exact Or.inr

theorem sg_cnd_append_one (l : List (SG.Edge TE)) (e : SG.Edge TE) (k : Id) :
    SG.check_node_degrees (l ++ [e]) k =
      ((SG.check_node_degrees l k).1 + (if e.endId = k then 1 else 0),
       (SG.check_node_degrees l k).2 + (if e.startId = k then 1 else 0)) := by
  induction l with
  | nil => simp [SG.check_node_degrees]
  | cons x t ih =>
    rw [List.cons_append]
    simp only [SG.check_node_degrees]
    rw [ih]
    by_cases h1 : x.endId = k <;> by_cases h2 : x.startId = k <;>
      simp [h1, h2, Prod.ext_iff] <;> omega

theorem sg_cnd_eraseIdx (l : List (SG.Edge TE)) (i : Nat) (e : SG.Edge TE) (k : Id)
    (h : l[i]? = some e) :
    SG.check_node_degrees l k =
      ((SG.check_node_degrees (l.eraseIdx i) k).1 + (if e.endId = k then 1 else 0),
       (SG.check_node_degrees (l.eraseIdx i) k).2 + (if e.startId = k then 1 else 0)) := by
  induction l generalizing i with
  | nil => simp at h
  | cons x t ih =>
    cases i with
    | zero =>
      simp only [List.getElem?_cons_zero, Option.some.injEq] at h
      subst h
      simp [SG.check_node_degrees, List.eraseIdx_cons_zero]
      omega
    | succ j =>
      simp only [List.getElem?_cons_succ] at h
      simp only [List.eraseIdx_cons_succ, SG.check_node_degrees, ih j h]
      by_cases h1 : x.endId = k <;> by_cases h2 : x.startId = k <;>
        simp [h1, h2, Prod.ext_iff] <;> omega

theorem sg_cnd_zero (l : List (SG.Edge TE)) (k : Id)
    (h : ∀ e ∈ l, e.startId ≠ k ∧ e.endId ≠ k) :
    SG.check_node_degrees l k = (0, 0) := by
  induction l with
  | nil => simp [SG.check_node_degrees]
  | cons x t ih =>
    have hx := h x (by simp)
    simp [SG.check_node_degrees, hx.1, hx.2, ih (fun e he => h e (by simp [he]))]

theorem sg_cnd_filter_split (l : List (SG.Edge TE)) (q : SG.Edge TE → Bool) (k : Id) :
    SG.check_node_degrees l k =
      ((SG.check_node_degrees (l.filter q) k).1 +
         (SG.check_node_degrees (l.filter (fun e => !q e)) k).1,
       (SG.check_node_degrees (l.filter q) k).2 +
         (SG.check_node_degrees (l.filter (fun e => !q e)) k).2) := by
  induction l with
  | nil => simp [SG.check_node_degrees]
  | cons x t ih =>
    by_cases hq : q x <;>
      by_cases h1 : x.endId = k <;> by_cases h2 : x.startId = k <;>
      simp [SG.check_node_degrees, List.filter_cons, hq, h1, h2, ih, Prod.ext_iff] <;>
      omega

theorem mem_eraseIdx_of_ne {x y : α} (l : List α) (i : Nat)
    (hx : x ∈ l) (hy : l[i]? = some y) (hne : x ≠ y) : x ∈ l.eraseIdx i := by
  induction l generalizing i with
  | nil => simp at hx
  | cons a t ih =>
    cases i with
    | zero =>
      simp only [List.getElem?_cons_zero, Option.some.injEq] at hy
      subst hy
      rcases List.mem_cons.mp hx with h | h
      · exact absurd h hne
      · simpa [List.eraseIdx_cons_zero] using h
    | succ j =>
      simp only [List.getElem?_cons_succ] at hy
      rcases List.mem_cons.mp hx with h | h
      · simp [List.eraseIdx_cons_succ, h]
      · simp [List.eraseIdx_cons_succ, List.mem_cons, ih j h hy]

theorem map_eraseIdx' {β : Type} (f : α → β) (l : List α) (i : Nat) :
    (l.eraseIdx i).map f = (l.map f).eraseIdx i := by
  induction l generalizing i with
  | nil => simp
  | cons a t ih =>
    cases i with
    | zero => simp [List.eraseIdx_cons_zero]
    | succ j => simp [List.eraseIdx_cons_succ, ih]

theorem eraseIdx_perm_filter {x : α} [DecidableEq α] (l : List α) (i : Nat)
    (hnd : l.Nodup) (h : l[i]? = some x) :
    (l.eraseIdx i).Perm (l.filter (fun y => y != x)) := by
  induction l generalizing i with
  | nil => simp at h
  | cons a t ih =>
    simp only [List.nodup_cons] at hnd
    cases i with
    | zero =>
      simp only [List.getElem?_cons_zero, Option.some.injEq] at h
      subst h
      rw [List.eraseIdx_cons_zero]
      have hfil : (a :: t).filter (fun y => y != a) = t.filter (fun y => y != a) := by
        simp [List.filter_cons]
      rw [hfil]
      have hself : t.filter (fun y => y != a) = t := by
        apply List.filter_eq_self.mpr
        intro b hb
        simp only [bne_iff_ne, ne_eq]
        intro hba
        exact hnd.1 (hba ▸ hb)
      rw [hself]
    | succ j =>
      simp only [List.getElem?_cons_succ] at h
      have hax : a ≠ x := by
        intro hax
        obtain ⟨hlt, hget⟩ := List.getElem?_eq_some.mp h
        exact hnd.1 (hax ▸ (hget ▸ List.getElem_mem hlt))
      have hb : (a != x) = true := by simpa [bne_iff_ne] using hax
      rw [List.eraseIdx_cons_succ, List.filter_cons, hb]
      simpa using (ih j hnd.2 h).cons a

/-- Increment analog of `sg_deg_step`: effect of `insert_edge`'s two degree
increments on an arbitrary key. -/
theorem sg_deg_step_add {TE : Type} (e : SG.Edge TE) (dm : List (Id × (Nat × Nat)))
    (k : Id) :
    mget k (mmod e.endId (fun d => (d.1 + 1, d.2))
      (mmod e.startId (fun d => (d.1, d.2 + 1)) dm)) =
    (mget k dm).map (fun d =>
      (d.1 + (if e.endId = k then 1 else 0), d.2 + (if e.startId = k then 1 else 0))) := by
  by_cases h1 : k = e.endId <;> by_cases h2 : k = e.startId
  · rw [← h1, ← h2, mget_mmod_self, mget_mmod_self]
    cases mget k dm <;> simp
  · rw [← h1, mget_mmod_self, mget_mmod_ne _ _ _ _ h2]
    cases mget k dm <;> simp [Ne.symm h2]
  · rw [← h2, mget_mmod_ne _ _ _ _ h1, mget_mmod_self]
    cases mget k dm <;> simp [Ne.symm h1]
  · rw [mget_mmod_ne _ _ _ _ h1, mget_mmod_ne _ _ _ _ h2]
    cases mget k dm <;> simp [Ne.symm h1, Ne.symm h2]

end C4Helpers

section C4Preservation

variable {TN TE : Type}

theorem sg_inv_insert_node (g : SG.StateGraph TN TE) (n : SG.Node TN)
    (g' : SG.StateGraph TN TE) (hInv : SG.Invariant g)
    (h : SG.insert_node g n = .ok g') : SG.Invariant g' := by
  rcases hni : SG.node_index n.id g.nodes with _ | i
  · simp only [SG.insert_node, SG.check_add_node, hni,
               SG.GraphChange.try_get_node, SG.register_change] at h
    cases h
    obtain ⟨h1, h2, h3, h4, h5⟩ := hInv
    have hfresh : n.id ∉ SG.nodeIds g := by
      have := (SG.node_index_eq_none_iff n.id g.nodes).mp hni
      simpa [SG.nodeIds] using this
    have hdegnone : mget n.id g.deg_map = none := by
      rw [mget_eq_none_iff]
      intro hk
      exact hfresh (h4.mem_iff.mp hk)
    refine ⟨?_, ?_, ?_, ?_, ?_⟩
    · simp only [SG.nodeIds, List.map_append, List.map_cons, List.map_nil]
      rw [List.nodup_append]
      refine ⟨h1, List.nodup_singleton _, ?_⟩
      intro x hx hx1
      simp only [List.mem_singleton] at hx1
      exact hfresh (hx1 ▸ hx)
    · intro e he
      obtain ⟨hs, ht⟩ := h2 e he
      constructor <;>
        simp only [SG.nodeIds, List.map_append, List.mem_append] <;>
        [exact Or.inl hs; exact Or.inl ht]
    · exact h3
    · simp only [SG.nodeIds, List.map_append, List.map_cons, List.map_nil]
      rw [mput_keys_absent n.id (0, 0) g.deg_map hdegnone]
      exact h4.append (List.Perm.refl _)
    · intro p hp
      rcases (mput_mem_absent n.id (0, 0) g.deg_map p hdegnone).mp hp with hnew | hold
      · subst hnew
        refine (sg_cnd_zero g.edges n.id ?_).symm
        intro e he
        obtain ⟨hs, ht⟩ := h2 e he
        constructor
        · intro hq; exact hfresh (hq ▸ hs)
        · intro hq; exact hfresh (hq ▸ ht)
      · exact h5 p hold
  · simp only [SG.insert_node, SG.check_add_node, hni,
               SG.GraphChange.try_get_node] at h
    cases h

theorem sg_inv_insert_edge (g : SG.StateGraph TN TE) (e : SG.Edge TE)
    (g' : SG.StateGraph TN TE) (hInv : SG.Invariant g)
    (h : SG.insert_edge g e = .ok g') : SG.Invariant g' := by
  rcases hei : SG.edge_index e.startId e.endId g.edges with _ | i
  case some =>
    simp only [SG.insert_edge, SG.check_add_edge, hei,
               SG.GraphChange.try_get_edge] at h
    cases h
  case none =>
  rcases hns : SG.node_index e.startId g.nodes with _ | js
  case none =>
    simp only [SG.insert_edge, SG.check_add_edge, hei, hns,
               SG.GraphChange.try_get_edge] at h
    cases h
  case some =>
  rcases hnt : SG.node_index e.endId g.nodes with _ | jt
  case none =>
    simp only [SG.insert_edge, SG.check_add_edge, hei, hns, hnt,
               SG.GraphChange.try_get_edge] at h
    cases h
  case some =>
  rcases hms : mget e.startId g.deg_map with _ | ds
  case none =>
    simp only [SG.insert_edge, SG.check_add_edge, hei, hns, hnt,
               SG.GraphChange.try_get_edge, SG.register_change, hms] at h
    cases h
  case some =>
  rcases hmt : mget e.endId (mmod e.startId (fun d => (d.1, d.2 + 1)) g.deg_map)
      with _ | dt
  case none =>
    simp only [SG.insert_edge, SG.check_add_edge, hei, hns, hnt,
               SG.GraphChange.try_get_edge, SG.register_change, hms, hmt] at h
    cases h
  case some =>
  simp only [SG.insert_edge, SG.check_add_edge, hei, hns, hnt,
             SG.GraphChange.try_get_edge, SG.register_change, hms, hmt] at h
  cases h
  obtain ⟨h1, h2, h3, h4, h5⟩ := hInv
  have hpairfresh : (e.startId, e.endId) ∉ g.edges.map SG.edgePair :=
    (SG.edge_index_eq_none_iff _ _ _).mp hei
  refine ⟨h1, ?_, ?_, ?_, ?_⟩
  · intro e' he'
    rcases List.mem_append.mp he' with hold | hnew
    · exact h2 e' hold
    · simp only [List.mem_singleton] at hnew
      subst hnew
      constructor
      · have := (SG.node_index_isSome_iff e'.startId g.nodes).mp (by rw [hns]; rfl)
        simpa [SG.nodeIds] using this
      · have := (SG.node_index_isSome_iff e'.endId g.nodes).mp (by rw [hnt]; rfl)
        simpa [SG.nodeIds] using this
  · simp only [List.map_append, List.map_cons, List.map_nil]
    rw [List.nodup_append]
    refine ⟨h3, List.nodup_singleton _, ?_⟩
    intro x hx hx1
    simp only [List.mem_singleton] at hx1
    subst hx1
    exact hpairfresh hx
  · rw [mmod_keys, mmod_keys]
    exact h4
  · intro p hp
    have hkeysnd : ((mmod e.endId (fun d => (d.1 + 1, d.2))
        (mmod e.startId (fun d => (d.1, d.2 + 1)) g.deg_map)).map Prod.fst).Nodup := by
      rw [mmod_keys, mmod_keys]
      exact h4.nodup_iff.mpr (by simpa [SG.nodeIds] using h1)
    have hget := (mem_iff_mget _ p hkeysnd).mp hp
    rw [sg_deg_step_add] at hget
    rcases hv : mget p.1 g.deg_map with _ | d
    · rw [hv] at hget; cases hget
    · rw [hv] at hget
      simp only [Option.map_some', Option.some.injEq] at hget
      have hd : d = SG.check_node_degrees g.edges p.1 := by
        have hmem : (p.1, d) ∈ g.deg_map := by
          have hdnd : (g.deg_map.map Prod.fst).Nodup :=
            h4.nodup_iff.mpr (by simpa [SG.nodeIds] using h1)
          exact (mem_iff_mget g.deg_map (p.1, d) hdnd).mpr hv
        exact h5 (p.1, d) hmem
      rw [sg_cnd_append_one, ← hget, hd]

end C4Preservation

section C4Preservation2

variable {TN TE : Type}

theorem sg_inv_remove_edge_unregistered (g : SG.StateGraph TN TE) (a b : Id)
    (c : SG.GraphChange TN TE) (g2 : SG.StateGraph TN TE) (hInv : SG.Invariant g)
    (h : SG.remove_edge_unregistered g a b = .ok (c, g2)) : SG.Invariant g2 := by
  rcases hei : SG.edge_index a b g.edges with _ | i
  case none =>
    simp only [SG.remove_edge_unregistered, SG.check_remove_edge, hei,
               SG.GraphChange.try_get_edge] at h
    cases h
  case some =>
  obtain ⟨ed, hgi, hsa, hsb⟩ := SG.edge_index_spec a b g.edges i hei
  rcases hms : mget ed.startId g.deg_map with _ | ds
  case none =>
    simp only [SG.remove_edge_unregistered, SG.check_remove_edge, hei, hgi,
               SG.GraphChange.try_get_edge, hms] at h
    cases h
  case some =>
  rcases hmt : mget ed.endId (mmod ed.startId (fun d => (d.1, d.2 - 1)) g.deg_map)
      with _ | dt
  case none =>
    simp only [SG.remove_edge_unregistered, SG.check_remove_edge, hei, hgi,
               SG.GraphChange.try_get_edge, hms, hmt] at h
    cases h
  case some =>
  simp only [SG.remove_edge_unregistered, SG.check_remove_edge, hei, hgi,
             SG.GraphChange.try_get_edge, hms, hmt, Res.ok.injEq, Prod.mk.injEq] at h
  obtain ⟨hc, hg2⟩ := h
  subst hg2
  obtain ⟨h1, h2, h3, h4, h5⟩ := hInv
  refine ⟨h1, ?_, ?_, ?_, ?_⟩
  · intro e' he'
    exact h2 e' ((List.eraseIdx_sublist g.edges i).subset he')
  · rw [map_eraseIdx']
    exact (List.eraseIdx_sublist _ i).nodup h3
  · rw [mmod_keys, mmod_keys]
    exact h4
  · intro p hp
    have hdnd : (g.deg_map.map Prod.fst).Nodup :=
      h4.nodup_iff.mpr (by simpa [SG.nodeIds] using h1)
    have hkeysnd : ((mmod ed.endId (fun d => (d.1 - 1, d.2))
        (mmod ed.startId (fun d => (d.1, d.2 - 1)) g.deg_map)).map Prod.fst).Nodup := by
      rw [mmod_keys, mmod_keys]
      exact hdnd
    have hget := (mem_iff_mget _ p hkeysnd).mp hp
    rw [sg_deg_step] at hget
    rcases hv : mget p.1 g.deg_map with _ | d
    · rw [hv] at hget; cases hget
    · rw [hv] at hget
      simp only [Option.map_some', Option.some.injEq] at hget
      have hd : d = SG.check_node_degrees g.edges p.1 :=
        h5 (p.1, d) ((mem_iff_mget g.deg_map (p.1, d) hdnd).mpr hv)
      have hcnt := sg_cnd_eraseIdx g.edges i ed p.1 hgi
      rw [hd, hcnt] at hget
      by_cases hq1 : ed.endId = p.1 <;> by_cases hq2 : ed.startId = p.1 <;>
        simp only [hq1, hq2, if_pos, if_neg, ite_true, ite_false] at hget <;>
        (rw [← hget]; simp [Prod.ext_iff] <;> omega)

theorem sg_inv_remove_edge (g : SG.StateGraph TN TE) (a b : Id)
    (g' : SG.StateGraph TN TE) (hInv : SG.Invariant g)
    (h : SG.remove_edge g a b = .ok g') : SG.Invariant g' := by
  simp only [SG.remove_edge] at h
  rcases hrun : SG.remove_edge_unregistered g a b with ⟨c, g2⟩ | ⟨⟨c, g2⟩, m2⟩ | _ <;>
    rw [hrun] at h
  · simp only [Res.ok.injEq] at h
    subst h
    exact sg_inv_remove_edge_unregistered g a b c g2 hInv hrun
  · cases h
  · cases h

theorem sg_cnd_fst_len (l : List (SG.Edge TE)) (k : Id) :
    (SG.check_node_degrees l k).1 = (l.filter (fun e => e.endId == k)).length := by
  rw [sg_check_node_degrees_spec]

theorem sg_cnd_snd_len (l : List (SG.Edge TE)) (k : Id) :
    (SG.check_node_degrees l k).2 = (l.filter (fun e => e.startId == k)).length := by
  rw [sg_check_node_degrees_spec]

theorem sg_inv_remove_node (g : SG.StateGraph TN TE) (id : Id)
    (g' : SG.StateGraph TN TE) (hInv : SG.Invariant g)
    (h : SG.remove_node g id = .ok g') : SG.Invariant g' := by
  rcases hni : SG.node_index id g.nodes with _ | i
  case none =>
    simp only [SG.remove_node, SG.check_remove_node, hni,
               SG.GraphChange.try_get_node] at h
    cases h
  case some =>
  obtain ⟨nd, hgi, hid⟩ := SG.node_index_spec id g.nodes i hni
  simp only [SG.remove_node, SG.check_remove_node, hni, hgi,
             SG.GraphChange.try_get_node, SG.GraphChange.try_get_edge_vec] at h
  set q : SG.Edge TE → Bool := fun e => e.startId == id || e.endId == id with hqd
  have hq : ∀ (e e' : SG.Edge TE), SG.edgePair e = SG.edgePair e' → q e = q e' := by
    intro e e' hp
    simp only [SG.edgePair, Prod.mk.injEq] at hp
    simp only [hqd]
    rw [hp.1, hp.2]
  have hloop := sg_remove_edges_loop_spec q hq g.edges
    (SG.register_change g (.RemoveNode nd (g.edges.filter q))) rfl
  rcases hrun : SG.remove_edges_loop (g.edges.filter q)
      (SG.register_change g (.RemoveNode nd (g.edges.filter q)))
      with g2 | ⟨g2, m2⟩ | _
  · obtain ⟨hE2, hN2, _, _, hK2, hD2⟩ := hloop.2 g2 hrun
    simp only [SG.register_change] at hN2 hK2 hD2
    simp only [hrun, Res.ok.injEq] at h
    subst h
    simp only [SG.Invariant, SG.nodeIds] at hInv ⊢
    obtain ⟨h1, h2, h3, h4, h5⟩ := hInv
    have hgetid : (g.nodes.map SG.Node.id)[i]? = some id := by
      rw [List.getElem?_map, hgi]
      simp [hid]
    refine ⟨?_, ?_, ?_, ?_, ?_⟩
    · rw [hN2, map_eraseIdx']
      exact (List.eraseIdx_sublist _ i).nodup h1
    · intro e he
      rw [hE2, List.mem_filter] at he
      obtain ⟨hmem, hnq⟩ := he
      have hne : e.startId ≠ id ∧ e.endId ≠ id := by
        simp only [hqd] at hnq
        simpa [not_or] using hnq
      obtain ⟨hs, ht⟩ := h2 e hmem
      rw [hN2, map_eraseIdx']
      exact ⟨mem_eraseIdx_of_ne _ i hs hgetid hne.1,
             mem_eraseIdx_of_ne _ i ht hgetid hne.2⟩
    · rw [hE2]
      exact ((List.filter_sublist _).map SG.edgePair).nodup h3
    · rw [hN2, map_eraseIdx', mdel_keys, hK2, hid]
      exact (h4.filter _).trans
        (eraseIdx_perm_filter (g.nodes.map SG.Node.id) i h1 hgetid).symm
    · intro p hp
      simp only [mdel, List.mem_filter] at hp
      obtain ⟨hpm, _⟩ := hp
      have hdnd : (g.deg_map.map Prod.fst).Nodup := h4.nodup_iff.mpr h1
      have hk2nd : (g2.deg_map.map Prod.fst).Nodup := by rw [hK2]; exact hdnd
      have hget := (mem_iff_mget _ p hk2nd).mp hpm
      rw [hD2 p.1] at hget
      rcases hv : mget p.1 g.deg_map with _ | d
      · rw [hv] at hget; cases hget
      · rw [hv] at hget
        simp only [Option.map_some', Option.some.injEq] at hget
        have hd : d = SG.check_node_degrees g.edges p.1 :=
          h5 (p.1, d) ((mem_iff_mget g.deg_map (p.1, d) hdnd).mpr hv)
        have hsplit := sg_cnd_filter_split g.edges q p.1
        have hA := sg_cnd_fst_len (g.edges.filter q) p.1
        have hB := sg_cnd_snd_len (g.edges.filter q) p.1
        have hd1 := congrArg Prod.fst hsplit
        have hd2 := congrArg Prod.snd hsplit
        simp only [] at hd1 hd2
        rw [← hd] at hd1 hd2
        rw [← hget, hE2, Prod.ext_iff]
        constructor <;> simp only [] <;> omega
  · exact absurd hrun (hloop.1 g2 m2)
  · simp [hrun] at h

theorem sg_cnd_append_two (l : List (SG.Edge TE)) (e1 e2 : SG.Edge TE) (k : Id) :
    SG.check_node_degrees (l ++ [e1, e2]) k =
      ((SG.check_node_degrees l k).1 + (if e1.endId = k then 1 else 0) +
         (if e2.endId = k then 1 else 0),
       (SG.check_node_degrees l k).2 + (if e1.startId = k then 1 else 0) +
         (if e2.startId = k then 1 else 0)) := by
  have hsplit : l ++ [e1, e2] = (l ++ [e1]) ++ [e2] := by simp
  rw [hsplit, sg_cnd_append_one, sg_cnd_append_one]

theorem sg_inv_insert_node_along (g : SG.StateGraph TN TE) (newId a b : Id)
    (g' : SG.StateGraph TN TE) (hInv : SG.Invariant g)
    (h : SG.insert_node_along g newId a b = .ok g') : SG.Invariant g' := by
  rcases hni : SG.node_index newId g.nodes with _ | i0
  case some =>
    simp only [SG.insert_node_along, SG.check_add_node, sg_bare_node_id, hni,
               SG.GraphChange.try_get_node] at h
    cases h
  case none =>
  rcases hei : SG.edge_index a b g.edges with _ | j
  case none =>
    simp only [SG.insert_node_along, SG.check_add_node, sg_bare_node_id, hni,
               SG.check_remove_edge, hei, SG.GraphChange.try_get_node,
               SG.GraphChange.try_get_edge] at h
    cases h
  case some =>
  obtain ⟨oe, hgj, hoa, hob⟩ := SG.edge_index_spec a b g.edges j hei
  simp only [SG.insert_node_along, SG.check_add_node, sg_bare_node_id, hni,
             SG.check_remove_edge, hei, hgj, SG.GraphChange.try_get_node,
             SG.GraphChange.try_get_edge, SG.register_change, Res.ok.injEq] at h
  subst h
  simp only [SG.Invariant, SG.nodeIds] at hInv ⊢
  obtain ⟨h1, h2, h3, h4, h5⟩ := hInv
  have hfresh : newId ∉ g.nodes.map SG.Node.id := by
    simpa using (SG.node_index_eq_none_iff newId g.nodes).mp hni
  have hoe : oe ∈ g.edges := by
    obtain ⟨hlt, hgt⟩ := List.getElem?_eq_some.mp hgj
    exact hgt ▸ List.getElem_mem hlt
  obtain ⟨hao, hbo⟩ := h2 oe hoe
  have haN : a ∈ g.nodes.map SG.Node.id := hoa ▸ hao
  have hbN : b ∈ g.nodes.map SG.Node.id := hob ▸ hbo
  have haneq : a ≠ newId := fun hx => hfresh (hx ▸ haN)
  have hbneq : b ≠ newId := fun hx => hfresh (hx ▸ hbN)
  have hdegnone : mget newId g.deg_map = none := by
    rw [mget_eq_none_iff]
    intro hk
    exact hfresh (h4.mem_iff.mp hk)
  refine ⟨?_, ?_, ?_, ?_, ?_⟩
  · simp only [List.map_append, List.map_cons, List.map_nil, sg_bare_node_id]
    rw [List.nodup_append]
    refine ⟨h1, List.nodup_singleton _, ?_⟩
    intro x hx hx1
    simp only [List.mem_singleton] at hx1
    exact hfresh (hx1 ▸ hx)
  · intro e he
    simp only [List.map_append, List.map_cons, List.map_nil, sg_bare_node_id,
               List.mem_append, List.mem_singleton]
    rcases List.mem_append.mp he with hin | hnew
    · obtain ⟨hs, ht⟩ := h2 e ((List.eraseIdx_sublist g.edges j).subset hin)
      exact ⟨Or.inl hs, Or.inl ht⟩
    · simp only [List.mem_cons, List.mem_singleton, List.not_mem_nil, or_false] at hnew
      rcases hnew with he1 | he2
      · subst he1
        exact ⟨Or.inl haN, Or.inr rfl⟩
      · subst he2
        exact ⟨Or.inr rfl, Or.inl hbN⟩
  · simp only [List.map_append, List.map_cons, List.map_nil]
    rw [List.nodup_append]
    refine ⟨?_, ?_, ?_⟩
    · rw [map_eraseIdx']
      exact (List.eraseIdx_sublist _ j).nodup h3
    · refine List.nodup_cons.mpr ⟨?_, List.nodup_singleton _⟩
      simp only [List.mem_singleton]
      intro hcontra
      simp only [SG.edgePair, sg_bare_startId, sg_bare_endId] at hcontra
      exact haneq (Prod.ext_iff.mp hcontra).1
    · intro x hx hx2
      rw [map_eraseIdx'] at hx
      have hxg := (List.eraseIdx_sublist _ j).subset hx
      obtain ⟨e0, he0, hxe⟩ := List.mem_map.mp hxg
      obtain ⟨hs0, ht0⟩ := h2 e0 he0
      rcases List.mem_cons.mp hx2 with hc1 | hc2
      · have hend : e0.endId = newId := by
          have := congrArg Prod.snd (hxe.trans hc1)
          simpa [SG.edgePair] using this
        exact hfresh (hend ▸ ht0)
      · simp only [List.mem_singleton] at hc2
        have hstart : e0.startId = newId := by
          have := congrArg Prod.fst (hxe.trans hc2)
          simpa [SG.edgePair, sg_bare_startId] using this
        exact hfresh (hstart ▸ hs0)
  · simp only [List.map_append, List.map_cons, List.map_nil, sg_bare_node_id]
    rw [mput_keys_absent newId (1, 1) g.deg_map hdegnone]
    exact h4.append (List.Perm.refl _)
  · intro p hp
    rcases (mput_mem_absent newId (1, 1) g.deg_map p hdegnone).mp hp with hnew | hold
    · subst hnew
      simp only []
      have hl' : ∀ e ∈ g.edges.eraseIdx j, e.startId ≠ newId ∧ e.endId ≠ newId := by
        intro e he
        obtain ⟨hs0, ht0⟩ := h2 e ((List.eraseIdx_sublist g.edges j).subset he)
        exact ⟨fun hxx => hfresh (hxx ▸ hs0), fun hxx => hfresh (hxx ▸ ht0)⟩
      have hz := sg_cnd_zero (g.edges.eraseIdx j) newId hl'
      rw [sg_cnd_append_two, hz]
      simp [haneq, hbneq, SG.Edge.bare]
    · have hkeyN : p.1 ∈ g.nodes.map SG.Node.id :=
        h4.mem_iff.mp (List.mem_map_of_mem Prod.fst hold)
      have hpneq : p.1 ≠ newId := fun hx => hfresh (hx ▸ hkeyN)
      have hcold : p.2 = SG.check_node_degrees g.edges p.1 := h5 p hold
      have hcnt := sg_cnd_eraseIdx g.edges j oe p.1 hgj
      rw [hcold, sg_cnd_append_two, hcnt]
      by_cases h1e : oe.endId = p.1 <;> by_cases h2e : oe.startId = p.1 <;>
        simp [h1e, h2e, ← hoa, ← hob, Ne.symm hpneq, SG.Edge.bare, Prod.ext_iff] <;>
        omega

theorem sg_inv_insert_edge_with_nodes (g : SG.StateGraph TN TE) (a b : Id)
    (g' : SG.StateGraph TN TE) (hInv : SG.Invariant g)
    (h : SG.insert_edge_with_nodes g a b = .ok g') : SG.Invariant g' := by
  rcases hei : SG.edge_index a b g.edges with _ | j
  case some =>
    simp only [SG.insert_edge_with_nodes, SG.check_add_edge_with_nodes, hei,
               SG.GraphChange.try_get_edge_with_nodes] at h
    cases h
  case none =>
  rcases hna : SG.node_index a g.nodes with _ | ia <;>
    rcases hnb : SG.node_index b g.nodes with _ | ib <;>
    simp only [SG.insert_edge_with_nodes, SG.check_add_edge_with_nodes, hei,
               hna, hnb, SG.GraphChange.try_get_edge_with_nodes] at h
  · rcases hr1 : SG.insert_node g (SG.Node.bare a) with g1 | ⟨g1, m1⟩ | _ <;>
      simp only [hr1] at h
    case err => cases h
    case panic => cases h
    rcases hr2 : SG.insert_node g1 (SG.Node.bare b) with g2 | ⟨g2, m2⟩ | _ <;>
      simp only [hr2] at h
    case err => cases h
    case panic => cases h
    rcases hr3 : SG.insert_edge g2 (SG.Edge.bare a b) with g3 | ⟨g3, m3⟩ | _ <;>
      simp only [hr3, Res.ok.injEq] at h
    case err => cases h
    case panic => cases h
    subst h
    exact sg_inv_insert_edge g2 _ g3
      (sg_inv_insert_node g1 _ g2 (sg_inv_insert_node g _ g1 hInv hr1) hr2) hr3
  · rcases hr1 : SG.insert_node g (SG.Node.bare a) with g1 | ⟨g1, m1⟩ | _ <;>
      simp only [hr1] at h
    case err => cases h
    case panic => cases h
    rcases hr3 : SG.insert_edge g1 (SG.Edge.bare a b) with g3 | ⟨g3, m3⟩ | _ <;>
      simp only [hr3, Res.ok.injEq] at h
    case err => cases h
    case panic => cases h
    subst h
    exact sg_inv_insert_edge g1 _ g3 (sg_inv_insert_node g _ g1 hInv hr1) hr3
  · rcases hr2 : SG.insert_node g (SG.Node.bare b) with g2 | ⟨g2, m2⟩ | _ <;>
      simp only [hr2] at h
    case err => cases h
    case panic => cases h
    rcases hr3 : SG.insert_edge g2 (SG.Edge.bare a b) with g3 | ⟨g3, m3⟩ | _ <;>
      simp only [hr3, Res.ok.injEq] at h
    case err => cases h
    case panic => cases h
    subst h
    exact sg_inv_insert_edge g2 _ g3 (sg_inv_insert_node g _ g2 hInv hr2) hr3
  · rcases hr3 : SG.insert_edge g (SG.Edge.bare a b) with g3 | ⟨g3, m3⟩ | _ <;>
      simp only [hr3, Res.ok.injEq] at h
    case err => cases h
    case panic => cases h
    subst h
    exact sg_inv_insert_edge g _ g3 hInv hr3

end C4Preservation2

section C4Main

/-- C4: every flat-design state reachable from the empty graph by a sequence
of successful public operations satisfies the structural invariants — node
ids are unique, every edge's start and end ids are ids of present nodes (no
dangling edges), no two edges share the same `(start, end)` pair, and the
degree map has exactly one entry per node whose value equals the actual
`(in, out)` incident-edge counts. -/
theorem C4_reachable_invariant {TN TE : Type} (g : SG.StateGraph TN TE)
    (h : SG.Reachable g) : SG.Invariant g := by
  induction h with
  | base =>
    simp [SG.Invariant, SG.StateGraph.default, SG.nodeIds]
  | insert_node hr hok ih => exact sg_inv_insert_node _ _ _ ih hok
  | insert_edge hr hok ih => exact sg_inv_insert_edge _ _ _ ih hok
  | remove_node hr hok ih => exact sg_inv_remove_node _ _ _ ih hok
  | remove_edge hr hok ih => exact sg_inv_remove_edge _ _ _ _ ih hok
  | insert_edge_with_nodes hr hok ih =>
    exact sg_inv_insert_edge_with_nodes _ _ _ _ ih hok
  | insert_node_along hr hok ih =>
    exact sg_inv_insert_node_along _ _ _ _ _ ih hok

/-- Witness for C4: the singleton graph produced by one successful
`insert_node` on the empty graph is reachable, and the theorem yields its
invariants. -/
theorem C4_reachable_invariant_witness :
    SG.Reachable (⟨none, [⟨1, none⟩], [], [(1, (0, 0))],
      ⟨[.AddNode ⟨1, none⟩], 100⟩⟩ : SG.StateGraph Unit Unit) ∧
    SG.Invariant (⟨none, [⟨1, none⟩], [], [(1, (0, 0))],
      ⟨[.AddNode ⟨1, none⟩], 100⟩⟩ : SG.StateGraph Unit Unit) :=
  have hreach : SG.Reachable (⟨none, [⟨1, none⟩], [], [(1, (0, 0))],
      ⟨[.AddNode ⟨1, none⟩], 100⟩⟩ : SG.StateGraph Unit Unit) :=
    @SG.Reachable.insert_node Unit Unit (SG.StateGraph.default Unit Unit) _
      (SG.Node.bare 1) SG.Reachable.base (by decide)
  ⟨hreach, C4_reachable_invariant _ hreach⟩

end C4Main

section C5Helpers

theorem dg_idRange_length (k n : Nat) : (DG.idRange k n).length = n := by
  induction n generalizing k with
  | zero => rfl
  | succ m ih => simp [DG.idRange, ih]

theorem dg_idRange_snoc (k n : Nat) :
    DG.idRange k (n + 1) = DG.idRange k n ++ [k + n] := by
  induction n generalizing k with
  | zero => simp [DG.idRange]
  | succ m ih =>
    have h1 : DG.idRange k (m + 2) = k :: DG.idRange (k + 1) (m + 1) := rfl
    have h2 : DG.idRange k (m + 1) = k :: DG.idRange (k + 1) m := rfl
    rw [h1, h2, ih (k + 1), List.cons_append]
    have h3 : k + 1 + m = k + (m + 1) := by omega
    rw [h3]

theorem dg_idRange_mem (k n q : Nat) (h : q ∈ DG.idRange k n) :
    k ≤ q ∧ q < k + n := by
  induction n generalizing k with
  | zero => cases h
  | succ m ih =>
    rcases List.mem_cons.mp h with h1 | h2
    · omega
    · have := ih (k + 1) h2
      omega

theorem dg_idRange_mem_of (k n q : Nat) (h1 : k ≤ q) (h2 : q < k + n) :
    q ∈ DG.idRange k n := by
  induction n generalizing k with
  | zero => omega
  | succ m ih =>
    by_cases hq : k = q
    · exact hq ▸ List.mem_cons_self k (DG.idRange (k + 1) m)
    · exact List.mem_cons_of_mem k (ih (k + 1) (by omega) (by omega))

theorem mget_map_pair_none {α : Type} (f : Nat → α) (l : List Nat) (q : Nat)
    (h : q ∉ l) : mget q (l.map (fun j => (j, f j))) = none := by
  induction l with
  | nil => rfl
  | cons a t ih =>
    simp only [List.map_cons, mget]
    have ha : ¬(a = q) := fun hx => h (by simp [hx])
    rw [if_neg ha]
    exact ih (fun hx => h (List.mem_cons_of_mem a hx))

theorem mget_map_pair_some {α : Type} (f : Nat → α) (l : List Nat) (q : Nat)
    (h : q ∈ l) : mget q (l.map (fun j => (j, f j))) = some (f q) := by
  induction l with
  | nil => cases h
  | cons a t ih =>
    simp only [List.map_cons, mget]
    by_cases ha : a = q
    · subst ha
      simp
    · rw [if_neg ha]
      refine ih ?_
      rcases List.mem_cons.mp h with h1 | h1
      · exact absurd h1.symm ha
      · exact h1

theorem mput_absent {α : Type} (k : Id) (v : α) (m : List (Id × α))
    (h : mget k m = none) : mput k v m = m ++ [(k, v)] := by
  induction m with
  | nil => rfl
  | cons p t ih =>
    simp only [mget] at h
    by_cases hk : p.1 = k
    · rw [if_pos hk] at h
      cases h
    · rw [if_neg hk] at h
      simp only [mput, if_neg hk, List.cons_append]
      rw [ih h]

theorem dg_pushAll_append {TN TE : Type} (l1 l2 : List (DG.GraphChange TN TE)) :
    ∀ (H : DG.HistoryDeque TN TE),
      DG.pushAll H (l1 ++ l2) = DG.pushAll (DG.pushAll H l1) l2 := by
  induction l1 with
  | nil => intro H; rfl
  | cons x t ih =>
    intro H
    simp only [List.cons_append, DG.pushAll]
    exact ih _

theorem dg_pushAll_le {TN TE : Type} (cap : Nat) :
    ∀ (cs es : List (DG.GraphChange TN TE)), es.length + cs.length ≤ cap →
      DG.pushAll ⟨es, cap⟩ cs = ⟨es ++ cs, cap⟩ := by
  intro cs
  induction cs with
  | nil =>
    intro es h
    simp [DG.pushAll]
  | cons x rest ih =>
    intro es h
    simp only [DG.pushAll, DG.HistoryDeque.push_back]
    split
    · rename_i hcond
      exfalso
      simp only [List.length_append, List.length_cons, List.length_nil] at hcond h
      omega
    · have hres := ih (es ++ [x])
        (by simp only [List.length_append, List.length_cons, List.length_nil] at h ⊢; omega)
      show DG.pushAll ⟨es ++ [x], cap⟩ rest = ⟨es ++ x :: rest, cap⟩
      rw [hres]
      simp

theorem dg_insert_step (k : Nat) (H : DG.HistoryDeque Unit Unit) :
    DG.insert_node ⟨none, DG.nodesOf (DG.idRange 0 k), [],
        DG.adjOf (DG.idRange 0 k), DG.adjOf (DG.idRange 0 k), H⟩
      (DG.Node.bare k) =
    .ok ⟨none, DG.nodesOf (DG.idRange 0 (k + 1)), [],
        DG.adjOf (DG.idRange 0 (k + 1)), DG.adjOf (DG.idRange 0 (k + 1)),
        (H.push_back (.AddNode (DG.Node.bare k))).1⟩ := by
  have hmem : k ∉ DG.idRange 0 k := fun hx => by
    have := dg_idRange_mem 0 k k hx
    omega
  have hnone : mget k (DG.nodesOf (DG.idRange 0 k)) = none := by
    simp only [DG.nodesOf]
    exact mget_map_pair_none _ _ _ hmem
  have hanone : mget k (DG.adjOf (DG.idRange 0 k)) = none := by
    simp only [DG.adjOf]
    exact mget_map_pair_none _ _ _ hmem
  have hn1 : mput k (DG.Node.bare k : DG.Node Unit) (DG.nodesOf (DG.idRange 0 k)) =
      DG.nodesOf (DG.idRange 0 (k + 1)) := by
    rw [mput_absent _ _ _ hnone, dg_idRange_snoc, Nat.zero_add]
    simp [DG.nodesOf]
  have ha1 : mput k ([] : List Id) (DG.adjOf (DG.idRange 0 k)) =
      DG.adjOf (DG.idRange 0 (k + 1)) := by
    rw [mput_absent _ _ _ hanone, dg_idRange_snoc, Nat.zero_add]
    simp [DG.adjOf]
  simp only [DG.insert_node, DG.check_add_node, DG.node_id_present, dg_bare_node_id,
             hnone, Option.isSome_none, Bool.false_eq_true, if_false,
             DG.GraphChange.try_get_node, DG.register_change,
             DG.insert_node_unregistered]
  rw [hn1, ha1]

theorem dg_insert_chain (n : Nat) : ∀ (k : Nat) (H : DG.HistoryDeque Unit Unit),
    DG.insert_nodes_chain (DG.idRange k n)
      ⟨none, DG.nodesOf (DG.idRange 0 k), [], DG.adjOf (DG.idRange 0 k),
       DG.adjOf (DG.idRange 0 k), H⟩ =
    .ok ⟨none, DG.nodesOf (DG.idRange 0 (k + n)), [], DG.adjOf (DG.idRange 0 (k + n)),
       DG.adjOf (DG.idRange 0 (k + n)),
       DG.pushAll H ((DG.idRange k n).map
         (fun j => (DG.GraphChange.AddNode (DG.Node.bare j) : DG.GraphChange Unit Unit)))⟩ := by
  induction n with
  | zero =>
    intro k H
    simp [DG.idRange, DG.insert_nodes_chain, DG.pushAll]
  | succ m ih =>
    intro k H
    have hcons : DG.idRange k (m + 1) = k :: DG.idRange (k + 1) m := rfl
    rw [hcons]
    simp only [DG.insert_nodes_chain, dg_insert_step, List.map_cons, DG.pushAll]
    have harith : k + 1 + m = k + (m + 1) := by omega
    rw [← harith]
    exact ih (k + 1) (H.push_back (.AddNode (DG.Node.bare k))).1

theorem mdel_map_pair_absent {α : Type} (f : Nat → α) (l : List Nat) (q : Nat)
    (h : q ∉ l) : mdel q (l.map (fun j => (j, f j))) = l.map (fun j => (j, f j)) := by
  simp only [mdel]
  apply List.filter_eq_self.mpr
  intro p hp
  obtain ⟨x, hx, hpx⟩ := List.mem_map.mp hp
  simp only [← hpx, bne_iff_ne, ne_eq]
  intro hxq
  exact h (hxq ▸ hx)

theorem dg_undo_step (j m : Nat) (hj : j < m) (es : List (DG.GraphChange Unit Unit))
    (c : Nat) :
    DG.undo ⟨none, DG.nodesOf (DG.idRange 0 (j + 1)), [], DG.adjOf (DG.idRange 0 m),
        DG.adjOf (DG.idRange 0 m), ⟨es ++ [.AddNode (DG.Node.bare j)], c⟩⟩ =
    .ok ⟨none, DG.nodesOf (DG.idRange 0 j), [], DG.adjOf (DG.idRange 0 m),
        DG.adjOf (DG.idRange 0 m), ⟨es, c⟩⟩ := by
  have hjm : j ∈ DG.idRange 0 m := dg_idRange_mem_of 0 m j (by omega) (by omega)
  have hjn : j ∈ DG.idRange 0 (j + 1) :=
    dg_idRange_mem_of 0 (j + 1) j (by omega) (by omega)
  have hbef : mget j (DG.adjOf (DG.idRange 0 m)) = some [] := by
    simp only [DG.adjOf]
    exact mget_map_pair_some _ _ _ hjm
  have hnod : mget j (DG.nodesOf (DG.idRange 0 (j + 1))) = some (DG.Node.bare j) := by
    simp only [DG.nodesOf]
    exact mget_map_pair_some _ _ _ hjn
  have hmem : j ∉ DG.idRange 0 j := fun hx => by
    have := dg_idRange_mem 0 j j hx
    omega
  have hdel : mdel j (DG.nodesOf (DG.idRange 0 (j + 1))) =
      DG.nodesOf (DG.idRange 0 j) := by
    rw [dg_idRange_snoc, Nat.zero_add]
    simp only [DG.nodesOf, List.map_append, List.map_cons, List.map_nil, mdel,
               List.filter_append]
    have h1 := mdel_map_pair_absent (fun x => (DG.Node.bare x : DG.Node Unit))
      (DG.idRange 0 j) j hmem
    simp only [mdel] at h1
    rw [h1]
    simp
  simp [DG.undo, DG.undoArm, DG.pop_change, DG.HistoryDeque.pop_back,
        DG.remove_node_unregistered, dg_bare_node_id, hbef, hnod, hdel,
        DG.remove_pairs_loop]

theorem dg_undo_chain (c : Nat) : ∀ j, j ≤ c + 1 →
    DG.undoTimes j ⟨none, DG.nodesOf (DG.idRange 0 (j + 1)), [],
        DG.adjOf (DG.idRange 0 (c + 2)), DG.adjOf (DG.idRange 0 (c + 2)),
        ⟨(DG.idRange 1 j).map
          (fun i => (DG.GraphChange.AddNode (DG.Node.bare i) : DG.GraphChange Unit Unit)),
         c + 1⟩⟩ =
    .ok ⟨none, DG.nodesOf (DG.idRange 0 1), [], DG.adjOf (DG.idRange 0 (c + 2)),
        DG.adjOf (DG.idRange 0 (c + 2)), ⟨[], c + 1⟩⟩ := by
  intro j
  induction j with
  | zero =>
    intro _
    simp [DG.undoTimes, DG.idRange]
  | succ i ih =>
    intro hj
    have hsnoc := dg_idRange_snoc 1 i
    have h1i : 1 + i = i + 1 := by omega
    have hent : (DG.idRange 1 (i + 1)).map
        (fun x => (DG.GraphChange.AddNode (DG.Node.bare x) : DG.GraphChange Unit Unit)) =
        (DG.idRange 1 i).map
          (fun x => (DG.GraphChange.AddNode (DG.Node.bare x) : DG.GraphChange Unit Unit)) ++
        [.AddNode (DG.Node.bare (i + 1))] := by
      rw [hsnoc, h1i, List.map_append, List.map_cons, List.map_nil]
    have hstep := dg_undo_step (i + 1) (c + 2) (by omega)
      ((DG.idRange 1 i).map
        (fun x => (DG.GraphChange.AddNode (DG.Node.bare x) : DG.GraphChange Unit Unit)))
      (c + 1)
    simp only [DG.undoTimes, hent, hstep]
    exact ih (by omega)

theorem dg_push_back_evict {TN TE : Type} (es : List (DG.GraphChange TN TE))
    (cap : Nat) (x : DG.GraphChange TN TE) (h : cap < es.length + 1) :
    (⟨es, cap⟩ : DG.HistoryDeque TN TE).push_back x =
      (⟨(es ++ [x]).tail, cap⟩, (es ++ [x]).head?) := by
  simp only [DG.HistoryDeque.push_back]
  rw [if_pos (by simpa using h)]

theorem dg_hist_full (c : Nat) :
    DG.pushAll (⟨[], c + 1⟩ : DG.HistoryDeque Unit Unit)
      ((DG.idRange 0 (c + 2)).map
        (fun j => (DG.GraphChange.AddNode (DG.Node.bare j) : DG.GraphChange Unit Unit))) =
    ⟨(DG.idRange 1 (c + 1)).map
        (fun j => (DG.GraphChange.AddNode (DG.Node.bare j) : DG.GraphChange Unit Unit)),
     c + 1⟩ := by
  have hsp : DG.idRange 0 (c + 2) = DG.idRange 0 (c + 1) ++ [c + 1] := by
    have := dg_idRange_snoc 0 (c + 1)
    rwa [Nat.zero_add] at this
  have hlen : ((DG.idRange 0 (c + 1)).map
      (fun j => (DG.GraphChange.AddNode (DG.Node.bare j) : DG.GraphChange Unit Unit))).length
      = c + 1 := by
    rw [List.length_map, dg_idRange_length]
  have hfull := dg_pushAll_le (c + 1)
    ((DG.idRange 0 (c + 1)).map
      (fun j => (DG.GraphChange.AddNode (DG.Node.bare j) : DG.GraphChange Unit Unit)))
    [] (by simp [hlen])
  rw [List.nil_append] at hfull
  rw [hsp, List.map_append, dg_pushAll_append, hfull]
  simp only [List.map_cons, List.map_nil]
  show ((⟨(DG.idRange 0 (c + 1)).map
      (fun j => (DG.GraphChange.AddNode (DG.Node.bare j) : DG.GraphChange Unit Unit)),
      c + 1⟩ : DG.HistoryDeque Unit Unit).push_back
      (.AddNode (DG.Node.bare (c + 1)))).1 = _
  rw [dg_push_back_evict _ _ _ (by rw [hlen]; omega)]
  have hcons : DG.idRange 0 (c + 1) = 0 :: DG.idRange 1 c := rfl
  rw [hcons, List.map_cons, List.cons_append, List.tail_cons]
  have hsnoc := dg_idRange_snoc 1 c
  have h1c : 1 + c = c + 1 := by omega
  rw [hsnoc, h1c, List.map_append, List.map_cons, List.map_nil]

end C5Helpers

section C5

/-- C5: the history deque's capacity is fixed at construction (100 for the
default graph) and is never changed by `push_back`/`pop_back`; `push_back`
on a full deque silently evicts and returns the front (oldest) entry while a
non-full `push_back` evicts nothing; `pop_back` removes and returns the most
recently appended entry; and for every capacity `c + 1`, performing `c + 2`
successful `insert_node` mutations (ids `0 .. c + 1`) on an empty graph of
that capacity and then calling `undo` `c + 1` times leaves exactly the
earliest mutation (node 0) still applied, and a further `undo` is a
success-returning no-op that cannot reverse it. -/
theorem C5_history_capacity (c : Nat) :
    (DG.DiGraph.default Unit Unit).undo_history.cap = 100 ∧
    (∀ (TN TE : Type) (h : DG.HistoryDeque TN TE) (x : DG.GraphChange TN TE),
      ((h.push_back x).1.cap = h.cap ∧ h.pop_back.2.cap = h.cap) ∧
      (h.entries.length = h.cap → ∀ e0 rest, h.entries = e0 :: rest →
        (h.push_back x).1.entries = rest ++ [x] ∧ (h.push_back x).2 = some e0) ∧
      (h.entries.length < h.cap →
        (h.push_back x).1.entries = h.entries ++ [x] ∧ (h.push_back x).2 = none)) ∧
    (∀ (TN TE : Type) (h : DG.HistoryDeque TN TE),
      h.pop_back.1 = h.entries.getLast? ∧
      h.pop_back.2.entries = h.entries.dropLast) ∧
    (DG.insert_nodes_chain (DG.idRange 0 (c + 2)) (DG.DiGraph.withCap Unit Unit (c + 1)) =
        .ok (DG.dgC5Full c) ∧
      DG.undoTimes (c + 1) (DG.dgC5Full c) = .ok (DG.dgC5Fin c) ∧
      (DG.dgC5Fin c).nodes = [(0, DG.Node.bare 0)] ∧
      DG.undo (DG.dgC5Fin c) = .ok (DG.dgC5Fin c)) := by
  refine ⟨rfl, ?_, ?_, ?_, ?_, rfl, ?_⟩
  · intro TN TE h x
    refine ⟨⟨?_, rfl⟩, ?_, ?_⟩
    · simp only [DG.HistoryDeque.push_back]
      split <;> rfl
    · intro hfull e0 rest hent
      have hcond : h.cap < (h.entries ++ [x]).length := by
        simp [← hfull]
      constructor
      · simp only [DG.HistoryDeque.push_back]
        rw [if_pos hcond]
        rw [hent]
        simp
      · simp only [DG.HistoryDeque.push_back]
        rw [if_pos hcond]
        rw [hent]
        simp
    · intro hlt
      have hcond : ¬ h.cap < (h.entries ++ [x]).length := by
        simp only [List.length_append, List.length_cons, List.length_nil]
        omega
      constructor
      · simp only [DG.HistoryDeque.push_back]
        rw [if_neg hcond]
      · simp only [DG.HistoryDeque.push_back]
        rw [if_neg hcond]
  · intro TN TE h
    exact ⟨rfl, rfl⟩
  · have hch := dg_insert_chain (c + 2) 0 ⟨[], c + 1⟩
    rw [Nat.zero_add, dg_hist_full] at hch
    exact hch
  · exact dg_undo_chain c (c + 1) (by omega)
  · rfl

/-- Witness for C5 at capacity 2 (`c = 1`): three inserted nodes, two undos,
node 0 remains; and a full one-slot deque evicts its only entry. -/
theorem C5_history_capacity_witness :
    DG.insert_nodes_chain (DG.idRange 0 3) (DG.DiGraph.withCap Unit Unit 2) =
      .ok (DG.dgC5Full 1) ∧
    DG.undoTimes 2 (DG.dgC5Full 1) = .ok (DG.dgC5Fin 1) ∧
    (DG.dgC5Fin 1).nodes = [(0, DG.Node.bare 0)] ∧
    DG.undo (DG.dgC5Fin 1) = .ok (DG.dgC5Fin 1) ∧
    ((⟨[.AddNode (DG.Node.bare 7)], 1⟩ : DG.HistoryDeque Unit Unit).push_back
        (.AddNode (DG.Node.bare 8))).1.entries = [.AddNode (DG.Node.bare 8)] := by
  have h := C5_history_capacity 1
  refine ⟨h.2.2.2.1, h.2.2.2.2.1, h.2.2.2.2.2.1, h.2.2.2.2.2.2, ?_⟩
  have hev := ((h.2.1 Unit Unit ⟨[.AddNode (DG.Node.bare 7)], 1⟩
      (.AddNode (DG.Node.bare 8))).2.1 (by decide) (.AddNode (DG.Node.bare 7)) [] rfl).1
  simpa using hev

end C5

section C6Helpers

theorem mem_of_getLast? {α : Type} {l : List α} {a : α}
    (h : l.getLast? = some a) : a ∈ l := by
  induction l with
  | nil => cases h
  | cons x t ih =>
    cases t with
    | nil =>
      simp only [List.getLast?_singleton, Option.some.injEq] at h
      simp [h]
    | cons y u =>
      rw [List.getLast?_cons_cons] at h
      exact List.mem_cons_of_mem _ (ih h)

theorem dg_push_back_mem {TN TE : Type} (h : DG.HistoryDeque TN TE)
    (x y : DG.GraphChange TN TE)
    (hy : y ∈ (h.push_back x).1.entries) : y ∈ h.entries ∨ y = x := by
  simp only [DG.HistoryDeque.push_back] at hy
  split at hy
  · have hmem : y ∈ h.entries ++ [x] := List.mem_of_mem_tail hy
    simpa using hmem
  · simpa using hy

theorem dg_ieu_uh {TN TE : Type} (g : DG.DiGraph TN TE) (e : DG.Edge TE)
    (g' : DG.DiGraph TN TE) (h : DG.insert_edge_unregistered g e = some g') :
    g'.undo_history = g.undo_history := by
  simp only [DG.insert_edge_unregistered] at h
  split at h
  · cases h
    rfl
  · cases h

theorem dg_reu_uh {TN TE : Type} (g : DG.DiGraph TN TE) (i : Nat)
    (g' : DG.DiGraph TN TE) (h : DG.remove_edge_unregistered g i = some g') :
    g'.undo_history = g.undo_history := by
  simp only [DG.remove_edge_unregistered] at h
  split at h
  · cases h
  · split at h
    · cases h
      rfl
    · cases h

theorem dg_rpl_uh {TN TE : Type} :
    ∀ (l : List (Id × Id)) (g g' : DG.DiGraph TN TE),
      DG.remove_pairs_loop l g = some g' → g'.undo_history = g.undo_history := by
  intro l
  induction l with
  | nil =>
    intro g g' h
    cases h
    rfl
  | cons p rest ih =>
    intro g g' h
    obtain ⟨s, t⟩ := p
    simp only [DG.remove_pairs_loop] at h
    rcases hei : DG.edge_index s t g.edges with _ | idx <;> simp only [hei] at h
    · cases h
    · rcases hreu : DG.remove_edge_unregistered g idx with _ | g2 <;>
        simp only [hreu] at h
      · cases h
      · rw [ih g2 g' h, dg_reu_uh g idx g2 hreu]

theorem dg_iel_uh {TN TE : Type} :
    ∀ (l : List (DG.Edge TE)) (g g' : DG.DiGraph TN TE),
      DG.insert_edges_loop l g = some g' → g'.undo_history = g.undo_history := by
  intro l
  induction l with
  | nil =>
    intro g g' h
    cases h
    rfl
  | cons e rest ih =>
    intro g g' h
    simp only [DG.insert_edges_loop] at h
    rcases hieu : DG.insert_edge_unregistered g e with _ | g2 <;>
      simp only [hieu] at h
    · cases h
    · rw [ih g2 g' h, dg_ieu_uh g e g2 hieu]

theorem dg_rnu_uh {TN TE : Type} (g : DG.DiGraph TN TE) (id : Id)
    (n : DG.Node TN) (g' : DG.DiGraph TN TE)
    (h : DG.remove_node_unregistered g id = some (n, g')) :
    g'.undo_history = g.undo_history := by
  simp only [DG.remove_node_unregistered] at h
  rcases hb : mget id g.neighbors_before with _ | bef
  · simp [hb] at h
  · rcases hl1 : DG.remove_pairs_loop (bef.map fun idBefore => (idBefore, id)) g
        with _ | g1
    · simp [hb, hl1] at h
    · rcases ha : mget id g1.neighbors_after with _ | aft
      · simp [hb, hl1, ha] at h
      · rcases hl2 : DG.remove_pairs_loop (aft.map fun idAfter => (id, idAfter)) g1
            with _ | g2
        · simp [hb, hl1, ha, hl2] at h
        · rcases hn : mget id g2.nodes with _ | nd
          · simp [hb, hl1, ha, hl2, hn] at h
          · simp [hb, hl1, ha, hl2, hn, Prod.ext_iff] at h
            obtain ⟨h1, h2⟩ := h
            subst h2
            show g2.undo_history = g.undo_history
            rw [dg_rpl_uh _ _ _ hl2, dg_rpl_uh _ _ _ hl1]

theorem dg_undoArm_uh {TN TE : Type} (ch : DG.GraphChange TN TE)
    (g g' : DG.DiGraph TN TE) (h : DG.undoArm ch g = .ok g') :
    g'.undo_history = g.undo_history := by
  cases ch with
  | AddNode node =>
    simp only [DG.undoArm] at h
    rcases hrn : DG.remove_node_unregistered g node.id with _ | p <;>
      simp only [hrn] at h
    · cases h
    · obtain ⟨n2, g2⟩ := p
      cases h
      exact dg_rnu_uh g node.id n2 g2 hrn
  | RemoveNode node es =>
    simp only [DG.undoArm] at h
    rcases hloop : DG.insert_edges_loop es (DG.insert_node_unregistered g node)
        with _ | g2 <;> simp only [hloop] at h
    · cases h
    · cases h
      rw [dg_iel_uh _ _ _ hloop]
      rfl
  | AddEdge edge =>
    simp only [DG.undoArm] at h
    rcases hei : DG.edge_index edge.startId edge.endId g.edges with _ | idx <;>
      simp only [hei] at h
    · cases h
    · rcases hreu : DG.remove_edge_unregistered g idx with _ | g2 <;>
        simp only [hreu] at h
      · cases h
      · cases h
        exact dg_reu_uh g idx g' hreu
  | AddEdgeWith edge ns ne =>
    simp only [DG.undoArm] at h
    rcases ns with _ | sid <;> rcases ne with _ | tid <;> simp only [] at h
    · rcases hei : DG.edge_index edge.startId edge.endId g.edges with _ | idx <;>
        simp only [hei] at h
      · cases h
        rfl
      · rcases hreu : DG.remove_edge_unregistered g idx with _ | g2 <;>
          simp only [hreu] at h
        · cases h
        · cases h
          exact dg_reu_uh g idx g' hreu
    · rcases hrn2 : DG.remove_node_unregistered g tid with _ | p2 <;>
        simp only [hrn2, Option.map_none', Option.map_some'] at h
      · cases h
      · obtain ⟨n2, g2⟩ := p2
        rcases hei : DG.edge_index edge.startId edge.endId g2.edges with _ | idx <;>
          simp only [hei] at h
        · cases h
          exact dg_rnu_uh g tid n2 g' hrn2
        · rcases hreu : DG.remove_edge_unregistered g2 idx with _ | g3 <;>
            simp only [hreu] at h
          · cases h
          · cases h
            rw [dg_reu_uh g2 idx g' hreu]
            exact dg_rnu_uh g tid n2 g2 hrn2
    · rcases hrn1 : DG.remove_node_unregistered g sid with _ | p1 <;>
        simp only [hrn1, Option.map_none', Option.map_some'] at h
      · cases h
      · obtain ⟨n1, g1⟩ := p1
        rcases hei : DG.edge_index edge.startId edge.endId g1.edges with _ | idx <;>
          simp only [hei] at h
        · cases h
          exact dg_rnu_uh g sid n1 g' hrn1
        · rcases hreu : DG.remove_edge_unregistered g1 idx with _ | g3 <;>
            simp only [hreu] at h
          · cases h
          · cases h
            rw [dg_reu_uh g1 idx g' hreu]
            exact dg_rnu_uh g sid n1 g1 hrn1
    · rcases hrn1 : DG.remove_node_unregistered g sid with _ | p1 <;>
        simp only [hrn1, Option.map_none', Option.map_some'] at h
      · cases h
      · obtain ⟨n1, g1⟩ := p1
        rcases hrn2 : DG.remove_node_unregistered g1 tid with _ | p2 <;>
          simp only [hrn2, Option.map_none', Option.map_some'] at h
        · cases h
        · obtain ⟨n2, g2⟩ := p2
          rcases hei : DG.edge_index edge.startId edge.endId g2.edges with _ | idx <;>
            simp only [hei] at h
          · cases h
            rw [dg_rnu_uh g1 tid n2 g' hrn2]
            exact dg_rnu_uh g sid n1 g1 hrn1
          · rcases hreu : DG.remove_edge_unregistered g2 idx with _ | g3 <;>
              simp only [hreu] at h
            · cases h
            · cases h
              rw [dg_reu_uh g2 idx g' hreu, dg_rnu_uh g1 tid n2 g2 hrn2]
              exact dg_rnu_uh g sid n1 g1 hrn1
  | RemoveEdge edge =>
    simp only [DG.undoArm] at h
    rcases hieu : DG.insert_edge_unregistered g edge with _ | g2 <;>
      simp only [hieu] at h
    · cases h
    · cases h
      exact dg_ieu_uh g edge g' hieu
  | InsertNodeAlongEdge node edge =>
    simp only [DG.undoArm] at h
    rcases hrn : DG.remove_node_unregistered g node.id with _ | p <;>
      simp only [hrn] at h
    · cases h
    · obtain ⟨n1, g1⟩ := p
      rcases hieu : DG.insert_edge_unregistered g1 edge with _ | g2 <;>
        simp only [hieu] at h
      · cases h
      · cases h
        rw [dg_ieu_uh g1 edge g' hieu]
        exact dg_rnu_uh g node.id n1 g1 hrn
  | Failure msg =>
    simp only [DG.undoArm] at h
    cases h

theorem dg_undoArm_no_err {TN TE : Type} (ch : DG.GraphChange TN TE)
    (g : DG.DiGraph TN TE) (hch : ∀ m, ch ≠ DG.GraphChange.Failure m) :
    ∀ g' m, DG.undoArm ch g ≠ .err g' m := by
  intro g' m h
  cases ch
  case Failure msg => exact hch msg rfl
  all_goals simp only [DG.undoArm] at h <;> (repeat' split at h) <;> cases h

theorem dg_undo_ok_entries {TN TE : Type} (g g' : DG.DiGraph TN TE)
    (h : DG.undo g = .ok g') :
    g'.undo_history.entries = g.undo_history.entries.dropLast := by
  simp only [DG.undo, DG.pop_change, DG.HistoryDeque.pop_back] at h
  rcases hlast : g.undo_history.entries.getLast? with _ | ch <;>
    simp only [hlast] at h
  · cases h
    rfl
  · rw [dg_undoArm_uh ch _ g' h]

theorem dg_undo_no_err_of_nofailure {TN TE : Type} (g : DG.DiGraph TN TE)
    (hnf : DG.NoFailureHistory g) : ∀ g' m, DG.undo g ≠ .err g' m := by
  intro g' m h
  simp only [DG.undo, DG.pop_change, DG.HistoryDeque.pop_back] at h
  rcases hlast : g.undo_history.entries.getLast? with _ | ch <;>
    simp only [hlast] at h
  · cases h
  · have hmem : ch ∈ g.undo_history.entries := mem_of_getLast? hlast
    exact dg_undoArm_no_err ch _ (fun m2 => hnf ch hmem m2) g' m h

theorem dg_insert_node_hist {TN TE : Type} (g : DG.DiGraph TN TE) (n : DG.Node TN)
    (g' : DG.DiGraph TN TE) (h : DG.insert_node g n = .ok g') :
    ∃ ch, (∀ m, ch ≠ DG.GraphChange.Failure m) ∧
      ∀ x ∈ g'.undo_history.entries, x ∈ g.undo_history.entries ∨ x = ch := by
  simp only [DG.insert_node, DG.check_add_node] at h
  cases hp : DG.node_id_present g.nodes n.id <;>
    simp [hp, DG.GraphChange.try_get_node] at h
  subst h
  refine ⟨.AddNode n, ?_, ?_⟩
  · intro m hc
    cases hc
  · intro x hx
    exact dg_push_back_mem g.undo_history (.AddNode n) x hx

theorem dg_insert_edge_hist {TN TE : Type} (g : DG.DiGraph TN TE) (e : DG.Edge TE)
    (g' : DG.DiGraph TN TE) (h : DG.insert_edge g e = .ok g') :
    ∃ ch, (∀ m, ch ≠ DG.GraphChange.Failure m) ∧
      ∀ x ∈ g'.undo_history.entries, x ∈ g.undo_history.entries ∨ x = ch := by
  simp only [DG.insert_edge, DG.check_add_edge] at h
  rcases hei : DG.edge_index e.startId e.endId g.edges with _ | i <;>
    simp only [hei, DG.GraphChange.try_get_edge] at h
  case some => cases h
  case none =>
  cases hp : (DG.node_id_present g.nodes e.startId &&
      DG.node_id_present g.nodes e.endId) <;>
    simp [hp, DG.GraphChange.try_get_edge] at h
  rcases hieu : DG.insert_edge_unregistered
      (DG.register_change g (.AddEdge e)) e with _ | g2 <;>
    simp only [hieu, Res.ok.injEq] at h
  · cases h
  · subst h
    refine ⟨.AddEdge e, ?_, ?_⟩
    · intro m hc
      cases hc
    · intro x hx
      rw [dg_ieu_uh _ _ _ hieu] at hx
      exact dg_push_back_mem g.undo_history (.AddEdge e) x hx

theorem dg_remove_node_hist {TN TE : Type} (g : DG.DiGraph TN TE) (id : Id)
    (g' : DG.DiGraph TN TE) (h : DG.remove_node g id = .ok g') :
    ∃ ch, (∀ m, ch ≠ DG.GraphChange.Failure m) ∧
      ∀ x ∈ g'.undo_history.entries, x ∈ g.undo_history.entries ∨ x = ch := by
  simp only [DG.remove_node, DG.check_remove_node] at h
  rcases hm : mget id g.nodes with _ | nd <;>
    simp only [hm, DG.GraphChange.try_get_node] at h
  · cases h
  · rcases hrn : DG.remove_node_unregistered
        (DG.register_change g
          (.RemoveNode nd (g.edges.filter (fun e => e.startId == id || e.endId == id))))
        id with _ | ⟨n2, g2⟩ <;> simp only [hrn] at h
    · cases h
    · cases h
      refine ⟨.RemoveNode nd
        (g.edges.filter (fun e => e.startId == id || e.endId == id)), ?_, ?_⟩
      · intro m hc
        cases hc
      · intro x hx
        rw [dg_rnu_uh _ _ _ _ hrn] at hx
        exact dg_push_back_mem g.undo_history _ x hx

theorem dg_remove_edge_hist {TN TE : Type} (g : DG.DiGraph TN TE) (a b : Id)
    (g' : DG.DiGraph TN TE) (h : DG.remove_edge g a b = .ok g') :
    ∃ ch, (∀ m, ch ≠ DG.GraphChange.Failure m) ∧
      ∀ x ∈ g'.undo_history.entries, x ∈ g.undo_history.entries ∨ x = ch := by
  simp only [DG.remove_edge, DG.check_remove_edge] at h
  rcases hei : DG.edge_index a b g.edges with _ | i <;> simp only [hei] at h
  · simp only [DG.GraphChange.try_get_edge] at h
    cases h
  · rcases hgi : g.edges[i]? with _ | ed <;>
      simp only [hgi, DG.GraphChange.try_get_edge] at h
    · cases h
    · rcases hei2 : DG.edge_index a b
          (DG.register_change g (.RemoveEdge ed)).edges with _ | i2 <;>
        simp only [hei2] at h
      · cases h
      · rcases hreu : DG.remove_edge_unregistered
            (DG.register_change g (.RemoveEdge ed)) i2 with _ | g2 <;>
          simp only [hreu] at h
        · cases h
        · cases h
          refine ⟨.RemoveEdge ed, ?_, ?_⟩
          · intro m hc
            cases hc
          · intro x hx
            rw [dg_reu_uh _ _ _ hreu] at hx
            exact dg_push_back_mem g.undo_history _ x hx

theorem dg_iewn_hist {TN TE : Type} (g : DG.DiGraph TN TE) (a b : Id)
    (g' : DG.DiGraph TN TE) (h : DG.insert_edge_with_nodes g a b = .ok g') :
    ∃ ch, (∀ m, ch ≠ DG.GraphChange.Failure m) ∧
      ∀ x ∈ g'.undo_history.entries, x ∈ g.undo_history.entries ∨ x = ch := by
  simp only [DG.insert_edge_with_nodes, DG.check_add_edge_with_nodes] at h
  rcases hei : DG.edge_index a b g.edges with _ | i <;>
    simp only [hei, DG.GraphChange.try_get_edge_with_nodes] at h
  case some => cases h
  case none =>
  cases hpa : DG.node_id_present g.nodes a <;>
    cases hpb : DG.node_id_present g.nodes b <;>
    simp only [hpa, hpb, Bool.false_eq_true, if_false, if_true] at h <;>
    [rcases hieu : DG.insert_edge_unregistered
        (DG.insert_node_unregistered (DG.insert_node_unregistered g (DG.Node.bare a))
          (DG.Node.bare b)) (DG.Edge.bare a b) with _ | g2;
     rcases hieu : DG.insert_edge_unregistered
        (DG.insert_node_unregistered g (DG.Node.bare a)) (DG.Edge.bare a b) with _ | g2;
     rcases hieu : DG.insert_edge_unregistered
        (DG.insert_node_unregistered g (DG.Node.bare b)) (DG.Edge.bare a b) with _ | g2;
     rcases hieu : DG.insert_edge_unregistered g (DG.Edge.bare a b) with _ | g2] <;>
    simp only [hieu] at h
  case _ => cases h
  case _ =>
    cases h
    refine ⟨.AddEdgeWith (DG.Edge.bare a b) (some a) (some b), ?_, ?_⟩
    · intro m hc
      cases hc
    · intro x hx
      rcases dg_push_back_mem g2.undo_history _ x hx with h1 | h2
      · rw [dg_ieu_uh _ _ _ hieu] at h1
        exact Or.inl h1
      · exact Or.inr h2
  case _ => cases h
  case _ =>
    cases h
    refine ⟨.AddEdgeWith (DG.Edge.bare a b) (some a) none, ?_, ?_⟩
    · intro m hc
      cases hc
    · intro x hx
      rcases dg_push_back_mem g2.undo_history _ x hx with h1 | h2
      · rw [dg_ieu_uh _ _ _ hieu] at h1
        exact Or.inl h1
      · exact Or.inr h2
  case _ => cases h
  case _ =>
    cases h
    refine ⟨.AddEdgeWith (DG.Edge.bare a b) none (some b), ?_, ?_⟩
    · intro m hc
      cases hc
    · intro x hx
      rcases dg_push_back_mem g2.undo_history _ x hx with h1 | h2
      · rw [dg_ieu_uh _ _ _ hieu] at h1
        exact Or.inl h1
      · exact Or.inr h2
  case _ => cases h
  case _ =>
    cases h
    refine ⟨.AddEdgeWith (DG.Edge.bare a b) none none, ?_, ?_⟩
    · intro m hc
      cases hc
    · intro x hx
      rcases dg_push_back_mem g2.undo_history _ x hx with h1 | h2
      · rw [dg_ieu_uh _ _ _ hieu] at h1
        exact Or.inl h1
      · exact Or.inr h2

theorem dg_ina_hist {TN TE : Type} (g : DG.DiGraph TN TE) (nid a b : Id)
    (g' : DG.DiGraph TN TE) (h : DG.insert_node_along g nid a b = .ok g') :
    ∃ ch, (∀ m, ch ≠ DG.GraphChange.Failure m) ∧
      ∀ x ∈ g'.undo_history.entries, x ∈ g.undo_history.entries ∨ x = ch := by
  simp only [DG.insert_node_along, DG.check_add_node, dg_bare_node_id] at h
  cases hp : DG.node_id_present g.nodes nid <;>
    simp [hp, DG.GraphChange.try_get_node, DG.check_remove_edge] at h
  rcases hei : DG.edge_index a b g.edges with _ | i <;>
    simp only [hei, DG.GraphChange.try_get_edge] at h
  · cases h
  · rcases hgi : g.edges[i]? with _ | ed <;>
      simp only [hgi, DG.GraphChange.try_get_edge] at h
    · cases h
    · rcases hr1 : DG.remove_edge_unregistered
          (DG.insert_node_unregistered
            (DG.register_change g (.InsertNodeAlongEdge (DG.Node.bare nid) ed))
            (DG.Node.bare nid)) i with _ | g1 <;> simp only [hr1] at h
      · cases h
      · rcases hr2 : DG.insert_edge_unregistered g1
            (⟨a, nid, ed.data⟩ : DG.Edge TE) with _ | g2 <;> simp only [hr2] at h
        · cases h
        · rcases hr3 : DG.insert_edge_unregistered g2 (DG.Edge.bare nid b)
              with _ | g3 <;> simp only [hr3, Res.ok.injEq] at h
          · cases h
          · subst h
            refine ⟨.InsertNodeAlongEdge (DG.Node.bare nid) ed, ?_, ?_⟩
            · intro m hc
              cases hc
            · intro x hx
              rw [dg_ieu_uh _ _ _ hr3, dg_ieu_uh _ _ _ hr2,
                  dg_reu_uh _ _ _ hr1] at hx
              exact dg_push_back_mem g.undo_history _ x hx

theorem dg_reach_nofailure {TN TE : Type} (g : DG.DiGraph TN TE)
    (h : DG.Reachable g) : DG.NoFailureHistory g := by
  induction h with
  | base =>
    intro ch hch msg
    cases hch
  | insert_node hr hok ih =>
    obtain ⟨c0, hc0, hsub⟩ := dg_insert_node_hist _ _ _ hok
    intro ch hch msg
    rcases hsub ch hch with h1 | h2
    · exact ih ch h1 msg
    · exact h2 ▸ hc0 msg
  | insert_edge hr hok ih =>
    obtain ⟨c0, hc0, hsub⟩ := dg_insert_edge_hist _ _ _ hok
    intro ch hch msg
    rcases hsub ch hch with h1 | h2
    · exact ih ch h1 msg
    · exact h2 ▸ hc0 msg
  | remove_node hr hok ih =>
    obtain ⟨c0, hc0, hsub⟩ := dg_remove_node_hist _ _ _ hok
    intro ch hch msg
    rcases hsub ch hch with h1 | h2
    · exact ih ch h1 msg
    · exact h2 ▸ hc0 msg
  | remove_edge hr hok ih =>
    obtain ⟨c0, hc0, hsub⟩ := dg_remove_edge_hist _ _ _ _ hok
    intro ch hch msg
    rcases hsub ch hch with h1 | h2
    · exact ih ch h1 msg
    · exact h2 ▸ hc0 msg
  | insert_edge_with_nodes hr hok ih =>
    obtain ⟨c0, hc0, hsub⟩ := dg_iewn_hist _ _ _ _ hok
    intro ch hch msg
    rcases hsub ch hch with h1 | h2
    · exact ih ch h1 msg
    · exact h2 ▸ hc0 msg
  | insert_node_along hr hok ih =>
    obtain ⟨c0, hc0, hsub⟩ := dg_ina_hist _ _ _ _ _ hok
    intro ch hch msg
    rcases hsub ch hch with h1 | h2
    · exact ih ch h1 msg
    · exact h2 ▸ hc0 msg
  | undo hr hok ih =>
    intro ch hch msg
    rw [dg_undo_ok_entries _ _ hok] at hch
    exact ih ch ((List.dropLast_sublist _).subset hch) msg

end C6Helpers

section C6

/-- C6: `undo` on an empty history log is a no-op returning success (the
receiver is handed back unchanged), and for every reachable map-keyed graph
the history log never contains a `Failure` descriptor, so `undo` never
returns an error. -/
theorem C6_undo_empty_noop_and_no_error {TN TE : Type} :
    (∀ g : DG.DiGraph TN TE, g.undo_history.entries = [] → DG.undo g = .ok g) ∧
    (∀ g : DG.DiGraph TN TE, DG.Reachable g →
      DG.NoFailureHistory g ∧ ∀ g' m, DG.undo g ≠ .err g' m) := by
  constructor
  · intro g hent
    simp only [DG.undo, DG.pop_change, DG.HistoryDeque.pop_back, hent,
               List.getLast?_nil, List.dropLast_nil]
    rw [← hent]
  · intro g hr
    have hnf := dg_reach_nofailure g hr
    exact ⟨hnf, dg_undo_no_err_of_nofailure g hnf⟩

/-- Witness for C6 at the default empty graph: its empty history makes
`undo` a successful no-op, and as the base reachable state its history holds
no `Failure` descriptor and `undo` cannot return an error. -/
theorem C6_undo_witness :
    DG.undo (DG.DiGraph.default Unit Unit) = .ok (DG.DiGraph.default Unit Unit) ∧
    DG.NoFailureHistory (DG.DiGraph.default Unit Unit) ∧
    ∀ g' m, DG.undo (DG.DiGraph.default Unit Unit) ≠ .err g' m :=
  ⟨(@C6_undo_empty_noop_and_no_error Unit Unit).1 (DG.DiGraph.default Unit Unit) rfl,
   ((@C6_undo_empty_noop_and_no_error Unit Unit).2 (DG.DiGraph.default Unit Unit)
     DG.Reachable.base).1,
   ((@C6_undo_empty_noop_and_no_error Unit Unit).2 (DG.DiGraph.default Unit Unit)
     DG.Reachable.base).2⟩

end C6

section C7

/-- With a well-formed graph and an absent start id, the traversal census
from `start` is exactly `[start]`: the start is marked visited, and its
adjacency entry (if any leftover exists) is empty because no edge of a
well-formed graph starts at a non-node. -/
theorem dg_census_absent {TN TE : Type} (g : DG.DiGraph TN TE) (start : Id)
    (hwf : DG.WF g) (hstart : mget start g.nodes = none) :
    DG.collect_reachable_neighbors g (DG.reachFuel g) [] start = [start] := by
  obtain ⟨w1, w2, w3, w4, w5, w6, w7, w8, w9⟩ := hwf
  have hkeys : start ∉ g.nodes.map Prod.fst := (mget_eq_none_iff _ _).mp hstart
  simp only [DG.reachFuel, DG.collect_reachable_neighbors, List.not_mem_nil,
             if_false, List.nil_append]
  rcases hadj : mget start g.neighbors_after with _ | l
  · rfl
  · have hmem : (start, l) ∈ g.neighbors_after :=
      (mem_iff_mget g.neighbors_after (start, l) w4).mpr hadj
    have hperm := w8 (start, l) hmem
    have hfil : g.edges.filter (fun e => e.startId == start) = [] := by
      rw [List.filter_eq_nil]
      intro e he
      simp only [beq_iff_eq]
      intro hco
      have := (w7 e he).1
      rw [hco] at this
      exact hkeys (by simpa [DG.all_node_ids] using this)
    rw [hfil] at hperm
    simp only [List.map_nil] at hperm
    have hl : l = [] := hperm.eq_nil
    subst hl
    rfl

/-- C7: `nodes_unreachable_from g start` returns exactly the node ids of `g`
not visited by the forward traversal over successor adjacency from `start`;
when `start` is not a node of a well-formed graph it is still marked visited
but contributes no successors, so every node id is returned; and in the
spec's scenario (nodes 1, 2, 3 with the single edge `1 -> 2`)
`nodes_unreachable_from 1 = [3]` while `nodes_unreachable_from 99 =
[1, 2, 3]`. -/
theorem C7_nodes_unreachable {TN TE : Type} :
    (∀ (g : DG.DiGraph TN TE) (start : Id),
      DG.nodes_unreachable_from g start = (DG.all_node_ids g).filter
        (fun id =>
          !(DG.collect_reachable_neighbors g (DG.reachFuel g) [] start).contains id)) ∧
    (∀ (g : DG.DiGraph TN TE) (start : Id), DG.WF g → mget start g.nodes = none →
      DG.nodes_unreachable_from g start = DG.all_node_ids g) ∧
    DG.nodes_unreachable_from DG.dgD 1 = [3] ∧
    DG.nodes_unreachable_from DG.dgD 99 = [1, 2, 3] := by
  refine ⟨fun g start => rfl, ?_, by decide, by decide⟩
  intro g start hwf hstart
  have hkeys : start ∉ g.nodes.map Prod.fst := (mget_eq_none_iff _ _).mp hstart
  simp only [DG.nodes_unreachable_from, dg_census_absent g start hwf hstart]
  apply List.filter_eq_self.mpr
  intro id hid
  simp only [List.contains_cons, List.contains_nil, Bool.or_false,
             Bool.not_eq_true', beq_eq_false_iff_ne, ne_eq]
  intro hco
  exact hkeys (hco ▸ (by simpa [DG.all_node_ids] using hid))

/-- Witness for C7: on the scenario graph, id 99 is absent and every node id
is reported unreachable from it. -/
theorem C7_nodes_unreachable_witness :
    (DG.WF DG.dgD ∧ mget 99 DG.dgD.nodes = none) ∧
    DG.nodes_unreachable_from DG.dgD 99 = DG.all_node_ids DG.dgD :=
  ⟨⟨by decide, by decide⟩,
   (@C7_nodes_unreachable Unit Unit).2.1 DG.dgD 99 (by decide) (by decide)⟩

end C7

section C1Lists

variable {α : Type}

theorem getLast?_decomp {l : List α} {x : α} (h : l.getLast? = some x) :
    l = l.dropLast ++ [x] := by
  induction l with
  | nil => cases h
  | cons a t ih =>
    cases t with
    | nil =>
      simp only [List.getLast?_singleton, Option.some.injEq] at h
      simp [h]
    | cons b u =>
      rw [List.getLast?_cons_cons] at h
      have := ih h
      calc a :: b :: u = a :: ((b :: u).dropLast ++ [x]) := by rw [← this]
        _ = (a :: b :: u).dropLast ++ [x] := by simp

theorem perm_cons_getElem : ∀ (l : List α) (i : Nat) (x : α), l[i]? = some x →
    l.Perm (x :: l.eraseIdx i) := by
  intro l
  induction l with
  | nil => intro i x h; cases h
  | cons a t ih =>
    intro i x h
    cases i with
    | zero =>
      simp only [List.getElem?_cons_zero, Option.some.injEq] at h
      subst h
      simp [List.eraseIdx_cons_zero]
    | succ j =>
      simp only [List.getElem?_cons_succ] at h
      rw [List.eraseIdx_cons_succ]
      exact List.Perm.trans ((ih j x h).cons a) (List.Perm.swap x a _)

theorem swapRemove_perm : ∀ (l : List α) (i : Nat) (x : α), l[i]? = some x →
    (DG.swapRemove l i).Perm (l.eraseIdx i) := by
  intro l
  induction l with
  | nil => intro i x h; cases h
  | cons a t ih =>
    intro i x h
    cases i with
    | zero =>
      cases t with
      | nil =>
        simp [DG.swapRemove]
      | cons b u =>
        rcases hL : (a :: b :: u).getLast? with _ | L
        · simp at hL
        · simp only [DG.swapRemove, hL, List.set_cons_zero]
          have hL2 : (b :: u).getLast? = some L := by
            rwa [List.getLast?_cons_cons] at hL
          have hdec := getLast?_decomp hL2
          have hne : (b :: u) ≠ [] := by simp
          rw [List.eraseIdx_cons_zero, List.dropLast_cons_of_ne_nil hne]
          refine List.Perm.trans (List.perm_append_singleton L _).symm ?_
          rw [← hdec]
    | succ j =>
      simp only [List.getElem?_cons_succ] at h
      have htne : t ≠ [] := by
        intro hx
        subst hx
        cases h
      rcases hL : (a :: t).getLast? with _ | L
      · simp at hL
      · have hL2 : t.getLast? = some L := by
          cases t with
          | nil => exact absurd rfl htne
          | cons b u => rwa [List.getLast?_cons_cons] at hL
        have hsetne : t.set j L ≠ [] := by
          intro hx
          apply htne
          have hlen := congrArg List.length hx
          simp only [List.length_set, List.length_nil] at hlen
          exact List.length_eq_zero.mp hlen
        simp only [DG.swapRemove, hL, List.set_cons_succ]
        rw [List.dropLast_cons_of_ne_nil hsetne, List.eraseIdx_cons_succ]
        have hsub := ih j x h
        simp only [DG.swapRemove, hL2] at hsub
        exact hsub.cons a

theorem perm_filter_ne_of_append [DecidableEq α] {M Mr : List α} {a : α}
    (hnd : M.Nodup) (hperm : (Mr ++ [a]).Perm M) :
    (M.filter (fun y => y != a)).Perm Mr := by
  have h1 : M.Perm (a :: Mr) := hperm.symm.trans (List.perm_append_singleton a Mr)
  have h2 : (M.filter (fun y => y != a)).Perm ((a :: Mr).filter (fun y => y != a)) :=
    h1.filter _
  have hcons : (a :: Mr).Nodup := (h1.nodup_iff).mp hnd
  have hnotmem : a ∉ Mr := (List.nodup_cons.mp hcons).1
  have h3 : (a :: Mr).filter (fun y => y != a) = Mr := by
    simp only [List.filter_cons, bne_self_eq_false, if_false]
    apply List.filter_eq_self.mpr
    intro b hb
    simp only [bne_iff_ne, ne_eq]
    intro hba
    exact hnotmem (hba ▸ hb)
  rw [h3] at h2
  exact h2

theorem perm_of_nodup_ext {l1 l2 : List α} (h1 : l1.Nodup) (h2 : l2.Nodup)
    (h : ∀ a, a ∈ l1 ↔ a ∈ l2) : l1.Perm l2 := by
  induction l1 generalizing l2 with
  | nil =>
    cases l2 with
    | nil => exact List.Perm.refl _
    | cons b u => exact absurd ((h b).mpr (by simp)) (by simp)
  | cons a t ih =>
    have hmem : a ∈ l2 := (h a).mp (by simp)
    obtain ⟨i, hi⟩ := List.getElem?_of_mem hmem
    have hperm2 := perm_cons_getElem l2 i a hi
    simp only [List.nodup_cons] at h1
    have hnd2 : (a :: l2.eraseIdx i).Nodup := (hperm2.nodup_iff).mp h2
    simp only [List.nodup_cons] at hnd2
    refine List.Perm.trans (List.Perm.cons a (ih h1.2 hnd2.2 ?_)) hperm2.symm
    intro b
    constructor
    · intro hb
      have hbl2 : b ∈ l2 := (h b).mp (by simp [hb])
      have : b ∈ a :: l2.eraseIdx i := hperm2.mem_iff.mp hbl2
      rcases List.mem_cons.mp this with hba | hbt
      · exact absurd (hba ▸ hb) h1.1
      · exact hbt
    · intro hb
      have hbl2 : b ∈ l2 := hperm2.mem_iff.mpr (by simp [hb])
      rcases List.mem_cons.mp ((h b).mpr hbl2) with hba | hbt
      · subst hba
        exact absurd hb hnd2.1
      · exact hbt

theorem dg_pair_unique {TE : Type} {l : List (DG.Edge TE)}
    (hnd : (l.map DG.edgePair).Nodup) {e1 e2 : DG.Edge TE}
    (h1 : e1 ∈ l) (h2 : e2 ∈ l) (hp : DG.edgePair e1 = DG.edgePair e2) :
    e1 = e2 := by
  induction l with
  | nil => cases h1
  | cons a t ih =>
    simp only [List.map_cons, List.nodup_cons] at hnd
    rcases List.mem_cons.mp h1 with ha1 | ht1 <;>
      rcases List.mem_cons.mp h2 with ha2 | ht2
    · rw [ha1, ha2]
    · subst ha1
      exact absurd (hp ▸ List.mem_map_of_mem DG.edgePair ht2) hnd.1
    · subst ha2
      exact absurd (hp ▸ List.mem_map_of_mem DG.edgePair ht1)
        (by rw [← hp] at hnd ⊢; exact (hp ▸ hnd.1))
    · exact ih hnd.2 ht1 ht2

theorem mget_isSome_mmod {β : Type} (k k' : Id) (f : β → β) (m : List (Id × β)) :
    (mget k (mmod k' f m)).isSome = (mget k m).isSome := by
  by_cases hk : k = k'
  · subst hk
    rw [mget_mmod_self]
    cases mget k m <;> simp
  · rw [mget_mmod_ne _ _ _ _ hk]

theorem mget_isSome_mput_mono {β : Type} (k k' : Id) (v : β) (m : List (Id × β))
    (h : (mget k m).isSome = true) : (mget k (mput k' v m)).isSome = true := by
  by_cases hk : k = k'
  · subst hk
    rw [mget_mput_self]
    rfl
  · rwa [mget_mput_ne _ _ _ _ hk]

theorem dg_push_back_shape {TN TE : Type} (h : DG.HistoryDeque TN TE)
    (x : DG.GraphChange TN TE) (hcap : 0 < h.cap) :
    ∃ pre, (h.push_back x).1 = ⟨pre ++ [x], h.cap⟩ := by
  rcases h with ⟨es, cap⟩
  have hcap' : 0 < cap := hcap
  cases es with
  | nil =>
    refine ⟨[], ?_⟩
    simp only [DG.HistoryDeque.push_back]
    rw [if_neg (by
      simp only [List.nil_append, List.length_cons, List.length_nil]
      omega)]
  | cons e0 rest =>
    by_cases hfull : cap < (e0 :: rest).length + 1
    · refine ⟨rest, ?_⟩
      rw [dg_push_back_evict _ _ _ (by simpa using hfull)]
      simp
    · refine ⟨e0 :: rest, ?_⟩
      simp only [DG.HistoryDeque.push_back]
      rw [if_neg (by simpa using hfull)]

end C1Lists

section C1Prims

variable {TN TE : Type}

theorem dg_wf_edgeAdjInv (g : DG.DiGraph TN TE) (hwf : DG.WF g) :
    DG.EdgeAdjInv g := by
  obtain ⟨w1, w2, w3, w4, w5, w6, w7, w8, w9⟩ := hwf
  have hkey : ∀ q : Id, q ∈ g.nodes.map Prod.fst →
      (mget q g.neighbors_before).isSome ∧ (mget q g.neighbors_after).isSome := by
    intro q hq
    obtain ⟨p, hp, hpk⟩ := List.mem_map.mp hq
    exact hpk ▸ w5 p hp
  refine ⟨w6, ?_, ?_, ?_⟩
  · intro e he
    obtain ⟨hs, ht⟩ := w7 e he
    exact ⟨(hkey e.startId (by simpa [DG.all_node_ids] using hs)).2,
           (hkey e.endId (by simpa [DG.all_node_ids] using ht)).1⟩
  · intro k
    rcases hk : mget k g.neighbors_before with _ | l
    · have hfil : g.edges.filter (fun e => e.endId == k) = [] := by
        rw [List.filter_eq_nil]
        intro e he
        simp only [beq_iff_eq]
        intro hco
        have := (w7 e he).2
        rw [hco] at this
        have := (hkey k (by simpa [DG.all_node_ids] using this)).1
        rw [hk] at this
        cases this
      simp [hfil]
    · have hmem : (k, l) ∈ g.neighbors_before :=
        (mem_iff_mget g.neighbors_before (k, l) w3).mpr hk
      simpa using w9 (k, l) hmem
  · intro k
    rcases hk : mget k g.neighbors_after with _ | l
    · have hfil : g.edges.filter (fun e => e.startId == k) = [] := by
        rw [List.filter_eq_nil]
        intro e he
        simp only [beq_iff_eq]
        intro hco
        have := (w7 e he).1
        rw [hco] at this
        have := (hkey k (by simpa [DG.all_node_ids] using this)).2
        rw [hk] at this
        cases this
      simp [hfil]
    · have hmem : (k, l) ∈ g.neighbors_after :=
        (mem_iff_mget g.neighbors_after (k, l) w4).mpr hk
      simpa using w8 (k, l) hmem

theorem dg_filter_end_map_nodup (l : List (DG.Edge TE)) (k : Id)
    (hnd : (l.map DG.edgePair).Nodup) :
    ((l.filter (fun e => e.endId == k)).map DG.Edge.startId).Nodup := by
  induction l with
  | nil => simp
  | cons e t ih =>
    simp only [List.map_cons, List.nodup_cons] at hnd
    rw [List.filter_cons]
    by_cases hke : e.endId = k
    · rw [if_pos (by simpa using hke)]
      rw [List.map_cons, List.nodup_cons]
      refine ⟨?_, ih hnd.2⟩
      intro hmem
      obtain ⟨e', he', hpe⟩ := List.mem_map.mp hmem
      rw [List.mem_filter] at he'
      have hpp : DG.edgePair e' = DG.edgePair e := by
        simp only [DG.edgePair, Prod.mk.injEq]
        exact ⟨hpe, by
          have := he'.2
          simp only [beq_iff_eq] at this
          rw [this, hke]⟩
      exact hnd.1 (hpp ▸ List.mem_map_of_mem DG.edgePair he'.1)
    · rw [if_neg (by simpa using hke)]
      exact ih hnd.2

theorem dg_filter_start_map_nodup (l : List (DG.Edge TE)) (k : Id)
    (hnd : (l.map DG.edgePair).Nodup) :
    ((l.filter (fun e => e.startId == k)).map DG.Edge.endId).Nodup := by
  induction l with
  | nil => simp
  | cons e t ih =>
    simp only [List.map_cons, List.nodup_cons] at hnd
    rw [List.filter_cons]
    by_cases hke : e.startId = k
    · rw [if_pos (by simpa using hke)]
      rw [List.map_cons, List.nodup_cons]
      refine ⟨?_, ih hnd.2⟩
      intro hmem
      obtain ⟨e', he', hpe⟩ := List.mem_map.mp hmem
      rw [List.mem_filter] at he'
      have hpp : DG.edgePair e' = DG.edgePair e := by
        simp only [DG.edgePair, Prod.mk.injEq]
        refine ⟨by
          have := he'.2
          simp only [beq_iff_eq] at this
          rw [this, hke], hpe⟩
      exact hnd.1 (hpp ▸ List.mem_map_of_mem DG.edgePair he'.1)
    · rw [if_neg (by simpa using hke)]
      exact ih hnd.2

theorem dg_inu_effect (g : DG.DiGraph TN TE) (n : DG.Node TN)
    (hinv : DG.EdgeAdjInv g)
    (hfresh : ∀ e ∈ g.edges, e.startId ≠ n.id ∧ e.endId ≠ n.id) :
    (DG.insert_node_unregistered g n).edges = g.edges ∧
    (DG.insert_node_unregistered g n).name = g.name ∧
    (DG.insert_node_unregistered g n).undo_history = g.undo_history ∧
    (DG.insert_node_unregistered g n).nodes = mput n.id n g.nodes ∧
    (mget n.id (DG.insert_node_unregistered g n).neighbors_before).isSome = true ∧
    (mget n.id (DG.insert_node_unregistered g n).neighbors_after).isSome = true ∧
    (∀ k, (mget k g.neighbors_before).isSome = true →
      (mget k (DG.insert_node_unregistered g n).neighbors_before).isSome = true) ∧
    (∀ k, (mget k g.neighbors_after).isSome = true →
      (mget k (DG.insert_node_unregistered g n).neighbors_after).isSome = true) ∧
    DG.EdgeAdjInv (DG.insert_node_unregistered g n) := by
  obtain ⟨b1, b2, b3, b4⟩ := hinv
  refine ⟨rfl, rfl, rfl, rfl, by simp [DG.insert_node_unregistered, mget_mput_self],
    by simp [DG.insert_node_unregistered, mget_mput_self],
    fun k hk => mget_isSome_mput_mono _ _ _ _ hk,
    fun k hk => mget_isSome_mput_mono _ _ _ _ hk, b1, ?_, ?_, ?_⟩
  · intro e he
    exact ⟨mget_isSome_mput_mono _ _ _ _ (b2 e he).1,
           mget_isSome_mput_mono _ _ _ _ (b2 e he).2⟩
  · intro k
    show ((mget k (mput n.id [] g.neighbors_before)).getD []).Perm
      ((g.edges.filter (fun e => e.endId == k)).map DG.Edge.startId)
    by_cases hk : k = n.id
    · subst hk
      rw [mget_mput_self]
      have hfil : g.edges.filter (fun e => e.endId == n.id) = [] := by
        rw [List.filter_eq_nil]
        intro e he
        simpa using (hfresh e he).2
      simp [hfil]
    · rw [mget_mput_ne _ _ _ _ hk]
      exact b3 k
  · intro k
    show ((mget k (mput n.id [] g.neighbors_after)).getD []).Perm
      ((g.edges.filter (fun e => e.startId == k)).map DG.Edge.endId)
    by_cases hk : k = n.id
    · subst hk
      rw [mget_mput_self]
      have hfil : g.edges.filter (fun e => e.startId == n.id) = [] := by
        rw [List.filter_eq_nil]
        intro e he
        simpa using (hfresh e he).1
      simp [hfil]
    · rw [mget_mput_ne _ _ _ _ hk]
      exact b4 k

theorem dg_ieu_effect (g : DG.DiGraph TN TE) (e : DG.Edge TE)
    (hinv : DG.EdgeAdjInv g)
    (hs : (mget e.startId g.neighbors_after).isSome = true)
    (ht : (mget e.endId g.neighbors_before).isSome = true)
    (hfresh : DG.edgePair e ∉ g.edges.map DG.edgePair) :
    ∃ g', DG.insert_edge_unregistered g e = some g' ∧
      g'.nodes = g.nodes ∧ g'.name = g.name ∧ g'.undo_history = g.undo_history ∧
      g'.edges = g.edges ++ [e] ∧
      (∀ k, (mget k g'.neighbors_before).isSome = (mget k g.neighbors_before).isSome) ∧
      (∀ k, (mget k g'.neighbors_after).isSome = (mget k g.neighbors_after).isSome) ∧
      DG.EdgeAdjInv g' := by
  obtain ⟨b1, b2, b3, b4⟩ := hinv
  obtain ⟨la, hla⟩ := Option.isSome_iff_exists.mp hs
  obtain ⟨lb, hlb⟩ := Option.isSome_iff_exists.mp ht
  refine ⟨{ g with
      edges := g.edges ++ [e],
      neighbors_after := mmod e.startId (fun l => l ++ [e.endId]) g.neighbors_after,
      neighbors_before := mmod e.endId (fun l => l ++ [e.startId]) g.neighbors_before },
    by simp [DG.insert_edge_unregistered, hla, hlb], rfl, rfl, rfl, rfl,
    fun k => mget_isSome_mmod _ _ _ _, fun k => mget_isSome_mmod _ _ _ _,
    ?_, ?_, ?_, ?_⟩
  · show ((g.edges ++ [e]).map DG.edgePair).Nodup
    rw [List.map_append, List.map_cons, List.map_nil, List.nodup_append]
    refine ⟨b1, List.nodup_singleton _, ?_⟩
    intro x hx hx1
    simp only [List.mem_singleton] at hx1
    exact hfresh (hx1 ▸ hx)
  · intro e' he'
    show (mget e'.startId (mmod _ _ g.neighbors_after)).isSome = true ∧
      (mget e'.endId (mmod _ _ g.neighbors_before)).isSome = true
    rcases List.mem_append.mp he' with hold | hnew
    · exact ⟨(mget_isSome_mmod _ _ _ _).trans (b2 e' hold).1,
             (mget_isSome_mmod _ _ _ _).trans (b2 e' hold).2⟩
    · simp only [List.mem_singleton] at hnew
      subst hnew
      exact ⟨(mget_isSome_mmod _ _ _ _).trans hs,
             (mget_isSome_mmod _ _ _ _).trans ht⟩
  · intro k
    show ((mget k (mmod e.endId (fun l => l ++ [e.startId]) g.neighbors_before)).getD
      []).Perm (((g.edges ++ [e]).filter (fun e2 => e2.endId == k)).map DG.Edge.startId)
    rw [List.filter_append, List.map_append]
    by_cases hk : k = e.endId
    · subst hk
      rw [mget_mmod_self, hlb]
      have hb3 := b3 e.endId
      rw [hlb] at hb3
      simp only [Option.getD_some, Option.map_some']
      have hfe : ([e].filter (fun e2 => e2.endId == e.endId)) = [e] := by simp
      rw [hfe]
      simp only [List.map_cons, List.map_nil]
      exact hb3.append_right [e.startId]
    · rw [mget_mmod_ne _ _ _ _ hk]
      have hfe : ([e].filter (fun e2 => e2.endId == k)) = [] := by
        simp [Ne.symm hk]
      rw [hfe]
      simpa using b3 k
  · intro k
    show ((mget k (mmod e.startId (fun l => l ++ [e.endId]) g.neighbors_after)).getD
      []).Perm (((g.edges ++ [e]).filter (fun e2 => e2.startId == k)).map DG.Edge.endId)
    rw [List.filter_append, List.map_append]
    by_cases hk : k = e.startId
    · subst hk
      rw [mget_mmod_self, hla]
      have hb4 := b4 e.startId
      rw [hla] at hb4
      simp only [Option.getD_some, Option.map_some']
      have hfe : ([e].filter (fun e2 => e2.startId == e.startId)) = [e] := by simp
      rw [hfe]
      simp only [List.map_cons, List.map_nil]
      exact hb4.append_right [e.endId]
    · rw [mget_mmod_ne _ _ _ _ hk]
      have hfe : ([e].filter (fun e2 => e2.startId == k)) = [] := by
        simp [Ne.symm hk]
      rw [hfe]
      simpa using b4 k

theorem dg_reu_effect (g : DG.DiGraph TN TE) (a b : Id)
    (hinv : DG.EdgeAdjInv g) (hpair : (a, b) ∈ g.edges.map DG.edgePair) :
    ∃ i ed g', DG.edge_index a b g.edges = some i ∧ g.edges[i]? = some ed ∧
      ed.startId = a ∧ ed.endId = b ∧ ed ∈ g.edges ∧
      DG.remove_edge_unregistered g i = some g' ∧
      g'.nodes = g.nodes ∧ g'.name = g.name ∧ g'.undo_history = g.undo_history ∧
      (g'.edges ++ [ed]).Perm g.edges ∧
      (∀ k, (mget k g'.neighbors_before).isSome = (mget k g.neighbors_before).isSome) ∧
      (∀ k, (mget k g'.neighbors_after).isSome = (mget k g.neighbors_after).isSome) ∧
      DG.EdgeAdjInv g' := by
  obtain ⟨b1, b2, b3, b4⟩ := hinv
  rcases hidx : DG.edge_index a b g.edges with _ | i
  · rw [DG.edge_index_eq_none_iffD] at hidx
    exact absurd hpair hidx
  obtain ⟨ed, hgi, hsa, hsb⟩ := DG.edge_index_specD a b g.edges i hidx
  have hedm : ed ∈ g.edges := by
    obtain ⟨hlt, hgt⟩ := List.getElem?_eq_some.mp hgi
    exact hgt ▸ List.getElem_mem hlt
  obtain ⟨lb, hlb⟩ := Option.isSome_iff_exists.mp (b2 ed hedm).2
  obtain ⟨la, hla⟩ := Option.isSome_iff_exists.mp (b2 ed hedm).1
  have hperm : (DG.swapRemove g.edges i ++ [ed]).Perm g.edges := by
    have h1 := swapRemove_perm g.edges i ed hgi
    have h2 := perm_cons_getElem g.edges i ed hgi
    exact ((h1.append_right [ed]).trans
      (List.perm_append_singleton ed _)).trans h2.symm
  have hpairs : ((DG.swapRemove g.edges i).map DG.edgePair ++
      [DG.edgePair ed]).Perm (g.edges.map DG.edgePair) := by
    have := hperm.map DG.edgePair
    simpa using this
  have hnd' : ((DG.swapRemove g.edges i).map DG.edgePair).Nodup :=
    List.Nodup.of_append_left ((hpairs.nodup_iff).mpr b1)
  have hmemsub : ∀ e' ∈ DG.swapRemove g.edges i, e' ∈ g.edges := by
    intro e' he'
    exact hperm.subset (List.mem_append.mpr (Or.inl he'))
  refine ⟨i, ed, { g with
      edges := DG.swapRemove g.edges i,
      neighbors_before :=
        mmod ed.endId (fun l => l.filter (fun x => x != ed.startId)) g.neighbors_before,
      neighbors_after :=
        mmod ed.startId (fun l => l.filter (fun x => x != ed.endId)) g.neighbors_after },
    rfl, hgi, hsa, hsb, hedm,
    by simp [DG.remove_edge_unregistered, hgi, hlb, hla], rfl, rfl, rfl, hperm,
    fun k => mget_isSome_mmod _ _ _ _, fun k => mget_isSome_mmod _ _ _ _,
    hnd', ?_, ?_, ?_⟩
  · intro e' he'
    exact ⟨(mget_isSome_mmod _ _ _ _).trans (b2 e' (hmemsub e' he')).1,
           (mget_isSome_mmod _ _ _ _).trans (b2 e' (hmemsub e' he')).2⟩
  · intro k
    show ((mget k (mmod ed.endId (fun l => l.filter (fun x => x != ed.startId))
        g.neighbors_before)).getD []).Perm
      (((DG.swapRemove g.edges i).filter (fun e2 => e2.endId == k)).map DG.Edge.startId)
    have hfperm : (((DG.swapRemove g.edges i).filter (fun e2 => e2.endId == k)).map
          DG.Edge.startId ++ ([ed].filter (fun e2 => e2.endId == k)).map
          DG.Edge.startId).Perm
        ((g.edges.filter (fun e2 => e2.endId == k)).map DG.Edge.startId) := by
      have := (hperm.filter (fun e2 => e2.endId == k)).map DG.Edge.startId
      simpa [List.filter_append] using this
    by_cases hk : k = ed.endId
    · subst hk
      rw [mget_mmod_self, hlb]
      simp only [Option.map_some', Option.getD_some]
      have hb3 := b3 ed.endId
      rw [hlb] at hb3
      simp only [Option.getD_some] at hb3
      have hfe : ([ed].filter (fun e2 => e2.endId == ed.endId)) = [ed] := by simp
      rw [hfe] at hfperm
      simp only [List.map_cons, List.map_nil] at hfperm
      have hMnd := dg_filter_end_map_nodup g.edges ed.endId b1
      have hres := perm_filter_ne_of_append hMnd hfperm
      exact (hb3.filter (fun x => x != ed.startId)).trans hres
    · rw [mget_mmod_ne _ _ _ _ hk]
      have hfe : ([ed].filter (fun e2 => e2.endId == k)) = [] := by
        simp [Ne.symm hk]
      rw [hfe] at hfperm
      simp only [List.map_nil, List.append_nil] at hfperm
      exact (b3 k).trans hfperm.symm
  · intro k
    show ((mget k (mmod ed.startId (fun l => l.filter (fun x => x != ed.endId))
        g.neighbors_after)).getD []).Perm
      (((DG.swapRemove g.edges i).filter (fun e2 => e2.startId == k)).map DG.Edge.endId)
    have hfperm : (((DG.swapRemove g.edges i).filter (fun e2 => e2.startId == k)).map
          DG.Edge.endId ++ ([ed].filter (fun e2 => e2.startId == k)).map
          DG.Edge.endId).Perm
        ((g.edges.filter (fun e2 => e2.startId == k)).map DG.Edge.endId) := by
      have := (hperm.filter (fun e2 => e2.startId == k)).map DG.Edge.endId
      simpa [List.filter_append] using this
    by_cases hk : k = ed.startId
    · subst hk
      rw [mget_mmod_self, hla]
      simp only [Option.map_some', Option.getD_some]
      have hb4 := b4 ed.startId
      rw [hla] at hb4
      simp only [Option.getD_some] at hb4
      have hfe : ([ed].filter (fun e2 => e2.startId == ed.startId)) = [ed] := by simp
      rw [hfe] at hfperm
      simp only [List.map_cons, List.map_nil] at hfperm
      have hMnd := dg_filter_start_map_nodup g.edges ed.startId b1
      have hres := perm_filter_ne_of_append hMnd hfperm
      exact (hb4.filter (fun x => x != ed.endId)).trans hres
    · rw [mget_mmod_ne _ _ _ _ hk]
      have hfe : ([ed].filter (fun e2 => e2.startId == k)) = [] := by
        simp [Ne.symm hk]
      rw [hfe] at hfperm
      simp only [List.map_nil, List.append_nil] at hfperm
      exact (b4 k).trans hfperm.symm

theorem dg_rpl_effect :
    ∀ (ps : List (Id × Id)) (g : DG.DiGraph TN TE), DG.EdgeAdjInv g → ps.Nodup →
      (∀ p ∈ ps, p ∈ g.edges.map DG.edgePair) →
      ∃ g' removed, DG.remove_pairs_loop ps g = some g' ∧
        g'.nodes = g.nodes ∧ g'.name = g.name ∧ g'.undo_history = g.undo_history ∧
        (g'.edges ++ removed).Perm g.edges ∧
        removed.map DG.edgePair = ps ∧
        (∀ e ∈ removed, e ∈ g.edges) ∧
        (∀ k, (mget k g'.neighbors_before).isSome =
          (mget k g.neighbors_before).isSome) ∧
        (∀ k, (mget k g'.neighbors_after).isSome =
          (mget k g.neighbors_after).isSome) ∧
        DG.EdgeAdjInv g' := by
  intro ps
  induction ps with
  | nil =>
    intro g hinv _ _
    exact ⟨g, [], rfl, rfl, rfl, rfl, by simp, rfl, by simp, fun k => rfl,
      fun k => rfl, hinv⟩
  | cons p rest ih =>
    intro g hinv hnd hmem
    obtain ⟨s, t⟩ := p
    obtain ⟨i, ed, g1, hidx, hgi, hsa, hsb, hedm, hreu, hn1, hm1, hu1, hperm1,
      hb1, ha1, hinv1⟩ := dg_reu_effect g s t hinv (hmem (s, t) (by simp))
    simp only [List.nodup_cons] at hnd
    have hpairperm : ((g1.edges.map DG.edgePair) ++ [(s, t)]).Perm
        (g.edges.map DG.edgePair) := by
      have := hperm1.map DG.edgePair
      simpa [DG.edgePair, hsa, hsb] using this
    have hrest : ∀ p2 ∈ rest, p2 ∈ g1.edges.map DG.edgePair := by
      intro p2 hp2
      have hne : p2 ≠ (s, t) := fun hx => hnd.1 (hx ▸ hp2)
      have : p2 ∈ (g1.edges.map DG.edgePair) ++ [(s, t)] :=
        hpairperm.mem_iff.mpr (hmem p2 (by simp [hp2]))
      rcases List.mem_append.mp this with h1 | h1
      · exact h1
      · simp only [List.mem_singleton] at h1
        exact absurd h1 hne
    obtain ⟨g2, removed2, hloop, hn2, hm2, hu2, hperm2, hpair2, hmem2, hb2, ha2,
      hinv2⟩ := ih g1 hinv1 hnd.2 hrest
    refine ⟨g2, ed :: removed2, ?_, hn2.trans hn1, hm2.trans hm1, hu2.trans hu1,
      ?_, ?_, ?_, fun k => (hb2 k).trans (hb1 k), fun k => (ha2 k).trans (ha1 k),
      hinv2⟩
    · simp only [DG.remove_pairs_loop, hidx, hreu]
      exact hloop
    · have hstep1 : (g2.edges ++ (ed :: removed2)).Perm
          (g2.edges ++ (removed2 ++ [ed])) :=
        List.Perm.append_left g2.edges (List.perm_append_singleton ed removed2).symm
      have hassoc2 : g2.edges ++ (removed2 ++ [ed]) = (g2.edges ++ removed2) ++ [ed] := by
        simp
      refine hstep1.trans ?_
      rw [hassoc2]
      exact (hperm2.append_right [ed]).trans hperm1
    · simp only [List.map_cons, hpair2, DG.edgePair, hsa, hsb]
    · intro e he
      rcases List.mem_cons.mp he with h1 | h1
      · exact h1 ▸ hedm
      · have := hmem2 e h1
        exact hperm1.subset (List.mem_append.mpr (Or.inl this))

theorem dg_iel_effect :
    ∀ (es : List (DG.Edge TE)) (g : DG.DiGraph TN TE), DG.EdgeAdjInv g →
      (∀ e ∈ es, (mget e.startId g.neighbors_after).isSome = true ∧
          (mget e.endId g.neighbors_before).isSome = true) →
      ((g.edges ++ es).map DG.edgePair).Nodup →
      ∃ g', DG.insert_edges_loop es g = some g' ∧
        g'.nodes = g.nodes ∧ g'.name = g.name ∧ g'.undo_history = g.undo_history ∧
        g'.edges = g.edges ++ es ∧
        (∀ k, (mget k g'.neighbors_before).isSome =
          (mget k g.neighbors_before).isSome) ∧
        (∀ k, (mget k g'.neighbors_after).isSome =
          (mget k g.neighbors_after).isSome) ∧
        DG.EdgeAdjInv g' := by
  intro es
  induction es with
  | nil =>
    intro g hinv _ _
    exact ⟨g, rfl, rfl, rfl, rfl, by simp, fun k => rfl, fun k => rfl, hinv⟩
  | cons e rest ih =>
    intro g hinv hsome hnd
    have hassoc : g.edges ++ e :: rest = (g.edges ++ [e]) ++ rest := by simp
    rw [hassoc] at hnd
    have hnd1 : ((g.edges ++ [e]).map DG.edgePair).Nodup :=
      List.Nodup.of_append_left (by rwa [← List.map_append])
    have hfresh : DG.edgePair e ∉ g.edges.map DG.edgePair := by
      rw [List.map_append, List.nodup_append] at hnd1
      intro hx
      exact hnd1.2.2 hx (by simp)
    obtain ⟨g1, hieu, hn1, hm1, hu1, he1, hb1, ha1, hinv1⟩ :=
      dg_ieu_effect g e hinv (hsome e (by simp)).1 (hsome e (by simp)).2 hfresh
    obtain ⟨g2, hloop, hn2, hm2, hu2, he2, hb2, ha2, hinv2⟩ := ih g1 hinv1
      (fun e2 he2 => ⟨by rw [ha1]; exact (hsome e2 (by simp [he2])).1,
                      by rw [hb1]; exact (hsome e2 (by simp [he2])).2⟩)
      (by rw [he1, ← hassoc]; exact (by rwa [hassoc]))
    refine ⟨g2, ?_, hn2.trans hn1, hm2.trans hm1, hu2.trans hu1, ?_,
      fun k => (hb2 k).trans (hb1 k), fun k => (ha2 k).trans (ha1 k), hinv2⟩
    · simp only [DG.insert_edges_loop, hieu]
      exact hloop
    · rw [he2, he1]
      simp

theorem dg_obsEq_of (g g2 : DG.DiGraph TN TE) (hwf : DG.WF g)
    (hinv2 : DG.EdgeAdjInv g2)
    (hnodes : ∀ k, mget k g2.nodes = mget k g.nodes)
    (hedges : g2.edges.Perm g.edges) : DG.ObsEq g g2 := by
  have hinv := dg_wf_edgeAdjInv g hwf
  refine ⟨hnodes, hedges, ?_, ?_, ?_, ?_⟩
  · intro k
    exact (hinv2.2.2.1 k).trans
      (((hedges.filter _).map _).trans (hinv.2.2.1 k).symm)
  · intro k
    exact (hinv2.2.2.2 k).trans
      (((hedges.filter _).map _).trans (hinv.2.2.2 k).symm)
  · intro k
    simp [DG.in_degree, hnodes k, (hedges.filter (fun e => e.endId == k)).length_eq]
  · intro k
    simp [DG.out_degree, hnodes k, (hedges.filter (fun e => e.startId == k)).length_eq]

theorem dg_undo_pop (g : DG.DiGraph TN TE) (ch : DG.GraphChange TN TE)
    (pre : List (DG.GraphChange TN TE)) (cap : Nat)
    (h : g.undo_history = ⟨pre ++ [ch], cap⟩) :
    DG.undo g = DG.undoArm ch { g with undo_history := ⟨pre, cap⟩ } := by
  simp only [DG.undo, DG.pop_change, DG.HistoryDeque.pop_back, h,
             List.getLast?_concat, List.dropLast_concat]

theorem dg_wf_adj_of_node (g : DG.DiGraph TN TE) (hwf : DG.WF g) (q : Id)
    (hq : (mget q g.nodes).isSome = true) :
    (mget q g.neighbors_before).isSome = true ∧
    (mget q g.neighbors_after).isSome = true := by
  obtain ⟨w1, w2, w3, w4, w5, w6, w7, w8, w9⟩ := hwf
  obtain ⟨v, hv⟩ := Option.isSome_iff_exists.mp hq
  have hmem : (q, v) ∈ g.nodes :=
    (mem_iff_mget g.nodes (q, v) (by simpa [DG.all_node_ids] using w1)).mpr hv
  exact w5 (q, v) hmem

theorem nodup_all_eq_singleton {α : Type} {l : List α} {e : α} (hnd : l.Nodup)
    (hall : ∀ x ∈ l, x = e) (hmem : e ∈ l) : l = [e] := by
  cases l with
  | nil => cases hmem
  | cons a t =>
    have ha := hall a (by simp)
    subst ha
    cases t with
    | nil => rfl
    | cons b u =>
      have hb := hall b (by simp)
      subst hb
      rw [List.nodup_cons] at hnd
      exact absurd (List.mem_cons_self _ _) hnd.1

theorem perm_append_cancel {α : Type} {l1 l2 t1 t2 : List α}
    (h : (l1 ++ t1).Perm (l2 ++ t2)) (ht : t1.Perm t2) : l1.Perm l2 := by
  have h1 := Multiset.coe_eq_coe.mpr h
  have ht1 := Multiset.coe_eq_coe.mpr ht
  rw [← Multiset.coe_eq_coe]
  simp only [← Multiset.coe_add] at h1
  rw [ht1] at h1
  exact add_right_cancel h1

theorem dg_undoArm_AddNode (gp : DG.DiGraph TN TE) (n : DG.Node TN)
    (nd : DG.Node TN)
    (hb : mget n.id gp.neighbors_before = some [])
    (ha : mget n.id gp.neighbors_after = some [])
    (hn : mget n.id gp.nodes = some nd) :
    DG.undoArm (.AddNode n) gp = .ok { gp with nodes := mdel n.id gp.nodes } := by
  simp [DG.undoArm, DG.remove_node_unregistered, hb, ha, hn, DG.remove_pairs_loop]

theorem dg_rnu_effect (g : DG.DiGraph TN TE) (id : Id) (nd : DG.Node TN)
    (hinv : DG.EdgeAdjInv g)
    (hb : (mget id g.neighbors_before).isSome = true)
    (ha : (mget id g.neighbors_after).isSome = true)
    (hn : mget id g.nodes = some nd) :
    ∃ g' removed, DG.remove_node_unregistered g id = some (nd, g') ∧
      g'.nodes = mdel id g.nodes ∧ g'.name = g.name ∧
      g'.undo_history = g.undo_history ∧
      (g'.edges ++ removed).Perm g.edges ∧
      (∀ e ∈ removed, (e.startId = id ∨ e.endId = id) ∧ e ∈ g.edges) ∧
      (∀ e ∈ g'.edges, e.startId ≠ id ∧ e.endId ≠ id) ∧
      (∀ k, (mget k g'.neighbors_before).isSome =
        (mget k g.neighbors_before).isSome) ∧
      (∀ k, (mget k g'.neighbors_after).isSome =
        (mget k g.neighbors_after).isSome) ∧
      DG.EdgeAdjInv g' := by
  obtain ⟨lb, hlb⟩ := Option.isSome_iff_exists.mp hb
  have hviewb := hinv.2.2.1 id
  rw [hlb] at hviewb
  simp only [Option.getD_some] at hviewb
  have hMbnd := dg_filter_end_map_nodup g.edges id hinv.1
  have hlbnd : lb.Nodup := hviewb.nodup_iff.mpr hMbnd
  have hpsnd : (lb.map fun x => (x, id)).Nodup :=
    hlbnd.map (fun x y hxy => by simpa using congrArg Prod.fst hxy)
  have hpsmem : ∀ p ∈ lb.map (fun x => (x, id)), p ∈ g.edges.map DG.edgePair := by
    intro p hp
    obtain ⟨x, hx, hpx⟩ := List.mem_map.mp hp
    have hxM : x ∈ (g.edges.filter (fun e => e.endId == id)).map DG.Edge.startId :=
      hviewb.subset hx
    obtain ⟨e0, he0, hpe⟩ := List.mem_map.mp hxM
    rw [List.mem_filter] at he0
    have hpp : DG.edgePair e0 = p := by
      simp only [DG.edgePair, ← hpx, Prod.mk.injEq]
      exact ⟨hpe, by simpa using he0.2⟩
    exact hpp ▸ List.mem_map_of_mem DG.edgePair he0.1
  obtain ⟨g1, removed1, hloop1, hn1, hm1, hu1, hperm1, hpair1, hmem1, hb1, ha1,
    hinv1⟩ := dg_rpl_effect (lb.map fun x => (x, id)) g hinv hpsnd hpsmem
  have hrem1end : ∀ e ∈ removed1, e.endId = id := by
    intro e he
    have hpm : DG.edgePair e ∈ lb.map (fun x => (x, id)) := by
      rw [← hpair1]
      exact List.mem_map_of_mem DG.edgePair he
    obtain ⟨x, hx, hpx⟩ := List.mem_map.mp hpm
    simpa [DG.edgePair] using (congrArg Prod.snd hpx).symm
  have hlen1 : g1.edges.filter (fun e => e.endId == id) = [] := by
    have hfp := hperm1.filter (fun e => e.endId == id)
    rw [List.filter_append] at hfp
    have hre : removed1.filter (fun e => e.endId == id) = removed1 :=
      List.filter_eq_self.mpr (fun e he => by simpa using hrem1end e he)
    rw [hre] at hfp
    have hlenlb : removed1.length = lb.length := by
      have := congrArg List.length hpair1
      simpa using this
    have hlenM : lb.length = (g.edges.filter (fun e => e.endId == id)).length := by
      simpa using hviewb.length_eq
    have hlen := hfp.length_eq
    rw [List.length_append] at hlen
    exact List.eq_nil_of_length_eq_zero (by omega)
  obtain ⟨la, hla⟩ := Option.isSome_iff_exists.mp ((ha1 id).trans ha)
  have hviewa := hinv1.2.2.2 id
  rw [hla] at hviewa
  simp only [Option.getD_some] at hviewa
  have hMand := dg_filter_start_map_nodup g1.edges id hinv1.1
  have hland : la.Nodup := hviewa.nodup_iff.mpr hMand
  have hpsnd2 : (la.map fun x => (id, x)).Nodup :=
    hland.map (fun x y hxy => by simpa using congrArg Prod.snd hxy)
  have hpsmem2 : ∀ p ∈ la.map (fun x => (id, x)), p ∈ g1.edges.map DG.edgePair := by
    intro p hp
    obtain ⟨x, hx, hpx⟩ := List.mem_map.mp hp
    have hxM : x ∈ (g1.edges.filter (fun e => e.startId == id)).map DG.Edge.endId :=
      hviewa.subset hx
    obtain ⟨e0, he0, hpe⟩ := List.mem_map.mp hxM
    rw [List.mem_filter] at he0
    have hpp : DG.edgePair e0 = p := by
      simp only [DG.edgePair, ← hpx, Prod.mk.injEq]
      exact ⟨by simpa using he0.2, hpe⟩
    exact hpp ▸ List.mem_map_of_mem DG.edgePair he0.1
  obtain ⟨g2, removed2, hloop2, hn2, hm2, hu2, hperm2, hpair2, hmem2, hb2, ha2,
    hinv2⟩ := dg_rpl_effect (la.map fun x => (id, x)) g1 hinv1 hpsnd2 hpsmem2
  have hrem2start : ∀ e ∈ removed2, e.startId = id := by
    intro e he
    have hpm : DG.edgePair e ∈ la.map (fun x => (id, x)) := by
      rw [← hpair2]
      exact List.mem_map_of_mem DG.edgePair he
    obtain ⟨x, hx, hpx⟩ := List.mem_map.mp hpm
    simpa [DG.edgePair] using (congrArg Prod.fst hpx).symm
  have hlen2 : g2.edges.filter (fun e => e.startId == id) = [] := by
    have hfp := hperm2.filter (fun e => e.startId == id)
    rw [List.filter_append] at hfp
    have hre : removed2.filter (fun e => e.startId == id) = removed2 :=
      List.filter_eq_self.mpr (fun e he => by simpa using hrem2start e he)
    rw [hre] at hfp
    have hlenla : removed2.length = la.length := by
      have := congrArg List.length hpair2
      simpa using this
    have hlenM : la.length = (g1.edges.filter (fun e => e.startId == id)).length := by
      simpa using hviewa.length_eq
    have hlen := hfp.length_eq
    rw [List.length_append] at hlen
    exact List.eq_nil_of_length_eq_zero (by omega)
  have hlen2e : g2.edges.filter (fun e => e.endId == id) = [] := by
    have hfp := hperm2.filter (fun e => e.endId == id)
    rw [List.filter_append, hlen1] at hfp
    have hlen := hfp.length_eq
    rw [List.length_append] at hlen
    simp only [List.length_nil] at hlen
    exact List.eq_nil_of_length_eq_zero (by omega)
  have hng : mget id g2.nodes = some nd := by rw [hn2, hn1, hn]
  refine ⟨{ g2 with nodes := mdel id g2.nodes }, removed2 ++ removed1, ?_,
    by rw [hn2, hn1], hm2.trans hm1, hu2.trans hu1, ?_, ?_, ?_,
    fun k => (hb2 k).trans (hb1 k), fun k => (ha2 k).trans (ha1 k), hinv2⟩
  · simp [DG.remove_node_unregistered, hlb, hloop1, hla, hloop2, hng]
  · show (g2.edges ++ (removed2 ++ removed1)).Perm g.edges
    have hassoc : g2.edges ++ (removed2 ++ removed1) =
        (g2.edges ++ removed2) ++ removed1 := by simp
    rw [hassoc]
    exact (hperm2.append_right removed1).trans hperm1
  · intro e he
    rcases List.mem_append.mp he with h2 | h1
    · refine ⟨Or.inl (hrem2start e h2), ?_⟩
      have := hmem2 e h2
      exact hperm1.subset (List.mem_append.mpr (Or.inl this))
    · exact ⟨Or.inr (hrem1end e h1), hmem1 e h1⟩
  · intro e he
    constructor
    · intro hx
      have hmem : e ∈ g2.edges.filter (fun e2 => e2.startId == id) :=
        List.mem_filter.mpr ⟨he, by simpa using hx⟩
      rw [hlen2] at hmem
      cases hmem
    · intro hx
      have hmem : e ∈ g2.edges.filter (fun e2 => e2.endId == id) :=
        List.mem_filter.mpr ⟨he, by simpa using hx⟩
      rw [hlen2e] at hmem
      cases hmem

theorem dg_inv_transfer (g h : DG.DiGraph TN TE)
    (he : h.edges = g.edges) (hb : h.neighbors_before = g.neighbors_before)
    (ha : h.neighbors_after = g.neighbors_after) (hinv : DG.EdgeAdjInv g) :
    DG.EdgeAdjInv h := by
  unfold DG.EdgeAdjInv at hinv ⊢
  rw [he, hb, ha]
  exact hinv

theorem mget_isSome_of_key_mem {β : Type} (m : List (Id × β)) (q : Id)
    (hnd : (m.map Prod.fst).Nodup) (hq : q ∈ m.map Prod.fst) :
    (mget q m).isSome = true := by
  obtain ⟨p, hp, hpk⟩ := List.mem_map.mp hq
  have hg := (mem_iff_mget m p hnd).mp hp
  rw [hpk] at hg
  rw [hg]
  rfl

theorem dg_wf_fresh_edges (g : DG.DiGraph TN TE) (hwf : DG.WF g) (q : Id)
    (hq : mget q g.nodes = none) :
    ∀ e ∈ g.edges, e.startId ≠ q ∧ e.endId ≠ q := by
  obtain ⟨w1, w2, w3, w4, w5, w6, w7, w8, w9⟩ := hwf
  intro e he
  constructor
  · intro hx
    have hs := (w7 e he).1
    rw [hx] at hs
    have hno := mget_isSome_of_key_mem g.nodes q
      (by simpa [DG.all_node_ids] using w1) (by simpa [DG.all_node_ids] using hs)
    rw [hq] at hno
    cases hno
  · intro hx
    have hs := (w7 e he).2
    rw [hx] at hs
    have hno := mget_isSome_of_key_mem g.nodes q
      (by simpa [DG.all_node_ids] using w1) (by simpa [DG.all_node_ids] using hs)
    rw [hq] at hno
    cases hno

theorem dg_rnu_single_effect (g0 : DG.DiGraph TN TE) (q : Id) (nd : DG.Node TN)
    (e : DG.Edge TE) (hinv : DG.EdgeAdjInv g0)
    (hb : (mget q g0.neighbors_before).isSome = true)
    (ha : (mget q g0.neighbors_after).isSome = true)
    (hn : mget q g0.nodes = some nd)
    (hchar : ∀ x ∈ g0.edges, x.startId = q ∨ x.endId = q → x = e)
    (hemem : e ∈ g0.edges) (hinc : e.startId = q ∨ e.endId = q) :
    ∃ g', DG.remove_node_unregistered g0 q = some (nd, g') ∧
      g'.nodes = mdel q g0.nodes ∧ g'.name = g0.name ∧
      g'.undo_history = g0.undo_history ∧
      (g'.edges ++ [e]).Perm g0.edges ∧
      (∀ k, (mget k g'.neighbors_before).isSome =
        (mget k g0.neighbors_before).isSome) ∧
      (∀ k, (mget k g'.neighbors_after).isSome =
        (mget k g0.neighbors_after).isSome) ∧
      DG.EdgeAdjInv g' := by
  obtain ⟨g', removed, hrnu, hnP, hmP, huP, hpermP, hincP, hnoP, hbP, haP,
    hinvP⟩ := dg_rnu_effect g0 q nd hinv hb ha hn
  have hndedges : g0.edges.Nodup := hinv.1.of_map
  have hremnd : removed.Nodup :=
    (hpermP.nodup_iff.mpr hndedges).of_append_right
  have hall : ∀ x ∈ removed, x = e := by
    intro x hx
    exact hchar x (hincP x hx).2 (hincP x hx).1
  have hememR : e ∈ removed := by
    have hein : e ∈ g'.edges ++ removed := hpermP.mem_iff.mpr hemem
    rcases List.mem_append.mp hein with h1 | h1
    · rcases hinc with h2 | h2
      · exact absurd h2 (hnoP e h1).1
      · exact absurd h2 (hnoP e h1).2
    · exact h1
  have hreme : removed = [e] := nodup_all_eq_singleton hremnd hall hememR
  rw [hreme] at hpermP
  exact ⟨g', hrnu, hnP, hmP, huP, hpermP, hbP, haP, hinvP⟩

theorem dg_rnu_empty_effect (g0 : DG.DiGraph TN TE) (q : Id) (nd : DG.Node TN)
    (hinv : DG.EdgeAdjInv g0)
    (hb : (mget q g0.neighbors_before).isSome = true)
    (ha : (mget q g0.neighbors_after).isSome = true)
    (hn : mget q g0.nodes = some nd)
    (hchar : ∀ x ∈ g0.edges, x.startId ≠ q ∧ x.endId ≠ q) :
    ∃ g', DG.remove_node_unregistered g0 q = some (nd, g') ∧
      g'.nodes = mdel q g0.nodes ∧ g'.name = g0.name ∧
      g'.undo_history = g0.undo_history ∧
      g'.edges.Perm g0.edges ∧
      (∀ k, (mget k g'.neighbors_before).isSome =
        (mget k g0.neighbors_before).isSome) ∧
      (∀ k, (mget k g'.neighbors_after).isSome =
        (mget k g0.neighbors_after).isSome) ∧
      DG.EdgeAdjInv g' := by
  obtain ⟨g', removed, hrnu, hnP, hmP, huP, hpermP, hincP, hnoP, hbP, haP,
    hinvP⟩ := dg_rnu_effect g0 q nd hinv hb ha hn
  have hreme : removed = [] := by
    rw [List.eq_nil_iff_forall_not_mem]
    intro x hx
    rcases (hincP x hx).1 with h1 | h1
    · exact (hchar x (hincP x hx).2).1 h1
    · exact (hchar x (hincP x hx).2).2 h1
  rw [hreme, List.append_nil] at hpermP
  exact ⟨g', hrnu, hnP, hmP, huP, hpermP, hbP, haP, hinvP⟩

end C1Prims

section C1Ops

variable {TN TE : Type}

theorem dg_rt_insert_node (g : DG.DiGraph TN TE) (n : DG.Node TN)
    (g' : DG.DiGraph TN TE) (hwf : DG.WF g) (hcap : 0 < g.undo_history.cap)
    (hok : DG.insert_node g n = .ok g') :
    ∃ g2, DG.undo g' = .ok g2 ∧ DG.ObsEq g g2 := by
  have hwf2 := hwf
  obtain ⟨w1, w2, w3, w4, w5, w6, w7, w8, w9⟩ := hwf2
  simp only [DG.insert_node, DG.check_add_node] at hok
  cases hp : DG.node_id_present g.nodes n.id <;>
    simp [hp, DG.GraphChange.try_get_node] at hok
  subst hok
  have hfreshN : mget n.id g.nodes = none := by
    rcases hm : mget n.id g.nodes with _ | v
    · rfl
    · simp [DG.node_id_present, hm] at hp
  have hfreshE : ∀ e ∈ g.edges, e.startId ≠ n.id ∧ e.endId ≠ n.id := by
    intro e he
    constructor
    · intro hx
      have hs := (w7 e he).1
      rw [hx] at hs
      have hno := mget_isSome_of_key_mem g.nodes n.id
        (by simpa [DG.all_node_ids] using w1) (by simpa [DG.all_node_ids] using hs)
      rw [hfreshN] at hno
      cases hno
    · intro hx
      have hs := (w7 e he).2
      rw [hx] at hs
      have hno := mget_isSome_of_key_mem g.nodes n.id
        (by simpa [DG.all_node_ids] using w1) (by simpa [DG.all_node_ids] using hs)
      rw [hfreshN] at hno
      cases hno
  obtain ⟨pre, hpre⟩ := dg_push_back_shape g.undo_history (.AddNode n) hcap
  have huh : (DG.insert_node_unregistered
      (DG.register_change g (.AddNode n)) n).undo_history =
      ⟨pre ++ [.AddNode n], g.undo_history.cap⟩ := hpre
  rw [dg_undo_pop _ (.AddNode n) pre g.undo_history.cap huh]
  rw [dg_undoArm_AddNode ({ DG.insert_node_unregistered
      (DG.register_change g (.AddNode n)) n with
      undo_history := ⟨pre, g.undo_history.cap⟩ }) n n
    (mget_mput_self n.id [] g.neighbors_before)
    (mget_mput_self n.id [] g.neighbors_after)
    (mget_mput_self n.id n g.nodes)]
  refine ⟨_, rfl, ?_⟩
  refine dg_obsEq_of g _ hwf ?_ ?_ ?_
  · refine dg_inv_transfer (DG.insert_node_unregistered
      (DG.register_change g (.AddNode n)) n) _ rfl rfl rfl ?_
    exact (dg_inu_effect (DG.register_change g (.AddNode n)) n
      (dg_wf_edgeAdjInv g hwf) hfreshE).2.2.2.2.2.2.2.2
  · intro k
    show mget k (mdel n.id (mput n.id n g.nodes)) = mget k g.nodes
    by_cases hk : k = n.id
    · subst hk
      rw [mget_mdel_self, hfreshN]
    · rw [mget_mdel_ne _ _ _ hk, mget_mput_ne _ _ _ _ hk]
  · exact List.Perm.refl g.edges

theorem dg_rt_insert_edge (g : DG.DiGraph TN TE) (e : DG.Edge TE)
    (g' : DG.DiGraph TN TE) (hwf : DG.WF g) (hcap : 0 < g.undo_history.cap)
    (hok : DG.insert_edge g e = .ok g') :
    ∃ g2, DG.undo g' = .ok g2 ∧ DG.ObsEq g g2 := by
  have hinv := dg_wf_edgeAdjInv g hwf
  simp only [DG.insert_edge, DG.check_add_edge] at hok
  rcases hei : DG.edge_index e.startId e.endId g.edges with _ | i <;>
    simp only [hei, DG.GraphChange.try_get_edge] at hok
  case some => cases hok
  case none =>
  cases hp : (DG.node_id_present g.nodes e.startId &&
      DG.node_id_present g.nodes e.endId) <;>
    simp [hp, DG.GraphChange.try_get_edge] at hok
  have hp2 := hp
  simp only [Bool.and_eq_true] at hp2
  have hps : (mget e.startId g.nodes).isSome = true := by
    simpa [DG.node_id_present] using hp2.1
  have hpt : (mget e.endId g.nodes).isSome = true := by
    simpa [DG.node_id_present] using hp2.2
  have hadjs := dg_wf_adj_of_node g hwf e.startId hps
  have hadjt := dg_wf_adj_of_node g hwf e.endId hpt
  have hfresh : DG.edgePair e ∉ g.edges.map DG.edgePair := by
    rw [DG.edge_index_eq_none_iffD] at hei
    simpa [DG.edgePair] using hei
  obtain ⟨gIns, hieu, hn1, hm1, hu1, he1, hb1, ha1, hinv1⟩ :=
    dg_ieu_effect (DG.register_change g (.AddEdge e)) e hinv hadjs.2 hadjt.1 hfresh
  simp only [hieu, Res.ok.injEq] at hok
  subst hok
  obtain ⟨pre, hpre⟩ := dg_push_back_shape g.undo_history (.AddEdge e) hcap
  have huh : gIns.undo_history = ⟨pre ++ [.AddEdge e], g.undo_history.cap⟩ := by
    rw [hu1]; exact hpre
  rw [dg_undo_pop gIns (.AddEdge e) pre g.undo_history.cap huh]
  have hpair : (e.startId, e.endId) ∈ gIns.edges.map DG.edgePair := by
    rw [he1]
    simp [DG.edgePair]
  obtain ⟨i2, ed2, gFin, hidx2, hgi2, hsa2, hsb2, hedm2, hreu2, hn2, hm2, hu2,
    hperm2, hb2, ha2, hinv2⟩ :=
    dg_reu_effect ({ gIns with undo_history := ⟨pre, g.undo_history.cap⟩ })
      e.startId e.endId (dg_inv_transfer gIns _ rfl rfl rfl hinv1) hpair
  simp only [DG.undoArm, hidx2, hreu2]
  refine ⟨gFin, rfl, ?_⟩
  have hedm2g : ed2 ∈ gIns.edges := hedm2
  have hemem : e ∈ gIns.edges := by rw [he1]; simp
  have hed : ed2 = e :=
    dg_pair_unique hinv1.1 hedm2g hemem (by simp [DG.edgePair, hsa2, hsb2])
  refine dg_obsEq_of g gFin hwf hinv2 ?_ ?_
  · intro k
    rw [hn2]
    show mget k gIns.nodes = mget k g.nodes
    rw [hn1]
    rfl
  · have h1 : (gFin.edges ++ [ed2]).Perm gIns.edges := hperm2
    rw [hed, he1] at h1
    exact perm_append_cancel h1 (List.Perm.refl [e])

theorem dg_rt_remove_edge (g : DG.DiGraph TN TE) (a b : Id)
    (g' : DG.DiGraph TN TE) (hwf : DG.WF g) (hcap : 0 < g.undo_history.cap)
    (hok : DG.remove_edge g a b = .ok g') :
    ∃ g2, DG.undo g' = .ok g2 ∧ DG.ObsEq g g2 := by
  have hinv := dg_wf_edgeAdjInv g hwf
  simp only [DG.remove_edge, DG.check_remove_edge] at hok
  rcases hei : DG.edge_index a b g.edges with _ | i <;> simp only [hei] at hok
  · simp only [DG.GraphChange.try_get_edge] at hok
    cases hok
  obtain ⟨ed, hgi, hsa, hsb⟩ := DG.edge_index_specD a b g.edges i hei
  rw [hgi] at hok
  simp only [DG.GraphChange.try_get_edge] at hok
  have hedm : ed ∈ g.edges := by
    obtain ⟨hlt, hgt⟩ := List.getElem?_eq_some.mp hgi
    exact hgt ▸ List.getElem_mem hlt
  have hpair : (a, b) ∈ g.edges.map DG.edgePair := by
    have hpe : DG.edgePair ed = (a, b) := by simp [DG.edgePair, hsa, hsb]
    exact hpe ▸ List.mem_map_of_mem DG.edgePair hedm
  obtain ⟨i2, ed2, gPost, hidx2, hgi2, hsa2, hsb2, hedm2, hreu2, hn2, hm2, hu2,
    hperm2, hb2, ha2, hinv2⟩ :=
    dg_reu_effect (DG.register_change g (.RemoveEdge ed)) a b hinv hpair
  simp only [hidx2, hreu2, Res.ok.injEq] at hok
  subst hok
  obtain ⟨pre, hpre⟩ := dg_push_back_shape g.undo_history (.RemoveEdge ed) hcap
  have huh : gPost.undo_history = ⟨pre ++ [.RemoveEdge ed], g.undo_history.cap⟩ := by
    rw [hu2]; exact hpre
  rw [dg_undo_pop gPost (.RemoveEdge ed) pre g.undo_history.cap huh]
  have hpairperm : ((gPost.edges.map DG.edgePair) ++ [DG.edgePair ed2]).Perm
      (g.edges.map DG.edgePair) := by
    have hmm := hperm2.map DG.edgePair
    simpa using hmm
  have hnd2 := hpairperm.nodup_iff.mpr hinv.1
  rw [List.nodup_append] at hnd2
  have hfresh : DG.edgePair ed ∉ gPost.edges.map DG.edgePair := by
    have hpe : DG.edgePair ed = DG.edgePair ed2 := by
      simp [DG.edgePair, hsa, hsb, hsa2, hsb2]
    rw [hpe]
    intro hx
    exact hnd2.2.2 hx (by simp)
  have hsA : (mget ed.startId gPost.neighbors_after).isSome = true :=
    (ha2 ed.startId).trans (hinv.2.1 ed hedm).1
  have hsB : (mget ed.endId gPost.neighbors_before).isSome = true :=
    (hb2 ed.endId).trans (hinv.2.1 ed hedm).2
  obtain ⟨gFin, hieu, hnF, hmF, huF, heF, hbF, haF, hinvF⟩ :=
    dg_ieu_effect ({ gPost with undo_history := ⟨pre, g.undo_history.cap⟩ }) ed
      (dg_inv_transfer gPost _ rfl rfl rfl hinv2) hsA hsB hfresh
  simp only [DG.undoArm, hieu]
  refine ⟨gFin, rfl, ?_⟩
  refine dg_obsEq_of g gFin hwf hinvF ?_ ?_
  · intro k
    rw [hnF]
    show mget k gPost.nodes = mget k g.nodes
    rw [hn2]
    rfl
  · rw [heF]
    show (gPost.edges ++ [ed]).Perm g.edges
    have hed : ed = ed2 := dg_pair_unique hinv.1 hedm hedm2
      (by simp [DG.edgePair, hsa, hsb, hsa2, hsb2])
    rw [hed]
    exact hperm2

theorem dg_rt_remove_node (g : DG.DiGraph TN TE) (id : Id)
    (g' : DG.DiGraph TN TE) (hwf : DG.WF g) (hcap : 0 < g.undo_history.cap)
    (hok : DG.remove_node g id = .ok g') :
    ∃ g2, DG.undo g' = .ok g2 ∧ DG.ObsEq g g2 := by
  have hwf2 := hwf
  obtain ⟨w1, w2, w3, w4, w5, w6, w7, w8, w9⟩ := hwf2
  have hinv := dg_wf_edgeAdjInv g hwf
  simp only [DG.remove_node, DG.check_remove_node] at hok
  rcases hm : mget id g.nodes with _ | nd <;>
    simp only [hm, DG.GraphChange.try_get_node] at hok
  · cases hok
  have hadj := dg_wf_adj_of_node g hwf id (by rw [hm]; rfl)
  obtain ⟨gPost, removed, hrnu, hnP, hmP, huP, hpermP, hincP, hnoP, hbP, haP,
    hinvP⟩ := dg_rnu_effect (DG.register_change g (.RemoveNode nd
      (g.edges.filter (fun e => e.startId == id || e.endId == id)))) id nd
      hinv hadj.1 hadj.2 hm
  simp only [hrnu, Res.ok.injEq] at hok
  subst hok
  obtain ⟨pre, hpre⟩ := dg_push_back_shape g.undo_history
    (.RemoveNode nd (g.edges.filter (fun e => e.startId == id || e.endId == id)))
    hcap
  have huh : gPost.undo_history = ⟨pre ++ [(.RemoveNode nd (g.edges.filter
      (fun e => e.startId == id || e.endId == id)) : DG.GraphChange TN TE)],
      g.undo_history.cap⟩ := by
    rw [huP]; exact hpre
  rw [dg_undo_pop gPost _ pre g.undo_history.cap huh]
  have hmemnd : (id, nd) ∈ g.nodes :=
    (mem_iff_mget g.nodes (id, nd) (by simpa [DG.all_node_ids] using w1)).mpr hm
  have hndid : nd.id = id := w2 (id, nd) hmemnd
  have hfreshP : ∀ e ∈ gPost.edges, e.startId ≠ nd.id ∧ e.endId ≠ nd.id := by
    rw [hndid]; exact hnoP
  obtain ⟨hiE, hiM, hiU, hiN, hiB, hiA, hiBm, hiAm, hiInv⟩ :=
    dg_inu_effect ({ gPost with undo_history := ⟨pre, g.undo_history.cap⟩ }) nd
      (dg_inv_transfer gPost _ rfl rfl rfl hinvP) hfreshP
  have hnodup : g.edges.Nodup := w6.of_map
  have happendnd : (gPost.edges ++ removed).Nodup := hpermP.nodup_iff.mpr hnodup
  have hPostnd : gPost.edges.Nodup := happendnd.of_append_left
  have hPostsub : ∀ e ∈ gPost.edges, e ∈ g.edges := by
    intro e he
    exact hpermP.subset (List.mem_append.mpr (Or.inl he))
  have hdropnd : (g.edges.filter (fun e => e.startId == id || e.endId == id)).Nodup :=
    hnodup.filter _
  have hkey : (gPost.edges ++ g.edges.filter
      (fun e => e.startId == id || e.endId == id)).Perm g.edges := by
    refine perm_of_nodup_ext ?_ hnodup ?_
    · rw [List.nodup_append]
      refine ⟨hPostnd, hdropnd, ?_⟩
      intro x hx hx2
      have hno := hnoP x hx
      have hq := (List.mem_filter.mp hx2).2
      simp only [Bool.or_eq_true, beq_iff_eq] at hq
      rcases hq with h1 | h1
      · exact hno.1 h1
      · exact hno.2 h1
    · intro x
      constructor
      · intro hx
        rcases List.mem_append.mp hx with h1 | h1
        · exact hPostsub x h1
        · exact (List.mem_filter.mp h1).1
      · intro hx
        have hx' : x ∈ gPost.edges ++ removed := hpermP.mem_iff.mpr hx
        rcases List.mem_append.mp hx' with h1 | h1
        · exact List.mem_append.mpr (Or.inl h1)
        · refine List.mem_append.mpr (Or.inr ?_)
          rw [List.mem_filter]
          refine ⟨hx, ?_⟩
          rcases (hincP x h1).1 with h2 | h2 <;> simp [h2]
  have hielSome : ∀ e ∈ g.edges.filter (fun e => e.startId == id || e.endId == id),
      (mget e.startId (DG.insert_node_unregistered
        { gPost with undo_history := ⟨pre, g.undo_history.cap⟩ }
        nd).neighbors_after).isSome = true ∧
      (mget e.endId (DG.insert_node_unregistered
        { gPost with undo_history := ⟨pre, g.undo_history.cap⟩ }
        nd).neighbors_before).isSome = true := by
    intro e he
    have heg : e ∈ g.edges := (List.mem_filter.mp he).1
    have hterm := w7 e heg
    have hsg : (mget e.startId g.neighbors_after).isSome = true :=
      (dg_wf_adj_of_node g hwf e.startId (mget_isSome_of_key_mem g.nodes e.startId
        (by simpa [DG.all_node_ids] using w1)
        (by simpa [DG.all_node_ids] using hterm.1))).2
    have hbg : (mget e.endId g.neighbors_before).isSome = true :=
      (dg_wf_adj_of_node g hwf e.endId (mget_isSome_of_key_mem g.nodes e.endId
        (by simpa [DG.all_node_ids] using w1)
        (by simpa [DG.all_node_ids] using hterm.2))).1
    exact ⟨hiAm e.startId ((haP e.startId).trans hsg),
           hiBm e.endId ((hbP e.endId).trans hbg)⟩
  have hndIel : (((DG.insert_node_unregistered
      { gPost with undo_history := ⟨pre, g.undo_history.cap⟩ } nd).edges ++
      g.edges.filter (fun e => e.startId == id || e.endId == id)).map
      DG.edgePair).Nodup := by
    rw [hiE]
    show ((gPost.edges ++ g.edges.filter
      (fun e => e.startId == id || e.endId == id)).map DG.edgePair).Nodup
    exact (hkey.map DG.edgePair).nodup_iff.mpr w6
  obtain ⟨gFin, hloop, hnF, hmF, huF, heF, hbF, haF, hinvF⟩ :=
    dg_iel_effect (g.edges.filter (fun e => e.startId == id || e.endId == id))
      (DG.insert_node_unregistered
        { gPost with undo_history := ⟨pre, g.undo_history.cap⟩ } nd)
      hiInv hielSome hndIel
  simp only [DG.undoArm, hloop]
  refine ⟨gFin, rfl, ?_⟩
  refine dg_obsEq_of g gFin hwf hinvF ?_ ?_
  · intro k
    rw [hnF, hiN]
    show mget k (mput nd.id nd gPost.nodes) = mget k g.nodes
    rw [hndid, hnP]
    by_cases hk : k = id
    · subst hk
      rw [mget_mput_self, hm]
    · rw [mget_mput_ne _ _ _ _ hk, mget_mdel_ne _ _ _ hk]
      rfl
  · rw [heF, hiE]
    show (gPost.edges ++ g.edges.filter
      (fun e => e.startId == id || e.endId == id)).Perm g.edges
    exact hkey

theorem dg_rt_insert_node_along (g : DG.DiGraph TN TE) (nid a b : Id)
    (g' : DG.DiGraph TN TE) (hwf : DG.WF g) (hcap : 0 < g.undo_history.cap)
    (hok : DG.insert_node_along g nid a b = .ok g') :
    ∃ g2, DG.undo g' = .ok g2 ∧ DG.ObsEq g g2 := by
  have hwf2 := hwf
  obtain ⟨w1, w2, w3, w4, w5, w6, w7, w8, w9⟩ := hwf2
  have hinv := dg_wf_edgeAdjInv g hwf
  simp only [DG.insert_node_along, DG.check_add_node, dg_bare_node_id] at hok
  cases hp : DG.node_id_present g.nodes nid <;>
    simp [hp, DG.GraphChange.try_get_node, DG.check_remove_edge] at hok
  have hfreshN : mget nid g.nodes = none := by
    rcases hm : mget nid g.nodes with _ | v
    · rfl
    · simp [DG.node_id_present, hm] at hp
  have hnidFresh := dg_wf_fresh_edges g hwf nid hfreshN
  rcases hei : DG.edge_index a b g.edges with _ | i <;>
    simp only [hei, DG.GraphChange.try_get_edge] at hok
  · cases hok
  obtain ⟨ed, hgi, hsa, hsb⟩ := DG.edge_index_specD a b g.edges i hei
  rw [hgi] at hok
  simp only [DG.GraphChange.try_get_edge] at hok
  have hedm : ed ∈ g.edges := by
    obtain ⟨hlt, hgt⟩ := List.getElem?_eq_some.mp hgi
    exact hgt ▸ List.getElem_mem hlt
  have haKey : (mget a g.nodes).isSome = true := by
    have hs := (w7 ed hedm).1
    rw [hsa] at hs
    exact mget_isSome_of_key_mem g.nodes a (by simpa [DG.all_node_ids] using w1)
      (by simpa [DG.all_node_ids] using hs)
  have hbKey : (mget b g.nodes).isSome = true := by
    have hs := (w7 ed hedm).2
    rw [hsb] at hs
    exact mget_isSome_of_key_mem g.nodes b (by simpa [DG.all_node_ids] using w1)
      (by simpa [DG.all_node_ids] using hs)
  have hag := (dg_wf_adj_of_node g hwf a haKey).2
  have hbg := (dg_wf_adj_of_node g hwf b hbKey).1
  obtain ⟨hiE, hiM, hiU, hiN, hiB, hiA, hiBm, hiAm, hiInv⟩ :=
    dg_inu_effect (DG.register_change g
        (.InsertNodeAlongEdge (DG.Node.bare nid) ed)) (DG.Node.bare nid)
      hinv hnidFresh
  have hpairED : (a, b) ∈ (DG.insert_node_unregistered (DG.register_change g
      (.InsertNodeAlongEdge (DG.Node.bare nid) ed))
      (DG.Node.bare nid)).edges.map DG.edgePair := by
    rw [hiE]
    show (a, b) ∈ g.edges.map DG.edgePair
    have hpe : DG.edgePair ed = (a, b) := by simp [DG.edgePair, hsa, hsb]
    exact hpe ▸ List.mem_map_of_mem DG.edgePair hedm
  obtain ⟨i2, ed2, g1x, hidx2, hgi2, hsa2, hsb2, hedm2, hreu2, hn1x, hm1x, hu1x,
    hperm1x, hb1x, ha1x, hinv1x⟩ := dg_reu_effect (DG.insert_node_unregistered
      (DG.register_change g (.InsertNodeAlongEdge (DG.Node.bare nid) ed))
      (DG.Node.bare nid)) a b hiInv hpairED
  have hii : i2 = i := by
    have hEq : (some i2 : Option Nat) = some i := by
      rw [← hidx2]
      exact hei
    exact Option.some.inj hEq
  subst hii
  simp only [hreu2] at hok
  have hsub1x : ∀ x ∈ g1x.edges, x ∈ g.edges := by
    intro x hx
    have hx2 : x ∈ g1x.edges ++ [ed2] := List.mem_append.mpr (Or.inl hx)
    exact hperm1x.subset hx2
  have hfresh1 : DG.edgePair (⟨a, nid, ed.data⟩ : DG.Edge TE) ∉
      g1x.edges.map DG.edgePair := by
    intro hx
    obtain ⟨x, hxm, hxp⟩ := List.mem_map.mp hx
    have hxg := hsub1x x hxm
    simp only [DG.edgePair, Prod.mk.injEq] at hxp
    exact (hnidFresh x hxg).2 hxp.2
  obtain ⟨g2x, hieu2, hn2x, hm2x, hu2x, he2x, hb2x, ha2x, hinv2x⟩ :=
    dg_ieu_effect g1x (⟨a, nid, ed.data⟩ : DG.Edge TE) hinv1x
      ((ha1x a).trans (hiAm a hag)) ((hb1x nid).trans hiB) hfresh1
  simp only [hieu2] at hok
  have hfresh2 : DG.edgePair (DG.Edge.bare nid b : DG.Edge TE) ∉
      g2x.edges.map DG.edgePair := by
    rw [he2x]
    intro hx
    rw [List.map_append] at hx
    rcases List.mem_append.mp hx with h1 | h1
    · obtain ⟨x, hxm, hxp⟩ := List.mem_map.mp h1
      have hxg := hsub1x x hxm
      simp only [DG.edgePair, DG.Edge.bare, Prod.mk.injEq] at hxp
      exact (hnidFresh x hxg).1 hxp.1
    · simp only [List.map_cons, List.map_nil, List.mem_singleton] at h1
      simp only [DG.edgePair, DG.Edge.bare, Prod.mk.injEq] at h1
      rw [h1.1] at hfreshN
      rw [hfreshN] at haKey
      cases haKey
  obtain ⟨g3x, hieu3, hn3x, hm3x, hu3x, he3x, hb3x, ha3x, hinv3x⟩ :=
    dg_ieu_effect g2x (DG.Edge.bare nid b) hinv2x
      ((ha2x nid).trans ((ha1x nid).trans hiA))
      ((hb2x b).trans ((hb1x b).trans (hiBm b hbg))) hfresh2
  simp only [hieu3, Res.ok.injEq] at hok
  subst hok
  obtain ⟨pre, hpre⟩ := dg_push_back_shape g.undo_history
    (.InsertNodeAlongEdge (DG.Node.bare nid) ed) hcap
  have huh : g3x.undo_history = ⟨pre ++
      [(.InsertNodeAlongEdge (DG.Node.bare nid) ed : DG.GraphChange TN TE)],
      g.undo_history.cap⟩ := by
    rw [hu3x, hu2x, hu1x, hiU]
    exact hpre
  rw [dg_undo_pop g3x _ pre g.undo_history.cap huh]
  simp only [DG.undoArm, dg_bare_node_id]
  have hbNid : (mget nid g3x.neighbors_before).isSome = true :=
    (hb3x nid).trans ((hb2x nid).trans ((hb1x nid).trans hiB))
  have haNid : (mget nid g3x.neighbors_after).isSome = true :=
    (ha3x nid).trans ((ha2x nid).trans ((ha1x nid).trans hiA))
  have hnNid : mget nid g3x.nodes = some (DG.Node.bare nid) := by
    rw [hn3x, hn2x, hn1x]
    show mget nid (mput nid (DG.Node.bare nid) (DG.register_change g
      (.InsertNodeAlongEdge (DG.Node.bare nid) ed)).nodes) =
      some (DG.Node.bare nid)
    exact mget_mput_self _ _ _
  obtain ⟨gU, removedU, hrnuU, hnU, hmU, huU, hpermU, hincU, hnoU, hbU, haU,
    hinvU⟩ := dg_rnu_effect
      ({ g3x with undo_history := ⟨pre, g.undo_history.cap⟩ }) nid
      (DG.Node.bare nid) (dg_inv_transfer g3x _ rfl rfl rfl hinv3x)
      hbNid haNid hnNid
  simp only [hrnuU]
  have hed2 : ed2 = ed := dg_pair_unique hinv.1
    (show ed2 ∈ g.edges from hedm2) hedm
    (by simp [DG.edgePair, hsa2, hsb2, hsa, hsb])
  have hperm1g : (g1x.edges ++ [ed]).Perm g.edges := by
    have h1 := hperm1x
    rw [hed2] at h1
    exact h1
  have hgpe : g3x.edges = g1x.edges ++ [(⟨a, nid, ed.data⟩ : DG.Edge TE),
      DG.Edge.bare nid b] := by
    rw [he3x, he2x]
    simp
  have hednP : g3x.edges.Nodup := hinv3x.1.of_map
  have hremnd : removedU.Nodup := (hpermU.nodup_iff.mpr hednP).of_append_right
  have he1ne2 : (⟨a, nid, ed.data⟩ : DG.Edge TE) ≠ DG.Edge.bare nid b := by
    intro hx
    have h2 : a = nid := congrArg DG.Edge.startId hx
    rw [h2] at haKey
    rw [hfreshN] at haKey
    cases haKey
  have hremChar : removedU.Perm [(⟨a, nid, ed.data⟩ : DG.Edge TE),
      DG.Edge.bare nid b] := by
    refine perm_of_nodup_ext hremnd (by simp [he1ne2]) ?_
    intro x
    constructor
    · intro hx
      have hxin3 : x ∈ g3x.edges := (hincU x hx).2
      have hinc := (hincU x hx).1
      rw [hgpe] at hxin3
      rcases List.mem_append.mp hxin3 with h1 | h1
      · have hxg := hsub1x x h1
        rcases hinc with h2 | h2
        · exact absurd h2 (hnidFresh x hxg).1
        · exact absurd h2 (hnidFresh x hxg).2
      · exact h1
    · intro hx
      have hxin3 : x ∈ g3x.edges := by
        rw [hgpe]
        exact List.mem_append.mpr (Or.inr hx)
      have hxgp : x ∈ gU.edges ++ removedU := hpermU.mem_iff.mpr hxin3
      rcases List.mem_append.mp hxgp with h1 | h1
      · rcases List.mem_cons.mp hx with h2 | h2
        · subst h2
          exact absurd rfl ((hnoU _ h1).2)
        · rcases List.mem_cons.mp h2 with h3 | h3
          · subst h3
            exact absurd rfl ((hnoU _ h1).1)
          · cases h3
      · exact h1
  have hpermUg : gU.edges.Perm g1x.edges := by
    refine perm_append_cancel ?_ hremChar
    have h2 : (gU.edges ++ removedU).Perm g3x.edges := hpermU
    rw [hgpe] at h2
    exact h2
  have hfreshFin : DG.edgePair ed ∉ gU.edges.map DG.edgePair := by
    intro hx
    have hx1 : DG.edgePair ed ∈ g1x.edges.map DG.edgePair :=
      (hpermUg.map DG.edgePair).subset hx
    have hpp : ((g1x.edges.map DG.edgePair) ++ [DG.edgePair ed]).Perm
        (g.edges.map DG.edgePair) := by
      have hmm := hperm1g.map DG.edgePair
      simpa using hmm
    have hnd3 := hpp.nodup_iff.mpr w6
    rw [List.nodup_append] at hnd3
    exact hnd3.2.2 hx1 (by simp)
  have hsFin : (mget a gU.neighbors_after).isSome = true :=
    (haU a).trans ((ha3x a).trans ((ha2x a).trans ((ha1x a).trans (hiAm a hag))))
  have htFin : (mget b gU.neighbors_before).isSome = true :=
    (hbU b).trans ((hb3x b).trans ((hb2x b).trans ((hb1x b).trans (hiBm b hbg))))
  obtain ⟨gFin, hieuF, hnF, hmF, huF, heF, hbF, haF, hinvF⟩ :=
    dg_ieu_effect gU ed hinvU (by rw [hsa]; exact hsFin)
      (by rw [hsb]; exact htFin) hfreshFin
  simp only [hieuF]
  refine ⟨gFin, rfl, ?_⟩
  refine dg_obsEq_of g gFin hwf hinvF ?_ ?_
  · intro k
    rw [hnF, hnU]
    show mget k (mdel nid g3x.nodes) = mget k g.nodes
    rw [hn3x, hn2x, hn1x]
    show mget k (mdel nid (mput nid (DG.Node.bare nid) (DG.register_change g
      (.InsertNodeAlongEdge (DG.Node.bare nid) ed)).nodes)) = mget k g.nodes
    by_cases hk : k = nid
    · subst hk
      rw [mget_mdel_self, hfreshN]
    · rw [mget_mdel_ne _ _ _ hk, mget_mput_ne _ _ _ _ hk]
      rfl
  · rw [heF]
    exact (hpermUg.append_right [ed]).trans hperm1g

theorem dg_nip_false {TN : Type} (nodes : List (Id × DG.Node TN)) (q : Id)
    (h : DG.node_id_present nodes q = false) : mget q nodes = none := by
  rcases hm : mget q nodes with _ | v
  · rfl
  · simp [DG.node_id_present, hm] at h

theorem dg_nip_true {TN : Type} (nodes : List (Id × DG.Node TN)) (q : Id)
    (h : DG.node_id_present nodes q = true) : (mget q nodes).isSome = true := by
  simpa [DG.node_id_present] using h

theorem dg_rt_insert_edge_with_nodes (g : DG.DiGraph TN TE) (a b : Id)
    (g' : DG.DiGraph TN TE) (hwf : DG.WF g) (hcap : 0 < g.undo_history.cap)
    (hexcl : ¬(a = b ∧ mget a g.nodes = none))
    (hok : DG.insert_edge_with_nodes g a b = .ok g') :
    ∃ g2, DG.undo g' = .ok g2 ∧ DG.ObsEq g g2 := by
  have hwf2 := hwf
  obtain ⟨w1, w2, w3, w4, w5, w6, w7, w8, w9⟩ := hwf2
  have hinv := dg_wf_edgeAdjInv g hwf
  simp only [DG.insert_edge_with_nodes, DG.check_add_edge_with_nodes] at hok
  rcases hei : DG.edge_index a b g.edges with _ | i <;>
    simp only [hei, DG.GraphChange.try_get_edge_with_nodes] at hok
  case some => cases hok
  case none =>
  have hpairG : (a, b) ∉ g.edges.map DG.edgePair := by
    rw [DG.edge_index_eq_none_iffD] at hei
    exact hei
  cases hpa : DG.node_id_present g.nodes a <;>
    cases hpb : DG.node_id_present g.nodes b <;>
    simp only [hpa, hpb, Bool.false_eq_true, if_false, if_true] at hok
  · -- both endpoints absent: two synthesized nodes
    have hfa := dg_nip_false g.nodes a hpa
    have hfb := dg_nip_false g.nodes b hpb
    have hab : a ≠ b := fun hx => hexcl ⟨hx, hfa⟩
    have haFresh := dg_wf_fresh_edges g hwf a hfa
    have hbFresh := dg_wf_fresh_edges g hwf b hfb
    obtain ⟨hiE1, hiM1, hiU1, hiN1, hiB1, hiA1, hiBm1, hiAm1, hiInv1⟩ :=
      dg_inu_effect g (DG.Node.bare a) hinv haFresh
    obtain ⟨hiE2, hiM2, hiU2, hiN2, hiB2, hiA2, hiBm2, hiAm2, hiInv2⟩ :=
      dg_inu_effect (DG.insert_node_unregistered g (DG.Node.bare a))
        (DG.Node.bare b) hiInv1 (by rw [hiE1]; exact hbFresh)
    have hfreshE : DG.edgePair (DG.Edge.bare a b : DG.Edge TE) ∉
        (DG.insert_node_unregistered (DG.insert_node_unregistered g
          (DG.Node.bare a)) (DG.Node.bare b)).edges.map DG.edgePair := by
      rw [hiE2, hiE1]
      simpa [DG.edgePair, DG.Edge.bare] using hpairG
    obtain ⟨gE, hieuE, hnE, hmE, huE, heE, hbE, haE, hinvE⟩ :=
      dg_ieu_effect (DG.insert_node_unregistered (DG.insert_node_unregistered g
        (DG.Node.bare a)) (DG.Node.bare b)) (DG.Edge.bare a b) hiInv2
        (hiAm2 a hiA1) hiB2 hfreshE
    simp only [hieuE, Res.ok.injEq] at hok
    subst hok
    obtain ⟨pre, hpre⟩ := dg_push_back_shape g.undo_history
      (.AddEdgeWith (DG.Edge.bare a b) (some a) (some b)) hcap
    have huh : (DG.register_change gE
        (.AddEdgeWith (DG.Edge.bare a b) (some a) (some b))).undo_history =
        ⟨pre ++ [(.AddEdgeWith (DG.Edge.bare a b) (some a) (some b) :
          DG.GraphChange TN TE)], g.undo_history.cap⟩ := by
      show (gE.undo_history.push_back _).1 = _
      rw [huE, hiU2, hiU1]
      exact hpre
    rw [dg_undo_pop _ _ pre g.undo_history.cap huh]
    simp only [DG.undoArm]
    have hEdgesE : gE.edges = g.edges ++ [DG.Edge.bare a b] := by
      rw [heE, hiE2, hiE1]
    have hnA : mget a gE.nodes = some (DG.Node.bare a) := by
      rw [hnE, hiN2, hiN1]
      show mget a (mput b (DG.Node.bare b)
        (mput a (DG.Node.bare a) g.nodes)) = _
      rw [mget_mput_ne _ _ _ _ hab, mget_mput_self]
    have hcharA : ∀ x ∈ gE.edges, x.startId = a ∨ x.endId = a →
        x = DG.Edge.bare a b := by
      intro x hx hix
      rw [hEdgesE] at hx
      rcases List.mem_append.mp hx with h1 | h1
      · rcases hix with h2 | h2
        · exact absurd h2 (haFresh x h1).1
        · exact absurd h2 (haFresh x h1).2
      · simpa using h1
    have hememA : DG.Edge.bare a b ∈ gE.edges := by
      rw [hEdgesE]; simp
    obtain ⟨gU1, hrnu1, hnU1, hmU1, huU1, hpermU1, hbU1, haU1, hinvU1⟩ :=
      dg_rnu_single_effect ({ DG.register_change gE
          (.AddEdgeWith (DG.Edge.bare a b) (some a) (some b)) with
          undo_history := ⟨pre, g.undo_history.cap⟩ }) a (DG.Node.bare a)
        (DG.Edge.bare a b) (dg_inv_transfer gE _ rfl rfl rfl hinvE)
        ((hbE a).trans (hiBm2 a hiB1)) ((haE a).trans (hiAm2 a hiA1)) hnA
        hcharA hememA (Or.inl rfl)
    simp only [hrnu1, Option.map_some']
    have hndE : gE.edges.Nodup := hinvE.1.of_map
    have hU1sub : ∀ x ∈ gU1.edges, x ∈ g.edges := by
      intro x hx
      have hx2 : x ∈ gU1.edges ++ [DG.Edge.bare a b] :=
        List.mem_append.mpr (Or.inl hx)
      have hx3 : x ∈ gE.edges := hpermU1.subset hx2
      rw [hEdgesE] at hx3
      rcases List.mem_append.mp hx3 with h1 | h1
      · exact h1
      · exfalso
        have hnd2 := hpermU1.nodup_iff.mpr hndE
        rw [List.nodup_append] at hnd2
        have hxe : x = DG.Edge.bare a b := by simpa using h1
        exact hnd2.2.2 (hxe ▸ hx) (by simp)
    have hnB : mget b gU1.nodes = some (DG.Node.bare b) := by
      rw [hnU1]
      show mget b (mdel a gE.nodes) = _
      rw [mget_mdel_ne _ _ _ (Ne.symm hab)]
      rw [hnE, hiN2, hiN1]
      show mget b (mput b (DG.Node.bare b)
        (mput a (DG.Node.bare a) g.nodes)) = _
      rw [mget_mput_self]
    have hcharB : ∀ x ∈ gU1.edges, x.startId ≠ b ∧ x.endId ≠ b :=
      fun x hx => hbFresh x (hU1sub x hx)
    obtain ⟨gU2, hrnu2, hnU2, hmU2, huU2, hpermU2, hbU2, haU2, hinvU2⟩ :=
      dg_rnu_empty_effect gU1 b (DG.Node.bare b) hinvU1
        ((hbU1 b).trans ((hbE b).trans hiB2))
        ((haU1 b).trans ((haE b).trans hiA2)) hnB hcharB
    simp only [hrnu2, Option.map_some']
    have hU1perm : gU1.edges.Perm g.edges := by
      refine perm_append_cancel ?_ (List.Perm.refl [DG.Edge.bare a b])
      have h2 : (gU1.edges ++ [DG.Edge.bare a b]).Perm gE.edges := hpermU1
      rw [hEdgesE] at h2
      exact h2
    have hU2perm : gU2.edges.Perm g.edges := hpermU2.trans hU1perm
    have hidxN : DG.edge_index a b gU2.edges = none := by
      rw [DG.edge_index_eq_none_iffD]
      intro hx
      exact hpairG ((hU2perm.map DG.edgePair).subset hx)
    simp only [dg_bare_startId, dg_bare_endId, hidxN]
    refine ⟨gU2, rfl, ?_⟩
    refine dg_obsEq_of g gU2 hwf hinvU2 ?_ hU2perm
    intro k
    rw [hnU2, hnU1]
    show mget k (mdel b (mdel a gE.nodes)) = mget k g.nodes
    rw [hnE, hiN2, hiN1]
    show mget k (mdel b (mdel a (mput b (DG.Node.bare b)
      (mput a (DG.Node.bare a) g.nodes)))) = mget k g.nodes
    by_cases hkb : k = b
    · subst hkb
      rw [mget_mdel_self, hfb]
    · rw [mget_mdel_ne _ _ _ hkb]
      by_cases hka : k = a
      · subst hka
        rw [mget_mdel_self, hfa]
      · rw [mget_mdel_ne _ _ _ hka, mget_mput_ne _ _ _ _ hkb,
            mget_mput_ne _ _ _ _ hka]
  · -- start absent, end present: one synthesized node
    have hfa := dg_nip_false g.nodes a hpa
    have hpresB := dg_nip_true g.nodes b hpb
    have hab : a ≠ b := by
      intro hx
      rw [hx] at hfa
      rw [hfa] at hpresB
      cases hpresB
    have haFresh := dg_wf_fresh_edges g hwf a hfa
    have hadjB := dg_wf_adj_of_node g hwf b hpresB
    obtain ⟨hiE1, hiM1, hiU1, hiN1, hiB1, hiA1, hiBm1, hiAm1, hiInv1⟩ :=
      dg_inu_effect g (DG.Node.bare a) hinv haFresh
    have hfreshE : DG.edgePair (DG.Edge.bare a b : DG.Edge TE) ∉
        (DG.insert_node_unregistered g (DG.Node.bare a)).edges.map
        DG.edgePair := by
      rw [hiE1]
      simpa [DG.edgePair, DG.Edge.bare] using hpairG
    obtain ⟨gE, hieuE, hnE, hmE, huE, heE, hbE, haE, hinvE⟩ :=
      dg_ieu_effect (DG.insert_node_unregistered g (DG.Node.bare a))
        (DG.Edge.bare a b) hiInv1 hiA1 (hiBm1 b hadjB.1) hfreshE
    simp only [hieuE, Res.ok.injEq] at hok
    subst hok
    obtain ⟨pre, hpre⟩ := dg_push_back_shape g.undo_history
      (.AddEdgeWith (DG.Edge.bare a b) (some a) none) hcap
    have huh : (DG.register_change gE
        (.AddEdgeWith (DG.Edge.bare a b) (some a) none)).undo_history =
        ⟨pre ++ [(.AddEdgeWith (DG.Edge.bare a b) (some a) none :
          DG.GraphChange TN TE)], g.undo_history.cap⟩ := by
      show (gE.undo_history.push_back _).1 = _
      rw [huE, hiU1]
      exact hpre
    rw [dg_undo_pop _ _ pre g.undo_history.cap huh]
    simp only [DG.undoArm]
    have hEdgesE : gE.edges = g.edges ++ [DG.Edge.bare a b] := by
      rw [heE, hiE1]
    have hnA : mget a gE.nodes = some (DG.Node.bare a) := by
      rw [hnE, hiN1]
      show mget a (mput a (DG.Node.bare a) g.nodes) = _
      rw [mget_mput_self]
    have hcharA : ∀ x ∈ gE.edges, x.startId = a ∨ x.endId = a →
        x = DG.Edge.bare a b := by
      intro x hx hix
      rw [hEdgesE] at hx
      rcases List.mem_append.mp hx with h1 | h1
      · rcases hix with h2 | h2
        · exact absurd h2 (haFresh x h1).1
        · exact absurd h2 (haFresh x h1).2
      · simpa using h1
    have hememA : DG.Edge.bare a b ∈ gE.edges := by
      rw [hEdgesE]; simp
    obtain ⟨gU1, hrnu1, hnU1, hmU1, huU1, hpermU1, hbU1, haU1, hinvU1⟩ :=
      dg_rnu_single_effect ({ DG.register_change gE
          (.AddEdgeWith (DG.Edge.bare a b) (some a) none) with
          undo_history := ⟨pre, g.undo_history.cap⟩ }) a (DG.Node.bare a)
        (DG.Edge.bare a b) (dg_inv_transfer gE _ rfl rfl rfl hinvE)
        ((hbE a).trans hiB1) ((haE a).trans hiA1) hnA hcharA hememA
        (Or.inl rfl)
    simp only [hrnu1, Option.map_some']
    have hU1perm : gU1.edges.Perm g.edges := by
      refine perm_append_cancel ?_ (List.Perm.refl [DG.Edge.bare a b])
      have h2 : (gU1.edges ++ [DG.Edge.bare a b]).Perm gE.edges := hpermU1
      rw [hEdgesE] at h2
      exact h2
    have hidxN : DG.edge_index a b gU1.edges = none := by
      rw [DG.edge_index_eq_none_iffD]
      intro hx
      exact hpairG ((hU1perm.map DG.edgePair).subset hx)
    simp only [dg_bare_startId, dg_bare_endId, hidxN]
    refine ⟨gU1, rfl, ?_⟩
    refine dg_obsEq_of g gU1 hwf hinvU1 ?_ hU1perm
    intro k
    rw [hnU1]
    show mget k (mdel a gE.nodes) = mget k g.nodes
    rw [hnE, hiN1]
    show mget k (mdel a (mput a (DG.Node.bare a) g.nodes)) = mget k g.nodes
    by_cases hka : k = a
    · subst hka
      rw [mget_mdel_self, hfa]
    · rw [mget_mdel_ne _ _ _ hka, mget_mput_ne _ _ _ _ hka]
  · -- start present, end absent: one synthesized node
    have hpresA := dg_nip_true g.nodes a hpa
    have hfb := dg_nip_false g.nodes b hpb
    have hab : a ≠ b := by
      intro hx
      rw [hx] at hpresA
      rw [hfb] at hpresA
      cases hpresA
    have hbFresh := dg_wf_fresh_edges g hwf b hfb
    have hadjA := dg_wf_adj_of_node g hwf a hpresA
    obtain ⟨hiE1, hiM1, hiU1, hiN1, hiB1, hiA1, hiBm1, hiAm1, hiInv1⟩ :=
      dg_inu_effect g (DG.Node.bare b) hinv hbFresh
    have hfreshE : DG.edgePair (DG.Edge.bare a b : DG.Edge TE) ∉
        (DG.insert_node_unregistered g (DG.Node.bare b)).edges.map
        DG.edgePair := by
      rw [hiE1]
      simpa [DG.edgePair, DG.Edge.bare] using hpairG
    obtain ⟨gE, hieuE, hnE, hmE, huE, heE, hbE, haE, hinvE⟩ :=
      dg_ieu_effect (DG.insert_node_unregistered g (DG.Node.bare b))
        (DG.Edge.bare a b) hiInv1 (hiAm1 a hadjA.2) hiB1 hfreshE
    simp only [hieuE, Res.ok.injEq] at hok
    subst hok
    obtain ⟨pre, hpre⟩ := dg_push_back_shape g.undo_history
      (.AddEdgeWith (DG.Edge.bare a b) none (some b)) hcap
    have huh : (DG.register_change gE
        (.AddEdgeWith (DG.Edge.bare a b) none (some b))).undo_history =
        ⟨pre ++ [(.AddEdgeWith (DG.Edge.bare a b) none (some b) :
          DG.GraphChange TN TE)], g.undo_history.cap⟩ := by
      show (gE.undo_history.push_back _).1 = _
      rw [huE, hiU1]
      exact hpre
    rw [dg_undo_pop _ _ pre g.undo_history.cap huh]
    simp only [DG.undoArm]
    have hEdgesE : gE.edges = g.edges ++ [DG.Edge.bare a b] := by
      rw [heE, hiE1]
    have hnB : mget b gE.nodes = some (DG.Node.bare b) := by
      rw [hnE, hiN1]
      show mget b (mput b (DG.Node.bare b) g.nodes) = _
      rw [mget_mput_self]
    have hcharB : ∀ x ∈ gE.edges, x.startId = b ∨ x.endId = b →
        x = DG.Edge.bare a b := by
      intro x hx hix
      rw [hEdgesE] at hx
      rcases List.mem_append.mp hx with h1 | h1
      · rcases hix with h2 | h2
        · exact absurd h2 (hbFresh x h1).1
        · exact absurd h2 (hbFresh x h1).2
      · simpa using h1
    have hememB : DG.Edge.bare a b ∈ gE.edges := by
      rw [hEdgesE]; simp
    obtain ⟨gU1, hrnu1, hnU1, hmU1, huU1, hpermU1, hbU1, haU1, hinvU1⟩ :=
      dg_rnu_single_effect ({ DG.register_change gE
          (.AddEdgeWith (DG.Edge.bare a b) none (some b)) with
          undo_history := ⟨pre, g.undo_history.cap⟩ }) b (DG.Node.bare b)
        (DG.Edge.bare a b) (dg_inv_transfer gE _ rfl rfl rfl hinvE)
        ((hbE b).trans hiB1) ((haE b).trans hiA1) hnB hcharB hememB
        (Or.inr rfl)
    simp only [hrnu1, Option.map_some']
    have hU1perm : gU1.edges.Perm g.edges := by
      refine perm_append_cancel ?_ (List.Perm.refl [DG.Edge.bare a b])
      have h2 : (gU1.edges ++ [DG.Edge.bare a b]).Perm gE.edges := hpermU1
      rw [hEdgesE] at h2
      exact h2
    have hidxN : DG.edge_index a b gU1.edges = none := by
      rw [DG.edge_index_eq_none_iffD]
      intro hx
      exact hpairG ((hU1perm.map DG.edgePair).subset hx)
    simp only [dg_bare_startId, dg_bare_endId, hidxN]
    refine ⟨gU1, rfl, ?_⟩
    refine dg_obsEq_of g gU1 hwf hinvU1 ?_ hU1perm
    intro k
    rw [hnU1]
    show mget k (mdel b gE.nodes) = mget k g.nodes
    rw [hnE, hiN1]
    show mget k (mdel b (mput b (DG.Node.bare b) g.nodes)) = mget k g.nodes
    by_cases hkb : k = b
    · subst hkb
      rw [mget_mdel_self, hfb]
    · rw [mget_mdel_ne _ _ _ hkb, mget_mput_ne _ _ _ _ hkb]
  · -- both endpoints present: no synthesized nodes, undo removes the edge
    have hpresA := dg_nip_true g.nodes a hpa
    have hpresB := dg_nip_true g.nodes b hpb
    have hadjA := dg_wf_adj_of_node g hwf a hpresA
    have hadjB := dg_wf_adj_of_node g hwf b hpresB
    have hfreshE : DG.edgePair (DG.Edge.bare a b : DG.Edge TE) ∉
        g.edges.map DG.edgePair := by
      simpa [DG.edgePair, DG.Edge.bare] using hpairG
    obtain ⟨gE, hieuE, hnE, hmE, huE, heE, hbE, haE, hinvE⟩ :=
      dg_ieu_effect g (DG.Edge.bare a b) hinv hadjA.2 hadjB.1 hfreshE
    simp only [hieuE, Res.ok.injEq] at hok
    subst hok
    obtain ⟨pre, hpre⟩ := dg_push_back_shape g.undo_history
      (.AddEdgeWith (DG.Edge.bare a b) none none) hcap
    have huh : (DG.register_change gE
        (.AddEdgeWith (DG.Edge.bare a b) none none)).undo_history =
        ⟨pre ++ [(.AddEdgeWith (DG.Edge.bare a b) none none :
          DG.GraphChange TN TE)], g.undo_history.cap⟩ := by
      show (gE.undo_history.push_back _).1 = _
      rw [huE]
      exact hpre
    rw [dg_undo_pop _ _ pre g.undo_history.cap huh]
    simp only [DG.undoArm]
    have hpairE : (a, b) ∈ gE.edges.map DG.edgePair := by
      rw [heE]
      simp [DG.edgePair, DG.Edge.bare]
    obtain ⟨i3, ed3, gFin, hidx3, hgi3, hsa3, hsb3, hedm3, hreu3, hn3, hm3, hu3,
      hperm3, hb3, ha3, hinv3⟩ :=
      dg_reu_effect ({ DG.register_change gE
          (.AddEdgeWith (DG.Edge.bare a b) none none) with
          undo_history := ⟨pre, g.undo_history.cap⟩ }) a b
        (dg_inv_transfer gE _ rfl rfl rfl hinvE) hpairE
    simp only [dg_bare_startId, dg_bare_endId, hidx3, hreu3]
    refine ⟨gFin, rfl, ?_⟩
    have hedm3E : ed3 ∈ gE.edges := hedm3
    have hememE : DG.Edge.bare a b ∈ gE.edges := by
      rw [heE]; simp
    have hed3 : ed3 = DG.Edge.bare a b := dg_pair_unique hinvE.1 hedm3E hememE
      (by simp [DG.edgePair, DG.Edge.bare, hsa3, hsb3])
    refine dg_obsEq_of g gFin hwf hinv3 ?_ ?_
    · intro k
      rw [hn3]
      show mget k gE.nodes = mget k g.nodes
      rw [hnE]
    · have h1 : (gFin.edges ++ [ed3]).Perm gE.edges := hperm3
      rw [hed3, heE] at h1
      exact perm_append_cancel h1 (List.Perm.refl [DG.Edge.bare a b])

/-- C1: the claimed exact round-trip (undo immediately after any single
successful mutating call restores the node set, edge set, degree map and
adjacency index to exactly their pre-call values) is false as stated: undo
never deletes the (empty) adjacency entries a call synthesized, and undoing
an `insert_edge_with_nodes` self-loop on an absent id panics.  This amended
form holds: for a well-formed pre-call state with positive history capacity,
undo immediately after any single successful mutating call succeeds and
restores the pre-call graph up to observational equality (node map pointwise,
edge multiset, adjacency multisets with an absent entry reading as empty, and
in/out degrees), with `insert_edge_with_nodes` excluding the panicking
self-loop-on-absent-id case. -/
theorem C1_undo_roundtrip {TN TE : Type} (g : DG.DiGraph TN TE)
    (hwf : DG.WF g) (hcap : 0 < g.undo_history.cap) :
    (∀ n g', DG.insert_node g n = .ok g' →
      ∃ g2, DG.undo g' = .ok g2 ∧ DG.ObsEq g g2) ∧
    (∀ e g', DG.insert_edge g e = .ok g' →
      ∃ g2, DG.undo g' = .ok g2 ∧ DG.ObsEq g g2) ∧
    (∀ id g', DG.remove_node g id = .ok g' →
      ∃ g2, DG.undo g' = .ok g2 ∧ DG.ObsEq g g2) ∧
    (∀ a b g', DG.remove_edge g a b = .ok g' →
      ∃ g2, DG.undo g' = .ok g2 ∧ DG.ObsEq g g2) ∧
    (∀ a b g', ¬(a = b ∧ mget a g.nodes = none) →
      DG.insert_edge_with_nodes g a b = .ok g' →
      ∃ g2, DG.undo g' = .ok g2 ∧ DG.ObsEq g g2) ∧
    (∀ nid a b g', DG.insert_node_along g nid a b = .ok g' →
      ∃ g2, DG.undo g' = .ok g2 ∧ DG.ObsEq g g2) :=
  ⟨fun n g' hok => dg_rt_insert_node g n g' hwf hcap hok,
   fun e g' hok => dg_rt_insert_edge g e g' hwf hcap hok,
   fun id g' hok => dg_rt_remove_node g id g' hwf hcap hok,
   fun a b g' hok => dg_rt_remove_edge g a b g' hwf hcap hok,
   fun a b g' hexcl hok =>
     dg_rt_insert_edge_with_nodes g a b g' hwf hcap hexcl hok,
   fun nid a b g' hok => dg_rt_insert_node_along g nid a b g' hwf hcap hok⟩

/-- C1 counterexample to exactness: inserting node 5 into the default graph
and undoing leaves a leftover empty `neighbors_after` entry for id 5 (absent
before the call), so the adjacency index is not restored exactly; and
`insert_edge_with_nodes 7 7` on the default graph succeeds while its
immediate undo panics (the `AddEdgeWith` descriptor tries to remove the one
synthesized node twice). -/
theorem C1_undo_roundtrip_counterexample :
    (∃ g' g2, DG.insert_node (DG.DiGraph.default Unit Unit) (DG.Node.bare 5) =
        Res.ok g' ∧
      DG.undo g' = Res.ok g2 ∧ mget 5 g2.neighbors_after = some [] ∧
      mget 5 (DG.DiGraph.default Unit Unit).neighbors_after = none) ∧
    (∃ gx, DG.insert_edge_with_nodes (DG.DiGraph.default Unit Unit) 7 7 =
        Res.ok gx ∧ DG.undo gx = Res.panic) :=
  ⟨⟨_, _, rfl, rfl, rfl, rfl⟩, ⟨_, rfl, rfl⟩⟩

/-- Witness for C1: the spec's example graph is well-formed with positive
history capacity, and removing edge 1 -> 2 then undoing succeeds and is
observationally equal to the original. -/
theorem C1_undo_roundtrip_witness :
    DG.WF DG.dgD ∧ 0 < DG.dgD.undo_history.cap ∧
    ∃ g2, DG.undo ((DG.remove_edge DG.dgD 1 2).okState?.getD DG.dgD) =
        Res.ok g2 ∧ DG.ObsEq DG.dgD g2 :=
  ⟨by decide, by decide,
   (C1_undo_roundtrip DG.dgD (by decide) (by decide)).2.2.2.1 1 2
     ((DG.remove_edge DG.dgD 1 2).okState?.getD DG.dgD) (by rfl)⟩

end C1Ops

end Arboreal
